import Mathlib

/-!
Route pagination: a shallow embedding of `useRoutePagination.js`.

The composable keeps the page, the page size and the filters of a list view in
step with the query string of the current route and drives the paged fetch.

Modelling conventions.

* JavaScript values that reach the module are the primitives `undefined`,
  `null`, booleans, numbers and strings.  Numbers are IEEE doubles: a finite one
  is held by its exact value, an integer `n` or a quotient `m / 2 ^ k`, and every
  arithmetic result and every number read from a string is rounded to the
  nearest double, a tie to the even significand, as the language does.
* An object used as a dictionary (`queryParams`, `filters`, `route.value.query`,
  the built `query`, the payload) is an association list in insertion order with
  pairwise distinct keys; only own properties are modelled.
* `queryParams[k]` and `filters[k]` hold refs.  The dictionary entry of the model
  holds the `.value` of the ref; reading or writing `.value` through a key that
  has no entry is the `TypeError` of the source.
* `camelToUnderscore` (module `./filter`) is not part of the sources.  Every
  definition takes it as the parameter `c2u`; a concrete model is provided for
  evaluation.
-/

namespace RoutePagination

/-! ## Values -/

/-- Primitive JavaScript values.  A number is `NaN`, an infinity, or a finite
double held by its exact value: `num n` is the integer `n` (`num 0` is the
positive zero), `negZero` is the negative zero, and `frac m k` is the number
`m / 2 ^ k` when that is not an integer. -/
inductive Val where
  | undefined
  | null
  | bool (b : Bool)
  | num (n : Int)
  | nan
  | str (s : String)
  | inf (neg : Bool)
  | frac (m : Int) (k : Nat)
  | negZero
  deriving DecidableEq, Repr, Inhabited

/-- Exceptions the module can raise. -/
inductive JSError where
  | typeError
  | configError (msg : String)
  deriving DecidableEq, Repr

/-- Truthiness, `ToBoolean` of the language. -/
def Val.truthy : Val → Bool
  | .undefined => false
  | .null => false
  | .bool b => b
  | .num n => decide (n ≠ 0)
  | .nan => false
  | .str s => !s.data.isEmpty
  | .inf _ => true
  | .frac m _ => decide (m ≠ 0)
  | .negZero => false

/-! ## Numbers -/

/-- A value of the Number type: `NaN`, an infinity, or a finite number given by
its sign and its magnitude `n / 2 ^ k`; the magnitude 0 with the negative sign
is the negative zero. -/
inductive Num where
  | nan
  | inf (neg : Bool)
  | fin (neg : Bool) (n : Nat) (k : Nat)
  deriving DecidableEq, Repr

/-- The integer of the given sign and magnitude. -/
def signed (neg : Bool) (n : Nat) : Int := if neg then -(n : Int) else n

/-- The number an integer is. -/
def Num.ofInt (n : Int) : Num := .fin (decide (n < 0)) n.natAbs 0

/-- The number of binary digits of `n`, with the given number of halving steps. -/
def bitLengthAux : Nat → Nat → Nat
  | 0, _ => 0
  | fuel + 1, n => if n = 0 then 0 else bitLengthAux fuel (n / 2) + 1

/-- The number of binary digits of `n`: `2 ^ (bitLength n - 1) ≤ n < 2 ^ bitLength n`
for a positive `n`. -/
def bitLength (n : Nat) : Nat := bitLengthAux n n

/-- The quotient `n / d` rounded to the nearest integer, a tie to the even one. -/
def roundHalfEven (n d : Nat) : Nat :=
  if 2 * (n % d) < d then n / d
  else if d < 2 * (n % d) then n / d + 1
  else if (n / d) % 2 = 0 then n / d
  else n / d + 1

/-- The binary exponent of the positive quotient `n / d`: the `e` with
`2 ^ e ≤ n / d < 2 ^ (e + 1)`. -/
def floorLog2 (n d : Nat) : Int :=
  let e0 : Int := (bitLength n : Int) - (bitLength d : Int)
  if d * 2 ^ e0.toNat ≤ n * 2 ^ (-e0).toNat then e0 else e0 - 1

/-- Lowest terms of `n / 2 ^ k`. -/
def normalize : Nat → Nat → Nat × Nat
  | n, 0 => (n, 0)
  | n, k + 1 => if n % 2 = 0 then normalize (n / 2) k else (n, k + 1)

/-- The Number value of the quotient `n / d` (with `d` positive) taken with the
given sign: the nearest double, a tie to the one with an even significand.  The
significand has 53 bits, the binary exponent is at least `-1022` (below that the
spacing stays `2 ^ -1074`), and a result of `2 ^ 1024` or more is an infinity.
The result is in lowest terms. -/
def roundRatio (neg : Bool) (n d : Nat) : Num :=
  if n = 0 then .fin neg 0 0
  else
    let s : Int := max (floorLog2 n d) (-1022) - 52
    let m := roundHalfEven (n * 2 ^ (-s).toNat) (d * 2 ^ s.toNat)
    if 1024 ≤ s + 52 + (if m = 2 ^ 53 then 1 else 0) then .inf neg
    else
      .fin neg (normalize (m * 2 ^ s.toNat) (-s).toNat).1
        (normalize (m * 2 ^ s.toNat) (-s).toNat).2

/-- The product of two numbers. -/
def Num.mul : Num → Num → Num
  | .nan, _ => .nan
  | _, .nan => .nan
  | .inf s, .inf t => .inf (s != t)
  | .inf s, .fin t b _ => if b = 0 then .nan else .inf (s != t)
  | .fin s a _, .inf t => if a = 0 then .nan else .inf (s != t)
  | .fin s a j, .fin t b k => roundRatio (s != t) (a * b) (2 ^ (j + k))

/-- The number plus one. -/
def Num.succ : Num → Num
  | .nan => .nan
  | .inf s => .inf s
  | .fin s a k =>
    if s then
      if a ≤ 2 ^ k then roundRatio false (2 ^ k - a) (2 ^ k)
      else roundRatio true (a - 2 ^ k) (2 ^ k)
    else roundRatio false (a + 2 ^ k) (2 ^ k)

/-- The comparison `x < y` of two numbers: false when either is `NaN`; the two
zeros are equal. -/
def Num.lt : Num → Num → Bool
  | .nan, _ => false
  | _, .nan => false
  | .inf s, .inf t => s && !t
  | .inf s, .fin _ _ _ => s
  | .fin _ _ _, .inf t => !t
  | .fin s a j, .fin t b k => decide (signed s a * 2 ^ k < signed t b * 2 ^ j)

/-- Equality of two numbers: `NaN` equals nothing, the two zeros are equal. -/
def Num.eq : Num → Num → Bool
  | .inf s, .inf t => decide (s = t)
  | .fin s a j, .fin t b k => decide (signed s a * 2 ^ k = signed t b * 2 ^ j)
  | _, _ => false

/-- The value holding a number. -/
def Val.ofNum : Num → Val
  | .nan => .nan
  | .inf s => .inf s
  | .fin s n k =>
    match normalize n k with
    | (0, _) => if s then .negZero else .num 0
    | (a, 0) => .num (signed s a)
    | (a, j + 1) => .frac (signed s a) (j + 1)

/-! ## Strings and numbers -/

/-- White space skipped by `parseInt` and trimmed by the string to number conversion. -/
def isJSWhiteSpace (c : Char) : Bool :=
  c.toNat ∈ [0x09, 0x0A, 0x0B, 0x0C, 0x0D, 0x20, 0xA0, 0x1680, 0x2000, 0x2001, 0x2002, 0x2003,
    0x2004, 0x2005, 0x2006, 0x2007, 0x2008, 0x2009, 0x200A, 0x2028, 0x2029, 0x202F, 0x205F,
    0x3000, 0xFEFF]

/-- Value of a character as a digit in the given radix, if it is one. -/
def digitValue (radix : Nat) (c : Char) : Option Nat :=
  let d : Option Nat :=
    if c.isDigit then some (c.toNat - 48)
    else if 97 ≤ c.toNat ∧ c.toNat ≤ 122 then some (c.toNat - 87)
    else if 65 ≤ c.toNat ∧ c.toNat ≤ 90 then some (c.toNat - 55)
    else none
  match d with
  | some v => if v < radix then some v else none
  | none => none

/-- Reads the longest run of leading digits, returning how many were read and their value. -/
def readDigits (radix : Nat) : List Char → Nat → Nat → Nat × Nat
  | [], cnt, acc => (cnt, acc)
  | c :: cs, cnt, acc =>
    match digitValue radix c with
    | some v => readDigits radix cs (cnt + 1) (acc * radix + v)
    | none => (cnt, acc)

/-- Splits an optional leading sign off: the sign factor and the rest. -/
def readSign : List Char → Int × List Char
  | [] => (1, [])
  | c :: cs => if c = '-' then (-1, cs) else if c = '+' then (1, cs) else (1, c :: cs)

/-- Splits an optional `0x` or `0X` marker off: the radix and the rest. -/
def readRadix : List Char → Nat × List Char
  | c :: d :: cs => if c = '0' ∧ (d = 'x' ∨ d = 'X') then (16, cs) else (10, c :: d :: cs)
  | cs => (10, cs)

/-- The built-in `parseInt` with one argument, on a string: leading white space
is skipped, then an optional sign, an optional `0x`, and the longest run of
digits are read; the result is the Number value of the integer read, `NaN` when
no digit was read. -/
def parseIntChars (cs : List Char) : Val :=
  let sgn := readSign (cs.dropWhile isJSWhiteSpace)
  let radixed := readRadix sgn.2
  let r := readDigits radixed.1 radixed.2 0 0
  if r.1 = 0 then Val.nan else Val.ofNum (roundRatio (decide (sgn.1 < 0)) r.2 1)

/-- Splits the marker of a non-decimal integer literal off (`0x`, `0o`, `0b` in
either case): the radix and the rest, radix 10 when there is none. -/
def readLiteralRadix : List Char → Nat × List Char
  | c :: d :: cs =>
    if c = '0' ∧ (d = 'x' ∨ d = 'X') then (16, cs)
    else if c = '0' ∧ (d = 'o' ∨ d = 'O') then (8, cs)
    else if c = '0' ∧ (d = 'b' ∨ d = 'B') then (2, cs)
    else (10, c :: d :: cs)
  | cs => (10, cs)

/-- The exponent part of a decimal literal, `e` or `E`, an optional sign and at
least one digit: its value, `0` when the part is absent, `none` when what is
left is something else. -/
def readExponent : List Char → Option Int
  | [] => some 0
  | c :: cs =>
    if c = 'e' ∨ c = 'E' then
      let r := readDigits 10 (readSign cs).2 0 0
      if r.1 ≠ 0 ∧ r.1 = (readSign cs).2.length then some ((readSign cs).1 * (r.2 : Int))
      else none
    else none

/-- An unsigned decimal literal other than `Infinity`: digits with an optional
fraction and an optional exponent part, at least one digit before or after the
point.  The result `(m, e)` stands for `m * 10 ^ e`. -/
def readUnsignedDecimal (cs : List Char) : Option (Nat × Int) :=
  let ip := readDigits 10 cs 0 0
  match cs.drop ip.1 with
  | '.' :: rest =>
    let fp := readDigits 10 rest 0 ip.2
    if ip.1 = 0 ∧ fp.1 = 0 then none
    else (readExponent (rest.drop fp.1)).map fun e => (fp.2, e - (fp.1 : Int))
  | rest => if ip.1 = 0 then none else (readExponent rest).map fun e => (ip.2, e)

/-- Numeric value of a string (`StringToNumber`): white space is trimmed; the
empty string is `0`; an unsigned hexadecimal, octal or binary integer literal,
a signed decimal literal or a signed `Infinity` is its Number value; anything
else is `NaN`. -/
def stringToNumber (s : String) : Num :=
  let cs := ((s.data.dropWhile isJSWhiteSpace).reverse.dropWhile isJSWhiteSpace).reverse
  if cs.isEmpty then .fin false 0 0
  else if (readLiteralRadix cs).1 ≠ 10 then
    let body := (readLiteralRadix cs).2
    let r := readDigits (readLiteralRadix cs).1 body 0 0
    if r.1 ≠ 0 ∧ r.1 = body.length then roundRatio false r.2 1 else .nan
  else
    let neg := decide ((readSign cs).1 < 0)
    let body := (readSign cs).2
    if body = "Infinity".data then .inf neg
    else
      match readUnsignedDecimal body with
      | some (m, e) => roundRatio neg (m * 10 ^ e.toNat) (10 ^ (-e).toNat)
      | none => .nan

/-- For a positive quotient `a / b` below one, the number of zeros between the
point and its first significant digit. -/
def leadingZeros : Nat → Nat → Nat → Nat
  | 0, _, _ => 0
  | fuel + 1, a, b => if b ≤ a * 10 then 0 else leadingZeros fuel (a * 10) b + 1

/-- The `n` with `10 ^ (n - 1) ≤ a / b < 10 ^ n`, for a positive quotient. -/
def decimalExponent (a b : Nat) : Int :=
  if b ≤ a then ((Nat.toDigits 10 (a / b)).length : Int)
  else -((leadingZeros (bitLength b) a b : Nat) : Int)

/-- Whether `c * 10 ^ p` has the Number value `a / 2 ^ k`. -/
def roundsTo (c : Nat) (p : Int) (a k : Nat) : Bool :=
  Num.eq (roundRatio false (c * 10 ^ p.toNat) (10 ^ (-p).toNat)) (.fin false a k)

/-- The search of `Number::toString` for the shortest digit string: the least
number of digits `kd`, counted up from the given one, for which some `s` of
`kd` digits has `s * 10 ^ (n - kd)` of Number value `a / 2 ^ k`; of two such `s`
the one closer to the value, the even one on a tie. -/
def shortestDigitsFrom : Nat → Nat → Int → Nat → Nat → Nat
  | 0, kd, n, a, k => roundHalfEven (a * 10 ^ (kd - n).toNat) (2 ^ k * 10 ^ (n - kd).toNat)
  | fuel + 1, kd, n, a, k =>
    let num := a * 10 ^ ((kd : Int) - n).toNat
    let den := 2 ^ k * 10 ^ (n - (kd : Int)).toNat
    let lo := num / den
    let okLo := roundsTo lo (n - kd) a k
    let okHi := decide (lo + 1 < 10 ^ kd) && roundsTo (lo + 1) (n - kd) a k
    if okLo && okHi then roundHalfEven num den
    else if okLo then lo
    else if okHi then lo + 1
    else shortestDigitsFrom fuel (kd + 1) n a k

/-- The digits and the decimal exponent `Number::toString` prints for the
positive number `a / 2 ^ k`: `(s, n)` with `s` of the least possible number of
digits such that `s * 10 ^ (n - digits)` has that Number value. -/
def shortestDigits (a k : Nat) : Nat × Int :=
  let n := decimalExponent a (2 ^ k)
  if roundsTo 1 n a k then (1, n + 1)
  else (shortestDigitsFrom 17 1 n a k, n)

/-- The string `Number::toString` prints for the positive number `a / 2 ^ k`. -/
def positiveToString (a k : Nat) : List Char :=
  let ds := Nat.toDigits 10 (shortestDigits a k).1
  let n := (shortestDigits a k).2
  let len : Int := ds.length
  if len ≤ n ∧ n ≤ 21 then ds ++ List.replicate (n - len).toNat '0'
  else if 0 < n ∧ n ≤ 21 then ds.take n.toNat ++ '.' :: ds.drop n.toNat
  else if -6 < n ∧ n ≤ 0 then '0' :: '.' :: List.replicate (-n).toNat '0' ++ ds
  else
    let e := (if n - 1 < 0 then '-' else '+') :: Nat.toDigits 10 (n - 1).natAbs
    match ds with
    | [d] => d :: 'e' :: e
    | d :: rest => d :: '.' :: rest ++ 'e' :: e
    | [] => []

/-- The string a number prints as, `Number::toString`. -/
def numberToString : Num → String
  | .nan => "NaN"
  | .inf neg => if neg then "-Infinity" else "Infinity"
  | .fin neg n k =>
    if n = 0 then "0"
    else String.mk ((if neg then ['-'] else []) ++ positiveToString n k)

/-- Numeric value of a primitive, `ToNumber`. -/
def Val.toNumber : Val → Num
  | .undefined => .nan
  | .null => .fin false 0 0
  | .bool b => .fin false (if b then 1 else 0) 0
  | .num n => Num.ofInt n
  | .nan => .nan
  | .str s => stringToNumber s
  | .inf neg => .inf neg
  | .frac m k => .fin (decide (m < 0)) m.natAbs k
  | .negZero => .fin true 0 0

/-- The string of a primitive, `ToString`. -/
def Val.toJSString : Val → String
  | .undefined => "undefined"
  | .null => "null"
  | .bool b => if b then "true" else "false"
  | .str s => s
  | v => numberToString v.toNumber

/-- The built-in `parseInt` with one argument: the argument is converted to a
string, which is then read. -/
def parseInt (v : Val) : Val := parseIntChars v.toJSString.data

/-- The product `a * b`. -/
def jsMul (a b : Val) : Val := Val.ofNum (Num.mul a.toNumber b.toNumber)

/-- The comparison `a < n` against a number: the left operand is converted to a
number and a `NaN` compares false. -/
def jsLtNum (a : Val) (n : Int) : Bool := Num.lt a.toNumber (Num.ofInt n)

/-- Loose equality `a == b` on primitives. -/
def looseEq : Val → Val → Bool
  | .undefined, .undefined => true
  | .undefined, .null => true
  | .null, .undefined => true
  | .null, .null => true
  | .undefined, _ => false
  | .null, _ => false
  | _, .undefined => false
  | _, .null => false
  | .str s, .str t => decide (s = t)
  | a, b => Num.eq a.toNumber b.toNumber

/-- Loose inequality `a != b`. -/
def looseNe (a b : Val) : Bool := !looseEq a b

/-! ## Dictionaries -/

/-- An object used as a dictionary: own enumerable properties in insertion order. -/
abbrev Obj := List (String × Val)

/-- The keys, `Object.keys(o)`, also the order of `for (let i in o)`. -/
def Obj.keys (o : Obj) : List String := o.map Prod.fst

/-- Whether the key is an own property. -/
def Obj.has (o : Obj) (k : String) : Bool := o.any (fun e => e.1 == k)

/-- Property read `o[k]`: `undefined` for a missing key. -/
def Obj.get : Obj → String → Val
  | [], _ => .undefined
  | (k, v) :: rest, key => if k = key then v else Obj.get rest key

/-- Property write `o[k] = v`: replaces in place, or appends a new key. -/
def Obj.set : Obj → String → Val → Obj
  | [], key, v => [(key, v)]
  | (k, w) :: rest, key, v => if k = key then (k, v) :: rest else (k, w) :: Obj.set rest key v

/-- Read of `o[k].value` where the entries are refs: a missing ref is a `TypeError`. -/
def Obj.refValue (o : Obj) (k : String) : Except JSError Val :=
  if o.has k then .ok (o.get k) else .error .typeError

/-- Write `o[k].value = v` where the entries are refs: a missing ref is a `TypeError`. -/
def Obj.setRefValue (o : Obj) (k : String) (v : Val) : Except JSError Obj :=
  if o.has k then .ok (o.set k v) else .error .typeError

/-! ## Configuration and collaborators -/

/-- The source constant `DEFAULT_PER_PAGE`. -/
def DEFAULT_PER_PAGE : Int := 20

/-- The source constant `DEFAULT_PAGE`. -/
def DEFAULT_PAGE : Int := 1

/-- The options object `opt`; an absent field is `none`. -/
structure Opt where
  actionName : Option String := none
  pageKey : Option String := none
  perPageKey : Option String := none
  filters : Option (List String) := none
  deriving Repr

/-- The source constant `actionName`: `opt.actionName ?? 'fetchList'`. -/
def Opt.action (opt : Opt) : String := opt.actionName.getD "fetchList"

/-- The source constant `newPageKey`: `opt.pageKey ?? 'page'`. -/
def newPageKey (opt : Opt) : String := opt.pageKey.getD "page"

/-- The source constant `perPageKey`: `opt.perPageKey ?? 'per_page'`. -/
def perPageKey (opt : Opt) : String := opt.perPageKey.getD "per_page"

/-- The source constant `filterKeys`. -/
def filterKeys (opt : Opt) : List String :=
  newPageKey opt :: perPageKey opt :: opt.filters.getD []

/-- Modelled from the spec: the canonical-name mapping `camelToUnderscore` of
module `./filter`, which is missing from the sources.  The canonical name is the
underscore form of a camel-case display name: every capital letter `A` to `Z`
becomes an underscore followed by the lower-case letter. -/
def camelToUnderscore (s : String) : String :=
  String.mk (s.data.flatMap fun c => if c.isUpper then ['_', c.toLower] else [c])

/-- Modelled from the spec: the fetch mode of `useFetchMode`, which is missing
from the sources.  `next` is the REPLACE mode, `more` is the APPEND mode. -/
inductive Mode where
  | next
  | more
  deriving DecidableEq, Repr

/-- Modelled from the spec: the default mode of `useFetchMode` is REPLACE. -/
def Mode.initial : Mode := .next

/-- Modelled from the spec: `hasNextMode` of `useFetchMode`, true in REPLACE mode. -/
def hasNextMode (m : Mode) : Bool := decide (m = .next)

/-- Modelled from the spec: `setMoreMode` of `useFetchMode` selects APPEND. -/
def setMoreMode (_ : Mode) : Mode := .more

/-- Modelled from the spec: `setNextMode` of `useFetchMode` selects REPLACE. -/
def setNextMode (_ : Mode) : Mode := .next

/-- Modelled from the spec: the flag of `useQueryWatching`, missing from the
sources, is a single shared boolean that starts enabled. -/
def queryWatchingInitial : Bool := true

/-- A result record of the backend; the module never looks inside one. -/
abbrev Record := String

/-- The current route, `route.value`. -/
structure Route where
  name : Val
  query : Obj
  deriving DecidableEq, Repr

/-- The store: the names of its registered actions (`store._actions`). -/
structure Store where
  actions : List String
  deriving Repr

/-- The state bundle of one view instance. -/
structure State where
  /-- the value of the `route` ref -/
  route : Route
  /-- `filters`: display key to the value of its ref -/
  filters : Obj
  /-- `queryParams`: canonical key to the value of its ref -/
  queryParams : Obj
  /-- `items.value`: `none` is `null` -/
  items : Option (List Record)
  /-- `totalRows.value` -/
  totalRows : Int
  /-- the fetch mode -/
  mode : Mode
  /-- `hasEnableQueryWatching.value` -/
  queryWatching : Bool
  deriving DecidableEq, Repr

/-- The merge closure a fetch was issued with: `fetchNextItems` assigns,
`fetchMoreItems` pushes. -/
inductive SetResult where
  | assign
  | push
  deriving DecidableEq, Repr

/-- The argument of `router.replace`. -/
structure NavRequest where
  name : Val
  query : Obj
  deriving DecidableEq, Repr

/-- Calls the module makes on its collaborators. -/
inductive Effect where
  | dispatch (action : String) (payload : Obj) (setResult : SetResult)
  | replace (req : NavRequest)
  | setTimeout (delay : Nat)
  | blur
  deriving DecidableEq, Repr

/-- What running a piece of the module leaves behind: the state (mutations made
before a throw persist), the collaborator calls in order, and the exception if
one was thrown. -/
structure Outcome where
  state : State
  effects : List Effect := []
  thrown : Option JSError := none
  deriving DecidableEq, Repr

/-- Sequencing: the second part runs only if the first did not throw. -/
def Outcome.andThen (o : Outcome) (f : State → Outcome) : Outcome :=
  match o.thrown with
  | some _ => o
  | none =>
    let r := f o.state
    { state := r.state, effects := o.effects ++ r.effects, thrown := r.thrown }

/-- Lifts a dictionary update that may throw into an outcome on the state. -/
def Outcome.ofQueryParams (st : State) (r : Except JSError Obj) : Outcome :=
  match r with
  | .ok qp => { state := { st with queryParams := qp } }
  | .error e => { state := st, thrown := some e }

/-! ## Key registry and coercion -/

/-- The coercion of the page key: `v => parseInt(v ? v : DEFAULT_PAGE)`. -/
def pageMutation (v : Val) : Val := parseInt (if v.truthy then v else .num DEFAULT_PAGE)

/-- The coercion of the page-size key: `v => parseInt(v ? v : DEFAULT_PER_PAGE)`. -/
def perPageMutation (v : Val) : Val := parseInt (if v.truthy then v else .num DEFAULT_PER_PAGE)

/-- The table `mutations`, an object literal with the two computed keys
`[newPageKey]` and `[perPageKey]`; the later entry wins when both are equal. -/
def mutations (opt : Opt) (key : String) : Option (Val → Val) :=
  if key = perPageKey opt then some perPageMutation
  else if key = newPageKey opt then some pageMutation
  else none

/-- The getter of the computed `routeParams[key]`: the mutation stored under
`key`, when there is one, applied to `route.value.query[key]`. -/
def routeParamValue (opt : Opt) (route : Route) (key : String) : Val :=
  match mutations opt key with
  | some f => f (route.query.get key)
  | none => route.query.get key

/-- The keys of `routeParams` (and of `queryParams`) after `initParams`. -/
def routeParamKeys (c2u : String → String) (opt : Opt) : List String :=
  ((filterKeys opt).foldl (fun (o : Obj) i => o.set (c2u i) .undefined) []).keys

/-- Read of `routeParams[key].value`: a `TypeError` when no computed is stored there. -/
def routeParamsRef (c2u : String → String) (opt : Opt) (route : Route) (key : String) :
    Except JSError Val :=
  if key ∈ routeParamKeys c2u opt then .ok (routeParamValue opt route key) else .error .typeError

/-- The loop of `initParams`: seeds `queryParams` and `filters` from the coerced
route values; the result is `(queryParams, filters)`. -/
def initParams (c2u : String → String) (opt : Opt) (route : Route) : Obj × Obj :=
  (filterKeys opt).foldl
    (fun (acc : Obj × Obj) i =>
      let key := c2u i
      (acc.1.set key (routeParamValue opt route key), acc.2.set i (routeParamValue opt route key)))
    ([], [])

/-- The state right after `useRoutePagination(store, opt)` returns. -/
def construct (c2u : String → String) (opt : Opt) (route : Route) : State :=
  { route := route
    filters := (initParams c2u opt route).2
    queryParams := (initParams c2u opt route).1
    items := none
    totalRows := 0
    mode := Mode.initial
    queryWatching := queryWatchingInitial }

/-! ## Outbound sync -/

/-- Property `name` read on the `route` ref itself, as `route.name` does: the ref
object carries `value` only, so the read yields `undefined`. -/
def routeRefName (_ : Route) : Val := .undefined

/-- First loop of `updateRouteQuery`: the truthy `queryParams` entries, each
written under `camelToUnderscore` of its key. -/
def buildQuery (c2u : String → String) (queryParams : Obj) : Obj :=
  queryParams.foldl (fun (query : Obj) e => if e.2.truthy then query.set (c2u e.1) e.2 else query) []

/-- The flag `queryIsChanged`: the key counts differ, or some key of `query` has a
loosely different value in the query of the route. -/
def queryIsChanged (query routeQuery : Obj) : Bool :=
  query.keys.foldl
    (fun changed i => if looseNe (query.get i) (routeQuery.get i) then true else changed)
    (decide (query.keys.length ≠ routeQuery.keys.length))

/-- The function `updateRouteQuery`. -/
def updateRouteQuery (c2u : String → String) (st : State) : Outcome :=
  let query := buildQuery c2u st.queryParams
  if queryIsChanged query st.route.query then
    { state := st, effects := [.replace { name := routeRefName st.route, query := query }] }
  else { state := st }

/-! ## Filter commit cycle -/

/-- The assignment `queryParams[k].value = v`. -/
def setQueryParam (k : String) (v : Val) (st : State) : Outcome :=
  if st.queryParams.has k then { state := { st with queryParams := st.queryParams.set k v } }
  else { state := st, thrown := some .typeError }

/-- The function `clearPagination`. -/
def clearPagination (opt : Opt) (st : State) : Outcome :=
  (setQueryParam (newPageKey opt) (.num DEFAULT_PAGE) st).andThen
    (setQueryParam (perPageKey opt) (.num DEFAULT_PER_PAGE))

/-- The loop of `applyFilters`: `queryParams[camelToUnderscore(i)].value = filters[i].value`. -/
def copyFilters (c2u : String → String) : List (String × Val) → State → Outcome
  | [], st => { state := st }
  | (i, v) :: rest, st => (setQueryParam (c2u i) v st).andThen (copyFilters c2u rest)

/-- The synchronous part of `applyFilters`; the deferred part is scheduled last. -/
def applyFilters (c2u : String → String) (opt : Opt) (st : State) : Outcome :=
  (copyFilters c2u st.filters { st with queryWatching := false }).andThen fun s1 =>
    (clearPagination opt s1).andThen fun s2 =>
      { state := s2, effects := [.setTimeout 100] }

/-- The callback `applyFilters` hands to `setTimeout`. -/
def applyFiltersDeferred (c2u : String → String) (st : State) : Outcome :=
  updateRouteQuery c2u { st with queryWatching := true }

/-- The function `clearFilters`, called without an element id. -/
def clearFilters (c2u : String → String) (opt : Opt) (st : State) : Outcome :=
  applyFilters c2u opt { st with filters := st.filters.map fun e => (e.1, Val.null) }

/-! ## Fetch -/

/-- The payload loop of `fetch`: one entry per `queryParams` key `i`, written
under `camelToUnderscore(i)`, holding `routeParams[i].value`. -/
def fetchPayload (c2u : String → String) (opt : Opt) (route : Route) :
    List String → Obj → Except JSError Obj
  | [], payload => .ok payload
  | i :: rest, payload =>
    match routeParamsRef c2u opt route i with
    | .ok v => fetchPayload c2u opt route rest (payload.set (c2u i) v)
    | .error e => .error e

/-- The private function `fetch` up to the call of `store.dispatch`. -/
def fetch (c2u : String → String) (opt : Opt) (store : Store) (setResult : SetResult)
    (st : State) : Outcome :=
  if opt.action ∈ store.actions then
    match fetchPayload c2u opt st.route st.queryParams.keys [] with
    | .ok payload => { state := st, effects := [.dispatch opt.action payload setResult] }
    | .error e => { state := st, thrown := some e }
  else
    { state := st
      thrown := some (.configError ("action \"" ++ opt.action ++ "\" not found in store")) }

/-- The function `fetchItems`. -/
def fetchItems (c2u : String → String) (opt : Opt) (store : Store) (st : State) : Outcome :=
  if hasNextMode st.mode then fetch c2u opt store .assign st
  else fetch c2u opt store .push st

/-- The merge closures: `items.value = data` and `items.value.push(...data)`. -/
def applySetResult (setResult : SetResult) (data : List Record) (st : State) : Outcome :=
  match setResult with
  | .assign => { state := { st with items := some data } }
  | .push =>
    match st.items with
    | some xs => { state := { st with items := some (xs ++ data) } }
    | none => { state := st, thrown := some .typeError }

/-- The recovery test of the success handler,
`total > 0 && items.value.length === 0`, and the reset it guards. -/
def stalePageRecovery (opt : Opt) (total : Int) (st : State) : Outcome :=
  if 0 < total then
    match st.items with
    | some xs => if xs.length = 0 then clearPagination opt st else { state := st }
    | none => { state := st, thrown := some .typeError }
  else { state := st }

/-- The `then` handler of `fetch`, no callback given, for the response
`{ data, total }`. -/
def onFetchResolved (opt : Opt) (setResult : SetResult) (data : List Record) (total : Int)
    (st : State) : Outcome :=
  (applySetResult setResult data { st with totalRows := total }).andThen fun s1 =>
    (stalePageRecovery opt total s1).andThen fun s2 =>
      { state := { s2 with mode := setNextMode s2.mode } }

/-- The `catch` handler of `fetch`. -/
def onFetchRejected (c2u : String → String) (opt : Opt) (st : State) : Outcome :=
  clearFilters c2u opt st

/-- The chain `.then(...).catch(...)` once the dispatch settles: `none` is a
rejection; an exception of the `then` handler is caught by the `catch` handler. -/
def onFetchSettled (c2u : String → String) (opt : Opt) (setResult : SetResult)
    (response : Option (List Record × Int)) (st : State) : Outcome :=
  match response with
  | none => onFetchRejected c2u opt st
  | some (data, total) =>
    let o := onFetchResolved opt setResult data total st
    match o.thrown with
    | none => o
    | some _ =>
      let r := onFetchRejected c2u opt o.state
      { state := r.state, effects := o.effects ++ r.effects, thrown := r.thrown }

/-- The function `incCurrentPageByMoreMode`. -/
def incCurrentPageByMoreMode (opt : Opt) (st : State) : Outcome :=
  let s1 := { st with mode := setMoreMode st.mode }
  if s1.queryParams.has (newPageKey opt) then
    let old := (s1.queryParams.get (newPageKey opt)).toNumber
    { state := { s1 with queryParams := s1.queryParams.set (newPageKey opt) (Val.ofNum old.succ) }
      effects := [.blur] }
  else { state := s1, effects := [.blur], thrown := some .typeError }

/-! ## Pagination view -/

/-- The getter of the computed `canShowLoadMore`. -/
def canShowLoadMore (opt : Opt) (st : State) : Except JSError Bool :=
  match st.queryParams.refValue (newPageKey opt), st.queryParams.refValue (perPageKey opt) with
  | .ok page, .ok perPage => .ok (jsLtNum (jsMul page perPage) st.totalRows)
  | .error e, _ => .error e
  | _, .error e => .error e

/-- The getter of the computed `canShowPagination`. -/
def canShowPagination (opt : Opt) (st : State) : Except JSError Bool :=
  match st.queryParams.refValue (perPageKey opt) with
  | .ok perPage => .ok (jsLtNum perPage st.totalRows)
  | .error e => .error e

/-- What an expression of the module evaluates to: a primitive, or a computed ref
object, given by what its `value` getter returns. -/
inductive Operand where
  | prim (v : Val)
  | computedRef (value : Except JSError Bool)

/-- Truthiness of an operand: every object is truthy. -/
def Operand.truthy : Operand → Bool
  | .prim v => v.truthy
  | .computedRef _ => true

/-- The operator `a || b`: the left operand if it is truthy, else the right one. -/
def jsOr (a b : Operand) : Operand := if a.truthy then a else b

/-- The getter of the computed `canShowBottomNavigation`:
`canShowLoadMore || canShowPagination`, on the two computed refs themselves. -/
def canShowBottomNavigation (opt : Opt) (st : State) : Operand :=
  jsOr (.computedRef (canShowLoadMore opt st)) (.computedRef (canShowPagination opt st))

/-! ## Inbound sync and the watchers -/

/-- The assignment `filters[i].value = v`. -/
def setFilter (i : String) (v : Val) (st : State) : Outcome :=
  if st.filters.has i then { state := { st with filters := st.filters.set i v } }
  else { state := st, thrown := some .typeError }

/-- The loop of the `watch(route, ...)` callback; the query of a route is always
an object, so the `typeof` guard of the source is passed. -/
def inboundCopy (c2u : String → String) (routeQuery : Obj) : List String → State → Outcome
  | [], st => { state := st }
  | i :: rest, st =>
    (setQueryParam (c2u i) (routeQuery.get (c2u i)) st).andThen fun s1 =>
      (setFilter i (routeQuery.get (c2u i)) s1).andThen (inboundCopy c2u routeQuery rest)

/-- The callback of `watch(route, ...)`: the inbound sync. -/
def onRouteWatch (c2u : String → String) (opt : Opt) (st : State) : Outcome :=
  (inboundCopy c2u st.route.query (filterKeys opt) { st with queryWatching := false }).andThen
    fun s => { state := { s with queryWatching := true } }

/-- The callback of `watch(routeParams, ...)`. -/
def onRouteParamsWatch (c2u : String → String) (opt : Opt) (store : Store) (st : State) :
    Outcome :=
  fetchItems c2u opt store st

/-- The callback of `watch(queryParams, ...)`. -/
def onQueryParamsWatch (c2u : String → String) (st : State) : Outcome :=
  if st.queryWatching then updateRouteQuery c2u st else { state := st }

/-! ## Specification-side notions -/

/-- The string is a non-empty run of decimal digits that denotes `n`. -/
def decimalDenotes (s : String) (n : Nat) : Bool :=
  !s.data.isEmpty && s.data.all Char.isDigit &&
    Nat.ofDigits 10 (s.data.map fun c => c.toNat - 48).reverse == n

/-- The two dictionaries differ as key-to-value mappings under loose equality:
a key of one is missing in the other, or a shared key holds loosely unequal
values. -/
def mappingDiffers (q r : Obj) : Bool :=
  q.keys.any (fun k => !r.has k) || r.keys.any (fun k => !q.has k) ||
    q.keys.any (fun k => r.has k && looseNe (q.get k) (r.get k))

/-- The state carries the registry of `opt`: `queryParams` has distinct keys,
among them the two pagination keys, which differ; every display key of `filters`
has its canonical entry in `queryParams`, every `queryParams` key is the
canonical name of a `filters` key, and the keys of `filters` are the registry
keys `filterKeys`. -/
def WellFormed (c2u : String → String) (opt : Opt) (st : State) : Prop :=
  st.queryParams.keys.Nodup ∧
  newPageKey opt ∈ st.queryParams.keys ∧
  perPageKey opt ∈ st.queryParams.keys ∧
  newPageKey opt ≠ perPageKey opt ∧
  (∀ i ∈ st.filters.keys, c2u i ∈ st.queryParams.keys) ∧
  (∀ k ∈ st.queryParams.keys, k ∈ st.filters.keys.map c2u) ∧
  (∀ i ∈ st.filters.keys, i ∈ filterKeys opt) ∧
  (∀ i ∈ filterKeys opt, i ∈ st.filters.keys)

instance (c2u : String → String) (opt : Opt) (st : State) : Decidable (WellFormed c2u opt st) := by
  unfold WellFormed
  infer_instance

/-! ## The recovery after a rejected fetch -/

/-- Modelled from the spec: the route layer, which is not part of the sources,
stores every query value as a string (route contract: `.query` maps a canonical
key to a string).  A number or a boolean is stored as the string it prints as. -/
def castQueryValue : Val → Val
  | .undefined => .undefined
  | .null => .null
  | v => .str v.toJSString

/-- Modelled from the spec: the navigation primitive `replace({ name, query })`
of the route layer, a same-entry navigation: the current route takes the
requested query, its values stored as strings. -/
def routerReplace (route : Route) (req : NavRequest) : Route :=
  { name := route.name, query := req.query.map fun e => (e.1, castQueryValue e.2) }

/-- The watchers a change of the route runs, in the order they were registered:
the `watch(route, ...)` callback, the `watch(routeParams, ...)` callback, and the
`watch(queryParams, ...)` callback if the inbound sync changed `queryParams`.
Each callback runs whether or not an earlier one threw. -/
def onRouteChanged (c2u : String → String) (opt : Opt) (store : Store) (newRoute : Route)
    (st : State) : Outcome :=
  let o1 := onRouteWatch c2u opt { st with route := newRoute }
  let o2 := onRouteParamsWatch c2u opt store o1.state
  let o3 : Outcome :=
    if o2.state.queryParams = st.queryParams then { state := o2.state }
    else onQueryParamsWatch c2u o2.state
  { state := o3.state
    effects := o1.effects ++ o2.effects ++ o3.effects
    thrown := (o1.thrown.orElse fun _ => o2.thrown).orElse fun _ => o3.thrown }

/-- What follows a rejected fetch when nothing else intervenes: the `catch`
handler; then, the timer of `applyFilters` having fired, its deferred step; then,
if that step requested a navigation, the watchers run by the route change. -/
def recoveryTrace (c2u : String → String) (opt : Opt) (store : Store) (st : State) : Outcome :=
  let o1 := onFetchRejected c2u opt st
  match o1.thrown with
  | some _ => o1
  | none =>
    let o2 := applyFiltersDeferred c2u o1.state
    match o2.effects with
    | [.replace req] =>
      let o3 := onRouteChanged c2u opt store (routerReplace o2.state.route req) o2.state
      { state := o3.state, effects := o1.effects ++ o2.effects ++ o3.effects, thrown := o3.thrown }
    | _ => { state := o2.state, effects := o1.effects ++ o2.effects, thrown := o2.thrown }

/-- The payloads of the `store.dispatch` calls among the effects, in order. -/
def dispatchedPayloads (effects : List Effect) : List Obj :=
  effects.filterMap fun e =>
    match e with
    | .dispatch _ payload _ => some payload
    | _ => none

/-- The arguments of the `router.replace` calls among the effects, in order. -/
def replaceRequests (effects : List Effect) : List NavRequest :=
  effects.filterMap fun e =>
    match e with
    | .replace req => some req
    | _ => none

/-- What one change of the route sets off when nothing else intervenes: the
watchers run by the change and, as long as they request a navigation (followed
at most `fuel` times), the watchers run by the route change that the navigation
is. -/
def routeChangeTrace (c2u : String → String) (opt : Opt) (store : Store) :
    Nat → Route → State → Outcome
  | 0, newRoute, st => onRouteChanged c2u opt store newRoute st
  | fuel + 1, newRoute, st =>
    let o1 := onRouteChanged c2u opt store newRoute st
    match replaceRequests o1.effects with
    | [] => o1
    | req :: _ =>
      let o2 := routeChangeTrace c2u opt store fuel (routerReplace o1.state.route req) o1.state
      { state := o2.state
        effects := o1.effects ++ o2.effects
        thrown := o1.thrown.orElse fun _ => o2.thrown }

/-- The dictionary with the given keys and the value `g k` under key `k`. -/
def Obj.tabulate (ks : List String) (g : String → Val) : Obj := ks.map fun k => (k, g k)

/-- The values the recovery leaves in `QueryState`: the two pagination defaults,
`null` elsewhere. -/
def recoveredValue (opt : Opt) (k : String) : Val :=
  if k = perPageKey opt then .num DEFAULT_PER_PAGE
  else if k = newPageKey opt then .num DEFAULT_PAGE
  else .null

/-- Whether the key is one of the two pagination keys. -/
def isPaginationKey (opt : Opt) (k : String) : Bool :=
  decide (k = newPageKey opt ∨ k = perPageKey opt)

/-- The query the recovery asks the route to show: page 1 and page size 20
under the two pagination keys, in the key order of `QueryState`. -/
def recoveredQuery (opt : Opt) (st : State) : Obj :=
  Obj.tabulate (st.queryParams.keys.filter (isPaginationKey opt)) (recoveredValue opt)

/-- The keys of the two dictionaries of the state. -/
def keysOf (s : State) : List String × List String := (s.queryParams.keys, s.filters.keys)

/-- The states a view instance can be in: the constructed state, and whatever the
handlers of the module and the caller's writes to the exposed refs make of a
state it can be in. -/
inductive Reachable (c2u : String → String) (opt : Opt) : State → Prop where
  | construct (route : Route) : Reachable c2u opt (construct c2u opt route)
  | routeChange (s : State) (route : Route) :
    Reachable c2u opt s → Reachable c2u opt (onRouteWatch c2u opt { s with route := route }).state
  | applyFilters (s : State) :
    Reachable c2u opt s → Reachable c2u opt (applyFilters c2u opt s).state
  | applyFiltersDeferred (s : State) :
    Reachable c2u opt s → Reachable c2u opt (applyFiltersDeferred c2u s).state
  | clearFilters (s : State) :
    Reachable c2u opt s → Reachable c2u opt (clearFilters c2u opt s).state
  | incCurrentPage (s : State) :
    Reachable c2u opt s → Reachable c2u opt (incCurrentPageByMoreMode opt s).state
  | fetchSettled (s : State) (sr : SetResult) (response : Option (List Record × Int)) :
    Reachable c2u opt s → Reachable c2u opt (onFetchSettled c2u opt sr response s).state
  | editFilter (s : State) (i : String) (v : Val) :
    Reachable c2u opt s → Reachable c2u opt (setFilter i v s).state
  | editQueryParam (s : State) (k : String) (v : Val) :
    Reachable c2u opt s → Reachable c2u opt (setQueryParam k v s).state

/-- The getter of the computed `enabledSearchButton`: some `filters` entry whose
key is not in `[perPageKey, newPageKey]` holds a truthy value. -/
def enabledSearchButton (opt : Opt) (st : State) : Bool :=
  st.filters.any fun e => !([perPageKey opt, newPageKey opt].contains e.1) && e.2.truthy

/-! ## Theorems -/

/-! ### Sequencing and frame lemmas -/

theorem Outcome.andThen_of_ok (o : Outcome) (f : State → Outcome) (h : o.thrown = none) :
    o.andThen f =
      { state := (f o.state).state, effects := o.effects ++ (f o.state).effects,
        thrown := (f o.state).thrown } := by
  unfold Outcome.andThen
  rw [h]

theorem Outcome.andThen_of_thrown (o : Outcome) (f : State → Outcome) (e : JSError)
    (h : o.thrown = some e) : o.andThen f = o := by
  unfold Outcome.andThen
  rw [h]

/-- A projection of the state that every continuation preserves is preserved by
the sequencing. -/
theorem Outcome.andThen_proj {α : Type} (proj : State → α) (o : Outcome) (f : State → Outcome)
    (hf : ∀ s, proj (f s).state = proj s) : proj (o.andThen f).state = proj o.state := by
  unfold Outcome.andThen
  cases o.thrown <;> simp [hf]

theorem setQueryParam_proj {α : Type} (proj : State → α)
    (hq : ∀ (s : State) (qp : Obj), proj { s with queryParams := qp } = proj s)
    (k : String) (v : Val) (st : State) : proj (setQueryParam k v st).state = proj st := by
  unfold setQueryParam
  split
  · exact hq st _
  · rfl

theorem clearPagination_proj {α : Type} (proj : State → α)
    (hsq : ∀ (k : String) (v : Val) (s : State), proj (setQueryParam k v s).state = proj s)
    (opt : Opt) (st : State) : proj (clearPagination opt st).state = proj st := by
  unfold clearPagination
  rw [Outcome.andThen_proj proj _ _ (fun s => hsq _ _ s)]
  exact hsq _ _ st

theorem copyFilters_proj {α : Type} (proj : State → α)
    (hsq : ∀ (k : String) (v : Val) (s : State), proj (setQueryParam k v s).state = proj s)
    (c2u : String → String) (fs : List (String × Val)) (st : State) :
    proj (copyFilters c2u fs st).state = proj st := by
  induction fs generalizing st with
  | nil => rfl
  | cons e rest ih =>
    obtain ⟨i, v⟩ := e
    unfold copyFilters
    rw [Outcome.andThen_proj proj _ _ ih]
    exact hsq _ _ st

theorem applyFilters_proj {α : Type} (proj : State → α)
    (hsq : ∀ (k : String) (v : Val) (s : State), proj (setQueryParam k v s).state = proj s)
    (hw : ∀ (s : State) (b : Bool), proj { s with queryWatching := b } = proj s)
    (c2u : String → String) (opt : Opt) (st : State) :
    proj (applyFilters c2u opt st).state = proj st := by
  unfold applyFilters
  rw [Outcome.andThen_proj proj _ _ (fun s => by
    rw [Outcome.andThen_proj proj _ _ (fun s2 => rfl)]
    exact clearPagination_proj proj hsq opt s)]
  rw [copyFilters_proj proj hsq]
  exact hw st false

theorem clearFilters_proj {α : Type} (proj : State → α)
    (hsq : ∀ (k : String) (v : Val) (s : State), proj (setQueryParam k v s).state = proj s)
    (hw : ∀ (s : State) (b : Bool), proj { s with queryWatching := b } = proj s)
    (hfn : ∀ s : State, proj { s with filters := s.filters.map fun e => (e.1, Val.null) } = proj s)
    (c2u : String → String) (opt : Opt) (st : State) :
    proj (clearFilters c2u opt st).state = proj st := by
  unfold clearFilters
  rw [applyFilters_proj proj hsq hw]
  exact hfn st

theorem stalePageRecovery_proj {α : Type} (proj : State → α)
    (hsq : ∀ (k : String) (v : Val) (s : State), proj (setQueryParam k v s).state = proj s)
    (opt : Opt) (total : Int) (st : State) :
    proj (stalePageRecovery opt total st).state = proj st := by
  unfold stalePageRecovery
  split
  · split
    · split
      · exact clearPagination_proj proj hsq opt st
      · rfl
    · rfl
  · rfl

/-- Whatever the `catch` handler does after a throwing `then` handler, a
projection untouched by the filter commit cycle keeps the value the `then`
handler left. -/
theorem onFetchSettled_proj {α : Type} (proj : State → α)
    (hsq : ∀ (k : String) (v : Val) (s : State), proj (setQueryParam k v s).state = proj s)
    (hw : ∀ (s : State) (b : Bool), proj { s with queryWatching := b } = proj s)
    (hfn : ∀ s : State, proj { s with filters := s.filters.map fun e => (e.1, Val.null) } = proj s)
    (c2u : String → String) (opt : Opt) (sr : SetResult) (data : List Record) (total : Int)
    (st : State) :
    proj (onFetchSettled c2u opt sr (some (data, total)) st).state =
      proj (onFetchResolved opt sr data total st).state := by
  simp only [onFetchSettled]
  split
  · rfl
  · exact clearFilters_proj proj hsq hw hfn c2u opt _

/-- The state the first two steps of the `then` handler leave: the total is
stored and the data merged, whatever the recovery and the mode reset do next. -/
theorem onFetchResolved_items_total (opt : Opt) (sr : SetResult) (data : List Record)
    (total : Int) (st : State) :
    (onFetchResolved opt sr data total st).state.items =
        (applySetResult sr data { st with totalRows := total }).state.items ∧
      (onFetchResolved opt sr data total st).state.totalRows = total := by
  unfold onFetchResolved
  constructor
  · rw [Outcome.andThen_proj State.items _ _ (fun s => by
      rw [Outcome.andThen_proj State.items _ _ (fun s2 => rfl)]
      exact stalePageRecovery_proj State.items
        (setQueryParam_proj State.items fun _ _ => rfl) opt total s)]
  · rw [Outcome.andThen_proj State.totalRows _ _ (fun s => by
      rw [Outcome.andThen_proj State.totalRows _ _ (fun s2 => rfl)]
      exact stalePageRecovery_proj State.totalRows
        (setQueryParam_proj State.totalRows fun _ _ => rfl) opt total s)]
    cases sr
    · rfl
    · simp only [applySetResult]
      cases st.items <;> rfl

/-- The merge closure of a fetch follows the mode at the time `fetchItems` runs:
it pushes exactly in APPEND mode. -/
theorem fetchItems_setResult (c2u : String → String) (opt : Opt) (store : Store) (st : State) :
    fetchItems c2u opt store st =
      fetch c2u opt store (if st.mode = .more then .push else .assign) st := by
  unfold fetchItems hasNextMode
  cases st.mode <;> simp

/-! ### C1 -/

/-- C1 (fails on the code): the value of `canShowBottomNavigation` is not the
logical OR of the two booleans.  For every state it is the `canShowLoadMore` ref
object itself, which is truthy; with page 1, page size 20 and 15 rows both
booleans are false while the exposed value is truthy. -/
theorem canShowBottomNavigation_is_ref_not_or :
    (∀ (opt : Opt) (st : State),
      canShowBottomNavigation opt st = Operand.computedRef (canShowLoadMore opt st) ∧
      (canShowBottomNavigation opt st).truthy = true) ∧
    canShowLoadMore {}
        { construct camelToUnderscore {} { name := .str "list", query := [] } with
          totalRows := 15 } = .ok false ∧
    canShowPagination {}
        { construct camelToUnderscore {} { name := .str "list", query := [] } with
          totalRows := 15 } = .ok false ∧
    (canShowBottomNavigation {}
        { construct camelToUnderscore {} { name := .str "list", query := [] } with
          totalRows := 15 }).truthy = true ∧
    canShowBottomNavigation {}
        { construct camelToUnderscore {} { name := .str "list", query := [] } with
          totalRows := 15 } ≠ Operand.prim (.bool false) := by
  refine ⟨fun opt st => ⟨rfl, rfl⟩, rfl, rfl, rfl, ?_⟩
  intro h
  cases h

/-! ### C3 -/

/-- C3: `fetchItems` issues the fetch with the merge closure `push` in APPEND
mode and `assign` in REPLACE mode; with `Items = xs` and a successful response
`{data: ys, total: t}`, the fetch issued in APPEND mode leaves
`Items = xs ++ ys`, the fetch issued in REPLACE mode leaves `Items = ys`, and
`TotalRows = t` afterwards in both. -/
theorem fetch_merges_items (c2u : String → String) (opt : Opt) (store : Store) (st : State)
    (xs ys : List Record) (t : Int) (h : st.items = some xs) :
    fetchItems c2u opt store { st with mode := .more } =
      fetch c2u opt store .push { st with mode := .more } ∧
    fetchItems c2u opt store { st with mode := .next } =
      fetch c2u opt store .assign { st with mode := .next } ∧
    (onFetchSettled c2u opt .push (some (ys, t)) st).state.items = some (xs ++ ys) ∧
    (onFetchSettled c2u opt .push (some (ys, t)) st).state.totalRows = t ∧
    (onFetchSettled c2u opt .assign (some (ys, t)) st).state.items = some ys ∧
    (onFetchSettled c2u opt .assign (some (ys, t)) st).state.totalRows = t := by
  have hi := fun sr => onFetchSettled_proj State.items
    (setQueryParam_proj State.items fun _ _ => rfl) (fun _ _ => rfl) (fun _ => rfl)
    c2u opt sr ys t st
  have ht := fun sr => onFetchSettled_proj State.totalRows
    (setQueryParam_proj State.totalRows fun _ _ => rfl) (fun _ _ => rfl) (fun _ => rfl)
    c2u opt sr ys t st
  refine ⟨rfl, rfl, ?_, ?_, ?_, ?_⟩
  · rw [hi, (onFetchResolved_items_total opt .push ys t st).1]
    simp [applySetResult, h]
  · rw [ht, (onFetchResolved_items_total opt .push ys t st).2]
  · rw [hi, (onFetchResolved_items_total opt .assign ys t st).1]
    simp [applySetResult]
  · rw [ht, (onFetchResolved_items_total opt .assign ys t st).2]

/-- Witness for C3: `xs = [a, b]`, `ys = [c, d]`, total 4. -/
theorem fetch_merges_items_witness :
    (onFetchSettled camelToUnderscore {} .push (some (["c", "d"], 4))
        { construct camelToUnderscore {} { name := .str "list", query := [] } with
          items := some ["a", "b"] }).state.items = some ["a", "b", "c", "d"] ∧
    (onFetchSettled camelToUnderscore {} .push (some (["c", "d"], 4))
        { construct camelToUnderscore {} { name := .str "list", query := [] } with
          items := some ["a", "b"] }).state.totalRows = 4 ∧
    (onFetchSettled camelToUnderscore {} .assign (some (["c", "d"], 4))
        { construct camelToUnderscore {} { name := .str "list", query := [] } with
          items := some ["a", "b"] }).state.items = some ["c", "d"] ∧
    (onFetchSettled camelToUnderscore {} .assign (some (["c", "d"], 4))
        { construct camelToUnderscore {} { name := .str "list", query := [] } with
          items := some ["a", "b"] }).state.totalRows = 4 :=
  (fetch_merges_items camelToUnderscore {} { actions := ["fetchList"] }
    { construct camelToUnderscore {} { name := .str "list", query := [] } with
      items := some ["a", "b"] } ["a", "b"] ["c", "d"] 4 rfl).2.2

/-! ### Dictionaries -/

theorem Obj.has_eq_true_iff (o : Obj) (k : String) : o.has k = true ↔ k ∈ o.keys := by
  induction o with
  | nil => simp [Obj.has, Obj.keys]
  | cons e rest ih =>
    simp only [Obj.has, Obj.keys, List.any_cons, List.map_cons, List.mem_cons, Bool.or_eq_true,
      beq_iff_eq] at ih ⊢
    rw [ih]
    constructor
    · rintro (h | h)
      · exact Or.inl h.symm
      · exact Or.inr h
    · rintro (h | h)
      · exact Or.inl h.symm
      · exact Or.inr h

theorem Obj.get_set_self (o : Obj) (k : String) (v : Val) : (o.set k v).get k = v := by
  induction o with
  | nil => simp [Obj.set, Obj.get]
  | cons e rest ih =>
    obtain ⟨j, w⟩ := e
    by_cases h : j = k
    · simp [Obj.set, Obj.get, h]
    · simp [Obj.set, Obj.get, h, ih]

theorem Obj.get_set_of_ne (o : Obj) (k j : String) (v : Val) (h : k ≠ j) :
    (o.set k v).get j = o.get j := by
  induction o with
  | nil => simp [Obj.set, Obj.get, h]
  | cons e rest ih =>
    obtain ⟨i, w⟩ := e
    by_cases hi : i = k
    · subst hi
      simp [Obj.set, Obj.get, h]
    · by_cases hj : i = j
      · subst hj
        simp [Obj.set, Obj.get, hi]
      · simp [Obj.set, Obj.get, hi, hj, ih]

theorem Obj.keys_set_of_has (o : Obj) (k : String) (v : Val) (h : o.has k = true) :
    (o.set k v).keys = o.keys := by
  induction o with
  | nil => simp [Obj.has] at h
  | cons e rest ih =>
    obtain ⟨i, w⟩ := e
    by_cases hi : i = k
    · simp [Obj.set, Obj.keys, hi]
    · have hr : Obj.has rest k = true := by
        simpa [Obj.has, hi] using h
      have := ih hr
      simp only [Obj.keys] at this
      simp [Obj.set, Obj.keys, hi, this]

theorem Obj.has_set_of_has (o : Obj) (k j : String) (v : Val) (h : o.has j = true) :
    (o.set k v).has j = true := by
  induction o with
  | nil => simp [Obj.has] at h
  | cons e rest ih =>
    obtain ⟨i, w⟩ := e
    by_cases hi : i = k
    · subst hi
      simpa [Obj.set, Obj.has] using h
    · by_cases hj : i = j
      · subst hj
        simp [Obj.set, Obj.has, hi]
      · have hr : Obj.has rest j = true := by
          simpa [Obj.has, hj] using h
        simp [Obj.set, Obj.has, hi, hj]
        simpa [Obj.has] using ih hr

/-! ### Pagination reset -/

theorem setQueryParam_of_has (k : String) (v : Val) (st : State)
    (h : st.queryParams.has k = true) :
    setQueryParam k v st = { state := { st with queryParams := st.queryParams.set k v } } := by
  simp [setQueryParam, h]

/-- With both pagination entries present `clearPagination` completes and writes
the two defaults. -/
theorem clearPagination_of_has (opt : Opt) (st : State)
    (hp : st.queryParams.has (newPageKey opt) = true)
    (hpp : st.queryParams.has (perPageKey opt) = true) :
    clearPagination opt st =
      { state := { st with queryParams := ((st.queryParams.set (newPageKey opt)
          (.num DEFAULT_PAGE)).set (perPageKey opt) (.num DEFAULT_PER_PAGE)) } } := by
  unfold clearPagination
  rw [setQueryParam_of_has _ _ _ hp, Outcome.andThen_of_ok _ _ rfl]
  rw [setQueryParam_of_has _ _ _ (Obj.has_set_of_has _ _ _ _ hpp)]
  rfl

/-! ### C4 -/

/-- C4 (fails as stated): an APPEND-mode fetch that succeeds with `total = 10`
and `data = []` while `Items` already holds a record and the page is 5 leaves
the page at 5: the recovery tests the merged `Items`, not the returned slice. -/
theorem stale_page_append_not_reset :
    (0 : Int) < 10 ∧
    (onFetchSettled camelToUnderscore {} .push (some ([], 10))
        { route := { name := .str "list", query := [("page", .str "5")] }
          filters := [("page", .num 5), ("per_page", .num 20)]
          queryParams := [("page", .num 5), ("per_page", .num 20)]
          items := some ["a"]
          totalRows := 100
          mode := .more
          queryWatching := true }).state.queryParams.get "page" = .num 5 ∧
    (onFetchSettled camelToUnderscore {} .push (some ([], 10))
        { route := { name := .str "list", query := [("page", .str "5")] }
          filters := [("page", .num 5), ("per_page", .num 20)]
          queryParams := [("page", .num 5), ("per_page", .num 20)]
          items := some ["a"]
          totalRows := 100
          mode := .more
          queryWatching := true }).state.queryParams.get "page" ≠ .num 1 := by
  refine ⟨by decide, rfl, ?_⟩
  intro h
  cases h

/-- C4 (amended): when a fetch succeeds with `total > 0` and `Items` is empty
after the merge (REPLACE mode with `data = []`, or APPEND mode with `data = []`
onto an empty `Items`), and `QueryState` holds the page and page-size entries
under two different keys, the handler completes with `QueryState[page] = 1` and
`QueryState[perPage] = 20`; an APPEND-mode fetch with `data = []` onto a
non-empty `Items` leaves `QueryState` as it was. -/
theorem stale_page_recovery_resets (c2u : String → String) (opt : Opt) (sr : SetResult)
    (st : State) (total : Int) (ht : 0 < total)
    (hp : st.queryParams.has (newPageKey opt) = true)
    (hpp : st.queryParams.has (perPageKey opt) = true)
    (hne : newPageKey opt ≠ perPageKey opt) :
    ((sr = .assign ∨ st.items = some []) →
      (onFetchSettled c2u opt sr (some ([], total)) st).thrown = none ∧
      (onFetchSettled c2u opt sr (some ([], total)) st).state.queryParams.get (newPageKey opt)
        = .num 1 ∧
      (onFetchSettled c2u opt sr (some ([], total)) st).state.queryParams.get (perPageKey opt)
        = .num 20) ∧
    (∀ x xs, sr = .push → st.items = some (x :: xs) →
      (onFetchSettled c2u opt sr (some ([], total)) st).state.queryParams = st.queryParams) := by
  constructor
  · intro hempty
    have hitems : (applySetResult sr [] { st with totalRows := total }) =
        { state := { st with totalRows := total, items := some [] } } := by
      rcases hempty with h | h
      · subst h
        rfl
      · cases sr
        · rfl
        · simp [applySetResult, h]
    have hres : onFetchResolved opt sr [] total st =
        { state := { st with
            totalRows := total, items := some [], mode := .next,
            queryParams := ((st.queryParams.set (newPageKey opt) (.num DEFAULT_PAGE)).set
              (perPageKey opt) (.num DEFAULT_PER_PAGE)) } } := by
      unfold onFetchResolved
      rw [hitems, Outcome.andThen_of_ok _ _ rfl]
      have hrec : stalePageRecovery opt total { st with totalRows := total, items := some [] } =
          { state := { st with
              totalRows := total, items := some [],
              queryParams := ((st.queryParams.set (newPageKey opt) (.num DEFAULT_PAGE)).set
                (perPageKey opt) (.num DEFAULT_PER_PAGE)) } } := by
        simp only [stalePageRecovery, ht, if_true, List.length_nil]
        exact clearPagination_of_has opt { st with totalRows := total, items := some [] } hp hpp
      simp only [hrec]
      rw [Outcome.andThen_of_ok _ _ rfl]
      rfl
    have hset : onFetchSettled c2u opt sr (some ([], total)) st =
        onFetchResolved opt sr [] total st := by
      simp only [onFetchSettled, hres]
    rw [hset, hres]
    refine ⟨rfl, ?_, ?_⟩
    · rw [Obj.get_set_of_ne _ _ _ _ (Ne.symm hne), Obj.get_set_self]
      rfl
    · rw [Obj.get_set_self]
      rfl
  · intro x xs hsr hitems
    subst hsr
    have hres : onFetchResolved opt .push [] total st =
        { state := { st with totalRows := total, items := some (x :: xs), mode := .next } } := by
      unfold onFetchResolved
      simp [applySetResult, hitems, Outcome.andThen, stalePageRecovery, ht, setNextMode]
    have hset : onFetchSettled c2u opt .push (some ([], total)) st =
        onFetchResolved opt .push [] total st := by
      simp only [onFetchSettled, hres]
    rw [hset, hres]

/-- Witness for C4: REPLACE mode, `total = 10`, `data = []`, page 5. -/
theorem stale_page_recovery_resets_witness :
    (onFetchSettled camelToUnderscore {} .assign (some ([], 10))
        { route := { name := .str "list", query := [("page", .str "5")] }
          filters := [("page", .num 5), ("per_page", .num 20)]
          queryParams := [("page", .num 5), ("per_page", .num 20)]
          items := some ["a"]
          totalRows := 100
          mode := .next
          queryWatching := true }).thrown = none ∧
    (onFetchSettled camelToUnderscore {} .assign (some ([], 10))
        { route := { name := .str "list", query := [("page", .str "5")] }
          filters := [("page", .num 5), ("per_page", .num 20)]
          queryParams := [("page", .num 5), ("per_page", .num 20)]
          items := some ["a"]
          totalRows := 100
          mode := .next
          queryWatching := true }).state.queryParams.get (newPageKey {}) = .num 1 ∧
    (onFetchSettled camelToUnderscore {} .assign (some ([], 10))
        { route := { name := .str "list", query := [("page", .str "5")] }
          filters := [("page", .num 5), ("per_page", .num 20)]
          queryParams := [("page", .num 5), ("per_page", .num 20)]
          items := some ["a"]
          totalRows := 100
          mode := .next
          queryWatching := true }).state.queryParams.get (perPageKey {}) = .num 20 :=
  (stale_page_recovery_resets camelToUnderscore {} .assign
    { route := { name := .str "list", query := [("page", .str "5")] }
      filters := [("page", .num 5), ("per_page", .num 20)]
      queryParams := [("page", .num 5), ("per_page", .num 20)]
      items := some ["a"]
      totalRows := 100
      mode := .next
      queryWatching := true } 10 (by decide) rfl rfl (by decide)).1 (Or.inl rfl)

/-! ### Numbers -/

theorem bitLengthAux_zero (fuel : Nat) : bitLengthAux fuel 0 = 0 := by
  cases fuel <;> simp [bitLengthAux]

/-- With enough halving steps the binary length brackets a positive number
between two powers of two. -/
theorem bitLengthAux_bounds (fuel n : Nat) (hf : n ≤ fuel) (hn : 0 < n) :
    0 < bitLengthAux fuel n ∧ 2 ^ (bitLengthAux fuel n - 1) ≤ n ∧ n < 2 ^ bitLengthAux fuel n := by
  induction fuel generalizing n with
  | zero => omega
  | succ f ih =>
    have hne : n ≠ 0 := by omega
    simp only [bitLengthAux, hne, if_false]
    by_cases h2 : n / 2 = 0
    · have h1 : n = 1 := by omega
      subst h1
      simp [bitLengthAux_zero]
    · obtain ⟨hpos, hlo, hhi⟩ := ih (n / 2) (by omega) (by omega)
      obtain ⟨b, hb⟩ : ∃ b, bitLengthAux f (n / 2) = b + 1 := ⟨bitLengthAux f (n / 2) - 1, by omega⟩
      rw [hb] at hlo hhi ⊢
      simp only [Nat.add_sub_cancel] at hlo ⊢
      rw [pow_succ] at hhi ⊢
      refine ⟨by omega, by omega, ?_⟩
      rw [pow_succ]
      omega

theorem normalize_mul_pow (a j : Nat) : normalize (a * 2 ^ j) j = (a, 0) := by
  induction j with
  | zero => simp [normalize]
  | succ j ih =>
    have h1 : (a * 2 ^ (j + 1)) % 2 = 0 := by
      rw [pow_succ, ← mul_assoc]
      exact Nat.mul_mod_left _ _
    have h2 : (a * 2 ^ (j + 1)) / 2 = a * 2 ^ j := by
      rw [pow_succ, ← mul_assoc]
      exact Nat.mul_div_cancel _ (by decide)
    simp only [normalize, h1, if_true, h2, ih]

theorem normalize_idem (n k : Nat) :
    normalize (normalize n k).1 (normalize n k).2 = normalize n k := by
  induction k generalizing n with
  | zero => rfl
  | succ k ih =>
    by_cases h : n % 2 = 0
    · simp only [normalize, h, if_true]
      exact ih _
    · simp only [normalize, h, if_false]

/-- A zero in lowest terms has the denominator `2 ^ 0`. -/
theorem normalize_zero (n k : Nat) (h : (normalize n k).1 = 0) : normalize n k = (0, 0) := by
  induction k generalizing n with
  | zero =>
    simp only [normalize] at h ⊢
    rw [h]
  | succ k ih =>
    by_cases h2 : n % 2 = 0
    · simp only [normalize, h2, if_true] at h ⊢
      exact ih _ h
    · simp only [normalize, h2, if_false] at h
      omega

theorem signed_zero (neg : Bool) : signed neg 0 = 0 := by
  cases neg <;> rfl

theorem signed_natAbs (x : Int) : signed (decide (x < 0)) x.natAbs = x := by
  unfold signed
  by_cases h : x < 0
  · simp only [h, decide_True, if_true]
    omega
  · simp only [h, decide_False, Bool.false_eq_true, if_false]
    omega

theorem signed_neg_iff (neg : Bool) (n : Nat) (h : n ≠ 0) :
    decide (signed neg n < 0) = neg ∧ (signed neg n).natAbs = n := by
  unfold signed
  cases neg
  · simp
  · simp only [if_true, Int.natAbs_neg, Int.natAbs_ofNat, and_true, decide_eq_true_eq]
    omega

/-- The sign and the magnitude of a product of two integers. -/
theorem signed_mul (p q : Int) :
    signed (decide (p < 0) != decide (q < 0)) (p.natAbs * q.natAbs) = p * q := by
  unfold signed
  by_cases hp : p < 0 <;> by_cases hq : q < 0
  · have h1 : (p.natAbs : Int) = -p := by omega
    have h2 : (q.natAbs : Int) = -q := by omega
    simp only [hp, hq, decide_True, bne_self_eq_false, Bool.false_eq_true, if_false]
    rw [Nat.cast_mul, h1, h2]
    ring
  · have h1 : (p.natAbs : Int) = -p := by omega
    have h2 : (q.natAbs : Int) = q := by omega
    simp only [hp, hq, decide_True, decide_False, Bool.true_bne, Bool.not_false, if_true]
    rw [Nat.cast_mul, h1, h2]
    ring
  · have h1 : (p.natAbs : Int) = p := by omega
    have h2 : (q.natAbs : Int) = -q := by omega
    simp only [hp, hq, decide_True, decide_False, Bool.false_bne, if_true]
    rw [Nat.cast_mul, h1, h2]
    ring
  · have h1 : (p.natAbs : Int) = p := by omega
    have h2 : (q.natAbs : Int) = q := by omega
    simp only [hp, hq, decide_False, bne_self_eq_false, Bool.false_eq_true, if_false]
    rw [Nat.cast_mul, h1, h2]

/-- A positive integer below `2 ^ 53` is its own Number value. -/
theorem roundRatio_of_lt (neg : Bool) (n : Nat) (h0 : 0 < n) (h : n < 2 ^ 53) :
    roundRatio neg n 1 = .fin neg n 0 := by
  obtain ⟨hpos, hlo, hhi⟩ := bitLengthAux_bounds n n le_rfl h0
  have hb53 : bitLengthAux n n ≤ 53 := by
    by_contra hcon
    have : 2 ^ 53 ≤ 2 ^ (bitLengthAux n n - 1) := Nat.pow_le_pow_right (by decide) (by omega)
    omega
  obtain ⟨j, hj⟩ : ∃ j, bitLengthAux n n + j = 53 := ⟨53 - bitLengthAux n n, by omega⟩
  have hone : bitLengthAux 1 1 = 1 := by decide
  have hfl : floorLog2 n 1 = (bitLengthAux n n : Int) - 1 := by
    have ht : ((bitLengthAux n n : Int) - 1).toNat = bitLengthAux n n - 1 := by omega
    have ht2 : (-((bitLengthAux n n : Int) - 1)).toNat = 0 := by omega
    simp only [floorLog2, bitLength, hone, Nat.cast_one, ht, ht2, pow_zero, mul_one, one_mul]
    rw [if_pos hlo]
  have hs : max (floorLog2 n 1) (-1022) - 52 = -(j : Int) := by
    rw [hfl]
    omega
  have hn0 : n ≠ 0 := by omega
  have hm : roundHalfEven (n * 2 ^ j) 1 = n * 2 ^ j := by
    simp [roundHalfEven, Nat.mod_one]
  have hov : ¬ (1024 : Int) ≤ -(j : Int) + 52 + (if n * 2 ^ j = 2 ^ 53 then 1 else 0) := by
    split <;> omega
  simp only [roundRatio, hn0, if_false, hs, neg_neg, Int.toNat_ofNat, Int.toNat_neg_nat, pow_zero,
    mul_one, hm, hov, normalize_mul_pow]

/-- An integer of magnitude at most `2 ^ 53`, other than zero, is its own Number
value. -/
theorem ofNum_roundRatio_of_le (neg : Bool) (n : Nat) (h0 : 0 < n) (h : n ≤ 2 ^ 53) :
    Val.ofNum (roundRatio neg n 1) = .num (signed neg n) := by
  rcases Nat.lt_or_ge n (2 ^ 53) with hlt | hge
  · rw [roundRatio_of_lt neg n h0 hlt]
    obtain ⟨m, rfl⟩ : ∃ m, n = m + 1 := ⟨n - 1, by omega⟩
    simp [Val.ofNum, normalize]
  · have : n = 2 ^ 53 := le_antisymm h hge
    subst this
    cases neg <;> decide

/-- The positive zero is held as the integer 0. -/
theorem ofNum_roundRatio_zero (d : Nat) : Val.ofNum (roundRatio false 0 d) = .num 0 := by
  simp [roundRatio, Val.ofNum, normalize]

/-- Storing a rounded number and reading it back gives the number. -/
theorem toNumber_ofNum_roundRatio (neg : Bool) (n d : Nat) :
    (Val.ofNum (roundRatio neg n d)).toNumber = roundRatio neg n d := by
  have key : ∀ a k, (Val.ofNum (.fin neg (normalize a k).1 (normalize a k).2)).toNumber =
      .fin neg (normalize a k).1 (normalize a k).2 := by
    intro a k
    simp only [Val.ofNum, normalize_idem]
    rcases hn : normalize a k with ⟨b, j⟩
    cases b with
    | zero =>
      have hz := normalize_zero a k (by rw [hn])
      rw [hn] at hz
      simp only [Prod.mk.injEq] at hz
      obtain ⟨-, rfl⟩ := hz
      cases neg <;> rfl
    | succ b =>
      obtain ⟨h1, h2⟩ := signed_neg_iff neg (b + 1) (by omega)
      cases j with
      | zero => simp only [Val.toNumber, Num.ofInt, h1, h2]
      | succ j => simp only [Val.toNumber, h1, h2]
  simp only [roundRatio]
  split_ifs <;> first | exact key _ _ | rfl | (cases neg <;> rfl)

theorem jsLtNum_num (x n : Int) : jsLtNum (.num x) n = decide (x < n) := by
  simp [jsLtNum, Val.toNumber, Num.lt, Num.ofInt, signed_natAbs]

/-- The product of two integers compared with an integer, when the product is
at most `2 ^ 53` in magnitude: the comparison of the exact product. -/
theorem jsLtNum_jsMul_num (p q t : Int) (h : (p * q).natAbs ≤ 2 ^ 53) :
    jsLtNum (jsMul (.num p) (.num q)) t = decide (p * q < t) := by
  have hmul : jsMul (.num p) (.num q) =
      Val.ofNum (roundRatio (decide (p < 0) != decide (q < 0)) (p.natAbs * q.natAbs) 1) := by
    simp only [jsMul, Val.toNumber, Num.ofInt, Num.mul, Nat.add_zero, pow_zero]
  rw [hmul]
  rcases Nat.eq_zero_or_pos (p.natAbs * q.natAbs) with h0 | h0
  · have hpq : p * q = 0 := by
      have := signed_mul p q
      rw [h0] at this
      rw [← this]
      simp [signed]
    rw [h0, hpq]
    simp only [roundRatio, if_true, Val.ofNum, normalize]
    cases (decide (p < 0) != decide (q < 0)) <;>
      simp [jsLtNum, Val.toNumber, Num.lt, Num.ofInt, signed_zero, signed_natAbs]
  · rw [← Int.natAbs_mul] at h0
    rw [Int.natAbs_mul] at h h0
    rw [ofNum_roundRatio_of_le _ _ h0 h, signed_mul, jsLtNum_num]

/-- Loose equality between a number and a string reads the string as a numeric
literal, with a fraction, an exponent or a radix marker, and compares doubles. -/
theorem looseEq_number_string_examples :
    looseEq (.num 1) (.str "1.0") = true ∧ looseEq (.num 100) (.str "1e2") = true ∧
    looseEq (.num 31) (.str "0x1f") = true ∧ looseEq (.num 0) (.str " ") = true ∧
    looseEq (.num 9007199254740992) (.str "9007199254740993") = true ∧
    looseEq (.num 1) (.str "1.5") = false ∧ looseEq (.num 1) (.str "one") = false ∧
    looseEq (.frac 3 1) (.str "1.5") = true := by
  decide

/-! ### Coercion -/

theorem Char.isDigit_range (c : Char) (h : c.isDigit = true) : 48 ≤ c.toNat ∧ c.toNat ≤ 57 := by
  simp only [Char.isDigit, Bool.and_eq_true, decide_eq_true_eq] at h
  obtain ⟨h1, h2⟩ := h
  have h1n : (48 : UInt32).toNat ≤ c.val.toNat := h1
  have h2n : c.val.toNat ≤ (57 : UInt32).toNat := h2
  exact ⟨h1n, h2n⟩

theorem isJSWhiteSpace_of_isDigit (c : Char) (h : c.isDigit = true) :
    isJSWhiteSpace c = false := by
  have hr := Char.isDigit_range c h
  simp only [isJSWhiteSpace, List.mem_cons, List.mem_singleton, decide_eq_false_iff_not,
    List.not_mem_nil, or_false]
  omega

theorem digitValue_of_isDigit (c : Char) (h : c.isDigit = true) :
    digitValue 10 c = some (c.toNat - 48) := by
  have hr := Char.isDigit_range c h
  have hlt : c.toNat - 48 < 10 := by omega
  simp [digitValue, h, hlt]

theorem readDigits_of_digits (ds : List Char) (h : ∀ c ∈ ds, c.isDigit = true) (cnt acc : Nat) :
    readDigits 10 ds cnt acc =
      (cnt + ds.length,
        acc * 10 ^ ds.length + Nat.ofDigits 10 (ds.map fun c => c.toNat - 48).reverse) := by
  induction ds generalizing cnt acc with
  | nil => simp [readDigits]
  | cons c cs ih =>
    have hc : c.isDigit = true := h c (List.mem_cons_self _ _)
    have hcs : ∀ d ∈ cs, d.isDigit = true := fun d hd => h d (List.mem_cons_of_mem _ hd)
    simp only [readDigits, digitValue_of_isDigit c hc]
    rw [ih hcs]
    simp only [List.length_cons, List.map_cons, List.reverse_cons, Nat.ofDigits_append,
      Nat.ofDigits_singleton, List.length_reverse, List.length_map, Prod.mk.injEq]
    constructor
    · omega
    · ring

theorem readSign_of_isDigit (c : Char) (cs : List Char) (h : c.isDigit = true) :
    readSign (c :: cs) = (1, c :: cs) := by
  have hr := Char.isDigit_range c h
  have h1 : c ≠ '-' := by
    rintro rfl
    exact absurd hr.1 (by decide)
  have h2 : c ≠ '+' := by
    rintro rfl
    exact absurd hr.1 (by decide)
  simp [readSign, h1, h2]

theorem readRadix_of_digits (ds : List Char) (h : ∀ c ∈ ds, c.isDigit = true) :
    readRadix ds = (10, ds) := by
  match ds, h with
  | [], _ => rfl
  | [_], _ => rfl
  | c :: d :: cs, h =>
    have hd : d.isDigit = true := h d (by simp)
    have hr := Char.isDigit_range d hd
    have h1 : d ≠ 'x' := by
      rintro rfl
      exact absurd hr.2 (by decide)
    have h2 : d ≠ 'X' := by
      rintro rfl
      exact absurd hr.2 (by decide)
    simp [readRadix, h1, h2]

/-- The built-in `parseInt` reads a non-empty string of decimal digits as the
Number value of the integer the digits denote. -/
theorem parseIntChars_of_digits (ds : List Char) (hne : ds ≠ [])
    (h : ∀ c ∈ ds, c.isDigit = true) :
    parseIntChars ds =
      Val.ofNum (roundRatio false
        (Nat.ofDigits 10 (ds.map fun c => c.toNat - 48).reverse) 1) := by
  obtain ⟨c, cs, rfl⟩ := List.exists_cons_of_ne_nil hne
  have hc : c.isDigit = true := h c (List.mem_cons_self _ _)
  have hdrop : (c :: cs).dropWhile isJSWhiteSpace = c :: cs := by
    simp [List.dropWhile, isJSWhiteSpace_of_isDigit c hc]
  simp only [parseIntChars, hdrop, readSign_of_isDigit c cs hc, readRadix_of_digits _ h,
    readDigits_of_digits _ h]
  simp

theorem Obj.mem_keys_set (o : Obj) (k j : String) (v : Val) :
    j ∈ (o.set k v).keys ↔ j ∈ o.keys ∨ j = k := by
  induction o with
  | nil => simp [Obj.set, Obj.keys]
  | cons e rest ih =>
    obtain ⟨i, w⟩ := e
    simp only [Obj.keys] at ih
    by_cases hi : i = k
    · subst hi
      simp only [Obj.set, Obj.keys, if_true, List.map_cons, List.mem_cons]
      tauto
    · simp only [Obj.set, Obj.keys, hi, if_false, List.map_cons, List.mem_cons, ih]
      tauto

theorem mem_keys_foldl_set (c2u : String → String) (k : String) (l : List String) (acc : Obj)
    (h : k ∈ acc.keys ∨ k ∈ l.map c2u) :
    k ∈ (l.foldl (fun (o : Obj) i => o.set (c2u i) .undefined) acc).keys := by
  induction l generalizing acc with
  | nil => simpa using h
  | cons i rest ih =>
    simp only [List.foldl_cons]
    apply ih
    rcases h with h | h
    · exact Or.inl ((Obj.mem_keys_set _ _ _ _).2 (Or.inl h))
    · simp only [List.map_cons, List.mem_cons] at h
      rcases h with h | h
      · exact Or.inl ((Obj.mem_keys_set _ _ _ _).2 (Or.inr h))
      · exact Or.inr h

/-- Every registry key has a computed in `routeParams` under its canonical name. -/
theorem mem_routeParamKeys (c2u : String → String) (opt : Opt) (i : String)
    (h : i ∈ filterKeys opt) : c2u i ∈ routeParamKeys c2u opt :=
  mem_keys_foldl_set c2u (c2u i) (filterKeys opt) [] (Or.inr (List.mem_map_of_mem c2u h))

/-! ### C5 -/

/-- C5 (fails on the code): when the canonical name of the page key differs from
the configured page key (and from the page-size key), the `RouteParams` entry of
the page key is the raw route value, not its integer coercion: `mutations` is
filled under the configured key and looked up under the canonical one. -/
theorem routeParams_page_not_coerced (c2u : String → String) (opt : Opt) (route : Route)
    (h1 : c2u (newPageKey opt) ≠ newPageKey opt) (h2 : c2u (newPageKey opt) ≠ perPageKey opt) :
    routeParamsRef c2u opt route (c2u (newPageKey opt)) =
      .ok (route.query.get (c2u (newPageKey opt))) := by
  have hmem : c2u (newPageKey opt) ∈ routeParamKeys c2u opt :=
    mem_routeParamKeys c2u opt _ (by simp [filterKeys])
  simp [routeParamsRef, hmem, routeParamValue, mutations, h1, h2]

/-- Witness for C5: page key `pageNum`, canonically `page_num`.  With the route
query `{}` the entry is `undefined` instead of 1, with `{page_num: "3"}` it is
the string `"3"` instead of the number 3, and so is the seeded `QueryState`. -/
theorem routeParams_page_not_coerced_witness :
    camelToUnderscore "pageNum" = "page_num" ∧
    routeParamsRef camelToUnderscore { pageKey := some "pageNum" }
        { name := .str "list", query := [] } "page_num" = .ok .undefined ∧
    routeParamsRef camelToUnderscore { pageKey := some "pageNum" }
        { name := .str "list", query := [("page_num", .str "3")] } "page_num"
      = .ok (.str "3") ∧
    (construct camelToUnderscore { pageKey := some "pageNum" }
        { name := .str "list", query := [] }).queryParams
      = [("page_num", .undefined), ("per_page", .num 20)] :=
  ⟨by decide,
   routeParams_page_not_coerced camelToUnderscore { pageKey := some "pageNum" }
     { name := .str "list", query := [] } (by decide) (by decide),
   routeParams_page_not_coerced camelToUnderscore { pageKey := some "pageNum" }
     { name := .str "list", query := [("page_num", .str "3")] } (by decide) (by decide),
   by rfl⟩

/-! ### C6 -/

/-- C6 (fails as stated): the digit string `9007199254740993` denotes the
positive integer `2 ^ 53 + 1`, and both rules coerce it to the number
`9007199254740992`: `parseInt` returns a double, and that integer is not one. -/
theorem coercion_rounds_beyond_safe_integers :
    decimalDenotes "9007199254740993" 9007199254740993 = true ∧
    pageMutation (.str "9007199254740993") = .num 9007199254740992 ∧
    perPageMutation (.str "9007199254740993") = .num 9007199254740992 ∧
    pageMutation (.str "9007199254740993") ≠ .num 9007199254740993 ∧
    perPageMutation (.str "9007199254740993") ≠ .num 9007199254740993 := by
  refine ⟨by decide, by decide, by decide, by decide, by decide⟩

/-- C6 (amended): the page rule maps an absent or empty raw value to 1, the
page-size rule maps it to 20, and both map a string of decimal digits that
denotes an integer `n` to the Number value of `n`, the double nearest to it;
for every `n` up to `2 ^ 53` that is the integer `n` itself. -/
theorem coercion_defaults_and_digits (s : String) (n : Nat)
    (h : decimalDenotes s n = true) :
    pageMutation .undefined = .num 1 ∧ pageMutation (.str "") = .num 1 ∧
    perPageMutation .undefined = .num 20 ∧ perPageMutation (.str "") = .num 20 ∧
    pageMutation (.str s) = Val.ofNum (roundRatio false n 1) ∧
    perPageMutation (.str s) = Val.ofNum (roundRatio false n 1) ∧
    (n ≤ 2 ^ 53 → pageMutation (.str s) = .num n ∧ perPageMutation (.str s) = .num n) := by
  simp only [decimalDenotes, Bool.and_eq_true, Bool.not_eq_true', List.isEmpty_eq_false,
    List.all_eq_true, beq_iff_eq] at h
  obtain ⟨⟨hne, hd⟩, hv⟩ := h
  have hparse := parseIntChars_of_digits s.data hne hd
  rw [hv] at hparse
  have htruthy : (Val.str s).truthy = true := by
    simp [Val.truthy, hne]
  have hpage : pageMutation (.str s) = Val.ofNum (roundRatio false n 1) := by
    simp only [pageMutation, htruthy, if_true, parseInt, Val.toJSString, hparse]
  have hperPage : perPageMutation (.str s) = Val.ofNum (roundRatio false n 1) := by
    simp only [perPageMutation, htruthy, if_true, parseInt, Val.toJSString, hparse]
  refine ⟨by rfl, by rfl, by rfl, by rfl, hpage, hperPage, fun hle => ?_⟩
  have hval : Val.ofNum (roundRatio false n 1) = .num n := by
    rcases Nat.eq_zero_or_pos n with h0 | h0
    · subst h0
      exact ofNum_roundRatio_zero 1
    · rw [ofNum_roundRatio_of_le false n h0 hle]
      rfl
  rw [hpage, hperPage, hval]
  exact ⟨rfl, rfl⟩

/-- Witness for C6: the string `"5"` coerces to the number 5. -/
theorem coercion_defaults_and_digits_witness :
    pageMutation .undefined = .num 1 ∧ perPageMutation .undefined = .num 20 ∧
    pageMutation (.str "5") = .num (5 : Nat) ∧ perPageMutation (.str "5") = .num (5 : Nat) :=
  ⟨(coercion_defaults_and_digits "5" 5 (by decide)).1,
   (coercion_defaults_and_digits "5" 5 (by decide)).2.2.1,
   (coercion_defaults_and_digits "5" 5 (by decide)).2.2.2.2.2.2 (by decide)⟩

/-! ### C8 -/

theorem Outcome.andThen_thrown_none (o : Outcome) (f : State → Outcome)
    (h : (o.andThen f).thrown = none) : o.thrown = none ∧ (f o.state).thrown = none := by
  unfold Outcome.andThen at h
  cases ho : o.thrown with
  | none =>
    rw [ho] at h
    exact ⟨rfl, h⟩
  | some e =>
    rw [ho] at h
    simp only at h
    rw [ho] at h
    cases h

/-- A `then` handler that runs to its end has reset the mode to REPLACE. -/
theorem onFetchResolved_mode_of_ok (opt : Opt) (sr : SetResult) (data : List Record)
    (total : Int) (st : State) (h : (onFetchResolved opt sr data total st).thrown = none) :
    (onFetchResolved opt sr data total st).state.mode = .next := by
  unfold onFetchResolved at h ⊢
  obtain ⟨h1, h2⟩ := Outcome.andThen_thrown_none _ _ h
  rw [Outcome.andThen_of_ok _ _ h1] at h ⊢
  obtain ⟨h3, -⟩ := Outcome.andThen_thrown_none _ _ h2
  simp only [Outcome.andThen_of_ok _ _ h3]
  rfl

/-- The `then` handler runs to its end when the pagination entries exist and, in
APPEND mode, `Items` is an array. -/
theorem onFetchResolved_completes (opt : Opt) (sr : SetResult) (data : List Record)
    (total : Int) (st : State)
    (hp : st.queryParams.has (newPageKey opt) = true)
    (hpp : st.queryParams.has (perPageKey opt) = true)
    (hi : sr = .push → st.items ≠ none) :
    (onFetchResolved opt sr data total st).thrown = none := by
  have hmerge : ∃ ys, applySetResult sr data { st with totalRows := total } =
      { state := { st with totalRows := total, items := some ys } } := by
    cases sr with
    | assign => exact ⟨data, rfl⟩
    | push =>
      cases hitems : st.items with
      | none => exact absurd hitems (hi rfl)
      | some xs => exact ⟨xs ++ data, by simp [applySetResult, hitems]⟩
  obtain ⟨ys, hys⟩ := hmerge
  have hrec : (stalePageRecovery opt total { st with totalRows := total, items := some ys }).thrown
      = none := by
    simp only [stalePageRecovery]
    split
    · split
      · rw [clearPagination_of_has opt { st with totalRows := total, items := some ys } hp hpp]
      · rfl
    · rfl
  unfold onFetchResolved
  rw [hys, Outcome.andThen_of_ok _ _ rfl]
  simp only [Outcome.andThen_of_ok _ _ hrec]

/-- C8 (fails as stated): the load-more trigger on a view whose `Items` is still
`null`.  The fetch is issued in APPEND mode and the dispatch resolves with two
records, but the push onto `null` throws before the mode reset is reached: the
mode is still APPEND afterwards and the next `fetchItems` pushes again. -/
theorem load_more_before_first_page_stays_append :
    fetchItems camelToUnderscore {} { actions := ["fetchList"] }
        (incCurrentPageByMoreMode {}
          (construct camelToUnderscore {}
            { name := .str "list", query := [("page", .str "1")] })).state =
      { state :=
          (incCurrentPageByMoreMode {}
            (construct camelToUnderscore {}
              { name := .str "list", query := [("page", .str "1")] })).state
        effects := [.dispatch "fetchList" [("page", .num 1), ("per_page", .num 20)] .push] } ∧
    (onFetchSettled camelToUnderscore {} .push (some (["r1", "r2"], 45))
        (incCurrentPageByMoreMode {}
          (construct camelToUnderscore {}
            { name := .str "list", query := [("page", .str "1")] })).state).state.mode = .more ∧
    (onFetchSettled camelToUnderscore {} .push (some (["r1", "r2"], 45))
        (incCurrentPageByMoreMode {}
          (construct camelToUnderscore {}
            { name := .str "list", query := [("page", .str "1")] })).state).state.mode ≠ .next ∧
    fetchItems camelToUnderscore {} { actions := ["fetchList"] }
        (onFetchSettled camelToUnderscore {} .push (some (["r1", "r2"], 45))
          (incCurrentPageByMoreMode {}
            (construct camelToUnderscore {}
              { name := .str "list", query := [("page", .str "1")] })).state).state =
      fetch camelToUnderscore {} { actions := ["fetchList"] } .push
        (onFetchSettled camelToUnderscore {} .push (some (["r1", "r2"], 45))
          (incCurrentPageByMoreMode {}
            (construct camelToUnderscore {}
              { name := .str "list", query := [("page", .str "1")] })).state).state := by
  refine ⟨by rfl, by rfl, by decide, by rfl⟩

/-- C8 (amended): the mode starts as REPLACE; a fetch whose success handler runs
to its end (in either mode) leaves the mode REPLACE, so the next `fetchItems`
assigns instead of pushing, also right after a load-more trigger; the success
handler does run to its end whenever the pagination entries exist and, in
APPEND mode, `Items` is an array; in APPEND mode with `Items` still `null` it
throws before the reset and the mode stays as it was. -/
theorem mode_is_replace_after_success (c2u : String → String) (opt : Opt) (store : Store)
    (route : Route) (sr : SetResult) (data : List Record) (total : Int) (st : State) :
    (construct c2u opt route).mode = .next ∧
    ((onFetchResolved opt sr data total st).thrown = none →
      (onFetchSettled c2u opt sr (some (data, total)) st).state.mode = .next ∧
      fetchItems c2u opt store (onFetchSettled c2u opt sr (some (data, total)) st).state =
        fetch c2u opt store .assign (onFetchSettled c2u opt sr (some (data, total)) st).state) ∧
    (st.queryParams.has (newPageKey opt) = true → st.queryParams.has (perPageKey opt) = true →
      (sr = .push → st.items ≠ none) → (onFetchResolved opt sr data total st).thrown = none) ∧
    (sr = .push → st.items = none →
      (onFetchResolved opt sr data total st).thrown = some .typeError ∧
      (onFetchSettled c2u opt sr (some (data, total)) st).state.mode = st.mode) ∧
    (fetchItems c2u opt store (incCurrentPageByMoreMode opt st).state =
        fetch c2u opt store .push (incCurrentPageByMoreMode opt st).state ∧
      ((onFetchResolved opt .push data total (incCurrentPageByMoreMode opt st).state).thrown = none →
        fetchItems c2u opt store
            (onFetchSettled c2u opt .push (some (data, total))
              (incCurrentPageByMoreMode opt st).state).state =
          fetch c2u opt store .assign
            (onFetchSettled c2u opt .push (some (data, total))
              (incCurrentPageByMoreMode opt st).state).state)) := by
  have key : ∀ (sr : SetResult) (s : State), (onFetchResolved opt sr data total s).thrown = none →
      (onFetchSettled c2u opt sr (some (data, total)) s).state.mode = .next ∧
      fetchItems c2u opt store (onFetchSettled c2u opt sr (some (data, total)) s).state =
        fetch c2u opt store .assign (onFetchSettled c2u opt sr (some (data, total)) s).state := by
    intro sr s h
    have hset : onFetchSettled c2u opt sr (some (data, total)) s =
        onFetchResolved opt sr data total s := by
      simp only [onFetchSettled, h]
    have hmode := onFetchResolved_mode_of_ok opt sr data total s h
    rw [hset]
    refine ⟨hmode, ?_⟩
    rw [fetchItems_setResult, hmode]
    rfl
  have hnull : sr = .push → st.items = none →
      (onFetchResolved opt sr data total st).thrown = some .typeError ∧
      (onFetchSettled c2u opt sr (some (data, total)) st).state.mode = st.mode := by
    rintro rfl hitems
    have hres : onFetchResolved opt .push data total st =
        { state := { st with totalRows := total }, thrown := some .typeError } := by
      simp [onFetchResolved, applySetResult, hitems, Outcome.andThen]
    refine ⟨by rw [hres], ?_⟩
    rw [onFetchSettled_proj State.mode (setQueryParam_proj State.mode fun _ _ => rfl)
      (fun _ _ => rfl) (fun _ => rfl), hres]
  refine ⟨rfl, key sr st, onFetchResolved_completes opt sr data total st, hnull, ?_,
    fun h => (key _ _ h).2⟩
  rw [fetchItems_setResult]
  have hm : (incCurrentPageByMoreMode opt st).state.mode = .more := by
    simp only [incCurrentPageByMoreMode]
    split <;> rfl
  rw [hm]
  rfl

/-- Witness for C8: a load-more trigger on a loaded first page followed by a
successful APPEND fetch; the handler completes and the mode is REPLACE again. -/
theorem mode_is_replace_after_success_witness :
    (onFetchResolved {} .push ["c"] 3
        (incCurrentPageByMoreMode {}
          { construct camelToUnderscore {} { name := .str "list", query := [] } with
            items := some ["a", "b"] }).state).thrown = none ∧
    (onFetchSettled camelToUnderscore {} .push (some (["c"], 3))
        (incCurrentPageByMoreMode {}
          { construct camelToUnderscore {} { name := .str "list", query := [] } with
            items := some ["a", "b"] }).state).state.mode = .next :=
  ⟨by rfl,
   ((mode_is_replace_after_success camelToUnderscore {} { actions := ["fetchList"] }
      { name := .str "list", query := [] } .push ["c"] 3
      (incCurrentPageByMoreMode {}
        { construct camelToUnderscore {} { name := .str "list", query := [] } with
          items := some ["a", "b"] }).state).2.1 (by rfl)).1⟩

/-! ### C2 -/

theorem Obj.get_of_not_mem (o : Obj) (k : String) (h : k ∉ o.keys) : o.get k = .undefined := by
  induction o with
  | nil => rfl
  | cons e rest ih =>
    obtain ⟨i, w⟩ := e
    simp only [Obj.keys, List.map_cons, List.mem_cons, not_or] at h ih
    have hne : i ≠ k := fun hik => h.1 hik.symm
    simp only [Obj.get, hne, if_false]
    exact ih h.2

theorem Obj.get_mem (o : Obj) (k : String) (h : k ∈ o.keys) : (k, o.get k) ∈ o := by
  induction o with
  | nil => simp [Obj.keys] at h
  | cons e rest ih =>
    obtain ⟨i, w⟩ := e
    by_cases hik : i = k
    · subst hik
      simp [Obj.get]
    · simp only [Obj.keys, List.map_cons, List.mem_cons] at h ih
      have hr : k ∈ List.map Prod.fst rest := by
        rcases h with h | h
        · exact absurd h.symm hik
        · exact h
      simp only [Obj.get, hik, if_false, List.mem_cons]
      exact Or.inr (ih hr)

theorem Obj.set_of_not_mem (o : Obj) (k : String) (v : Val) (h : k ∉ o.keys) :
    o.set k v = o ++ [(k, v)] := by
  induction o with
  | nil => rfl
  | cons e rest ih =>
    obtain ⟨i, w⟩ := e
    simp only [Obj.keys, List.map_cons, List.mem_cons, not_or] at h ih
    have hne : i ≠ k := fun hik => h.1 hik.symm
    simp only [Obj.set, hne, if_false, List.cons_append, ih h.2]

/-- A truthy value is never loosely equal to `undefined`. -/
theorem looseNe_undefined_of_truthy (v : Val) (h : v.truthy = true) :
    looseNe v .undefined = true := by
  cases v <;> simp_all [Val.truthy, looseNe, looseEq]

/-- With distinct canonical keys that `camelToUnderscore` leaves alone, the
first loop of `updateRouteQuery` collects the truthy entries after what it
already holds. -/
theorem buildQuery_foldl (c2u : String → String) (l acc : Obj)
    (hc : ∀ k ∈ l.keys, c2u k = k) (hk : l.keys.Nodup) (hd : ∀ k ∈ l.keys, k ∉ acc.keys) :
    l.foldl (fun (query : Obj) e => if e.2.truthy then query.set (c2u e.1) e.2 else query) acc =
      acc ++ l.filter (fun e => e.2.truthy) := by
  induction l generalizing acc with
  | nil => simp
  | cons e rest ih =>
    obtain ⟨i, w⟩ := e
    simp only [Obj.keys, List.map_cons, List.mem_cons, List.nodup_cons, forall_eq_or_imp] at hc hk hd
    have hcr : ∀ k ∈ Obj.keys rest, c2u k = k := hc.2
    simp only [List.foldl_cons]
    by_cases hw : w.truthy = true
    · simp only [hw, if_true, List.filter_cons_of_pos]
      rw [hc.1, Obj.set_of_not_mem _ _ _ hd.1, ih _ hcr hk.2]
      · simp
      · intro k hkr hmem
        simp only [Obj.keys, List.map_append, List.map_cons, List.map_nil, List.mem_append,
          List.mem_singleton] at hmem
        rcases hmem with hmem | hmem
        · exact hd.2 k hkr hmem
        · subst hmem
          exact hk.1 hkr
    · simp only [hw, Bool.false_eq_true, if_false]
      rw [ih _ hcr hk.2 hd.2]
      simp [List.filter_cons, hw]

theorem buildQuery_eq_filter (c2u : String → String) (qp : Obj)
    (hc : ∀ k ∈ qp.keys, c2u k = k) (hk : qp.keys.Nodup) :
    buildQuery c2u qp = qp.filter (fun e => e.2.truthy) := by
  unfold buildQuery
  rw [buildQuery_foldl c2u qp [] hc hk (by simp [Obj.keys])]
  simp

theorem foldl_flag_eq_any (p : String → Bool) (l : List String) (b : Bool) :
    l.foldl (fun changed i => if p i then true else changed) b = (b || l.any p) := by
  induction l generalizing b with
  | nil => simp
  | cons i rest ih =>
    simp only [List.foldl_cons, List.any_cons, ih]
    cases b <;> cases p i <;> simp

theorem queryIsChanged_eq (q r : Obj) :
    queryIsChanged q r =
      (decide (q.keys.length ≠ r.keys.length) ||
        q.keys.any (fun i => looseNe (q.get i) (r.get i))) := by
  unfold queryIsChanged
  exact foldl_flag_eq_any _ _ _

/-- Two duplicate-free key lists of the same length, one inside the other, have
the same members. -/
theorem keys_subset_of_length_eq (a b : List String) (ha : a.Nodup)
    (hlen : a.length = b.length) (hsub : ∀ k ∈ a, k ∈ b) : ∀ k ∈ b, k ∈ a := by
  have hperm : a.Perm b :=
    (List.subperm_of_subset ha hsub).perm_of_length_le (le_of_eq hlen.symm)
  intro k hk
  exact hperm.symm.subset hk

/-- On dictionaries with distinct keys, when every value of `query` is truthy,
the flag computed by `updateRouteQuery` says exactly that the two dictionaries
differ as mappings under loose equality. -/
theorem queryIsChanged_eq_mappingDiffers (q r : Obj) (hq : q.keys.Nodup) (hr : r.keys.Nodup)
    (ht : ∀ e ∈ q, e.2.truthy = true) : queryIsChanged q r = mappingDiffers q r := by
  have hmiss : ∀ k ∈ q.keys, r.has k = false → looseNe (q.get k) (r.get k) = true := by
    intro k hk hhas
    have hnot : k ∉ r.keys := by
      intro hmem
      rw [(Obj.has_eq_true_iff r k).2 hmem] at hhas
      cases hhas
    rw [Obj.get_of_not_mem r k hnot]
    exact looseNe_undefined_of_truthy _ (ht _ (Obj.get_mem q k hk))
  rw [queryIsChanged_eq, Bool.eq_iff_iff]
  simp only [mappingDiffers, Bool.or_eq_true, decide_eq_true_eq, List.any_eq_true,
    Bool.and_eq_true, Bool.not_eq_true']
  constructor
  · rintro (hlen | ⟨k, hk, hne⟩)
    · by_contra hcon
      simp only [not_or, not_exists, not_and] at hcon
      obtain ⟨⟨h1, h2⟩, -⟩ := hcon
      have hsub : ∀ k ∈ q.keys, k ∈ r.keys := by
        intro k hk
        have := h1 k hk
        simp only [Bool.not_eq_false] at this
        exact (Obj.has_eq_true_iff r k).1 this
      have hsub2 : ∀ k ∈ r.keys, k ∈ q.keys := by
        intro k hk
        have := h2 k hk
        simp only [Bool.not_eq_false] at this
        exact (Obj.has_eq_true_iff q k).1 this
      have hperm : q.keys.Perm r.keys :=
        (List.perm_ext_iff_of_nodup hq hr).2 (fun k => ⟨hsub k, hsub2 k⟩)
      exact hlen hperm.length_eq
    · cases hhas : r.has k with
      | true => exact Or.inr ⟨k, hk, hhas, hne⟩
      | false => exact Or.inl (Or.inl ⟨k, hk, hhas⟩)
  · rintro ((⟨k, hk, hhas⟩ | ⟨k, hk, hhas⟩) | ⟨k, hk, -, hne⟩)
    · exact Or.inr ⟨k, hk, hmiss k hk hhas⟩
    · by_cases hlen : q.keys.length = r.keys.length
      · by_cases hsub : ∀ j ∈ q.keys, j ∈ r.keys
        · have hback := keys_subset_of_length_eq q.keys r.keys hq hlen hsub k hk
          rw [(Obj.has_eq_true_iff q k).2 hback] at hhas
          cases hhas
        · simp only [not_forall] at hsub
          obtain ⟨j, hj, hjr⟩ := hsub
          refine Or.inr ⟨j, hj, hmiss j hj ?_⟩
          cases hhas2 : r.has j with
          | true => exact absurd ((Obj.has_eq_true_iff r j).1 hhas2) hjr
          | false => rfl
      · exact Or.inl hlen
    · exact Or.inr ⟨k, hk, hne⟩

/-- C2: on a `QueryState` with distinct canonical keys (names that
`camelToUnderscore` leaves alone) and a route query with distinct keys,
`updateRouteQuery` builds exactly the truthy `QueryState` entries, leaves the
state alone, and requests a replace-navigation with that query if and only if
it differs from the route query as a mapping under loose equality; a route key
missing from the built query always causes the navigation. -/
theorem updateRouteQuery_navigates_iff_differs (c2u : String → String) (st : State)
    (hk : st.queryParams.keys.Nodup) (hr : st.route.query.keys.Nodup)
    (hc : ∀ k ∈ st.queryParams.keys, c2u k = k) :
    buildQuery c2u st.queryParams = st.queryParams.filter (fun e => e.2.truthy) ∧
    (updateRouteQuery c2u st).state = st ∧
    (updateRouteQuery c2u st).thrown = none ∧
    (updateRouteQuery c2u st).effects =
      (if mappingDiffers (buildQuery c2u st.queryParams) st.route.query then
        [.replace { name := routeRefName st.route, query := buildQuery c2u st.queryParams }]
      else []) ∧
    ((∃ k ∈ st.route.query.keys, k ∉ (buildQuery c2u st.queryParams).keys) →
      (updateRouteQuery c2u st).effects =
        [.replace { name := routeRefName st.route, query := buildQuery c2u st.queryParams }]) := by
  have hbuild := buildQuery_eq_filter c2u st.queryParams hc hk
  have hnodup : (buildQuery c2u st.queryParams).keys.Nodup := by
    rw [hbuild]
    exact List.Nodup.sublist ((List.filter_sublist _).map Prod.fst) hk
  have htruthy : ∀ e ∈ buildQuery c2u st.queryParams, e.2.truthy = true := by
    rw [hbuild]
    intro e he
    exact (List.mem_filter.1 he).2
  have hflag := queryIsChanged_eq_mappingDiffers _ _ hnodup hr htruthy
  have heff : (updateRouteQuery c2u st).effects =
      (if mappingDiffers (buildQuery c2u st.queryParams) st.route.query then
        [.replace { name := routeRefName st.route, query := buildQuery c2u st.queryParams }]
      else []) := by
    simp only [updateRouteQuery, hflag]
    split <;> rfl
  refine ⟨hbuild, ?_, ?_, heff, ?_⟩
  · simp only [updateRouteQuery]
    split <;> rfl
  · simp only [updateRouteQuery]
    split <;> rfl
  · rintro ⟨k, hkr, hkq⟩
    have hdiff : mappingDiffers (buildQuery c2u st.queryParams) st.route.query = true := by
      simp only [mappingDiffers, Bool.or_eq_true, List.any_eq_true, Bool.not_eq_true']
      refine Or.inl (Or.inr ⟨k, hkr, ?_⟩)
      cases hhas : (buildQuery c2u st.queryParams).has k with
      | true => exact absurd ((Obj.has_eq_true_iff _ k).1 hhas) hkq
      | false => rfl
    rw [heff, hdiff]
    rfl

/-- Witness for C2: page 2 of the default registry on a route that shows page 1
and carries an untracked parameter. -/
theorem updateRouteQuery_navigates_iff_differs_witness :
    (updateRouteQuery camelToUnderscore
        { route := { name := .str "list", query := [("page", .str "1"), ("tab", .str "x")] }
          filters := [("page", .num 2), ("per_page", .null)]
          queryParams := [("page", .num 2), ("per_page", .null)]
          items := none
          totalRows := 0
          mode := .next
          queryWatching := true }).effects =
      [.replace { name := .undefined, query := [("page", .num 2)] }] :=
  (updateRouteQuery_navigates_iff_differs camelToUnderscore
    { route := { name := .str "list", query := [("page", .str "1"), ("tab", .str "x")] }
      filters := [("page", .num 2), ("per_page", .null)]
      queryParams := [("page", .num 2), ("per_page", .null)]
      items := none
      totalRows := 0
      mode := .next
      queryWatching := true } (by decide) (by decide) (by decide)).2.2.2.2
    ⟨"tab", by decide, by decide⟩

/-- Example: a view constructed on `?page=1.0&per_page=20` holds page 1 and page
size 20, and its outbound sync finds the route unchanged, `1` and `"1.0"` being
loosely equal. -/
theorem updateRouteQuery_numeric_strings :
    (construct camelToUnderscore {}
        { name := .str "list"
          query := [("page", .str "1.0"), ("per_page", .str "20")] }).queryParams =
      [("page", .num 1), ("per_page", .num 20)] ∧
    (updateRouteQuery camelToUnderscore
        (construct camelToUnderscore {}
          { name := .str "list"
            query := [("page", .str "1.0"), ("per_page", .str "20")] })).effects = [] := by
  exact ⟨by rfl, by rfl⟩

/-! ### Filter commit cycle -/

theorem Obj.set_eq_map (o : Obj) (k : String) (v : Val) (hn : o.keys.Nodup) (hk : k ∈ o.keys) :
    o.set k v = o.map (fun e => if e.1 = k then (e.1, v) else e) := by
  induction o with
  | nil => simp [Obj.keys] at hk
  | cons e rest ih =>
    obtain ⟨i, w⟩ := e
    simp only [Obj.keys, List.map_cons, List.nodup_cons, List.mem_cons] at hn hk ih
    by_cases hik : i = k
    · subst hik
      have hrest : rest.map (fun e => if e.1 = i then (e.1, v) else e) = rest := by
        conv_rhs => rw [← List.map_id rest]
        apply List.map_congr_left
        intro e he
        have hne : e.1 ≠ i := by
          intro heq
          exact hn.1 (heq ▸ List.mem_map_of_mem Prod.fst he)
        simp [hne]
      simp [Obj.set, hrest]
    · have hr : k ∈ List.map Prod.fst rest := by
        rcases hk with h | h
        · exact absurd h.symm hik
        · exact h
      simp [Obj.set, hik, ih hn.2 hr]

/-- Writing `null` under a list of existing keys, one after the other, nulls
exactly the entries under those keys. -/
theorem foldl_set_null (ks : List String) (o : Obj) (hn : o.keys.Nodup)
    (hks : ∀ k ∈ ks, k ∈ o.keys) :
    ks.foldl (fun (q : Obj) k => q.set k .null) o =
      o.map (fun e => if e.1 ∈ ks then (e.1, Val.null) else e) := by
  induction ks generalizing o with
  | nil => simp
  | cons k rest ih =>
    have hk : k ∈ o.keys := hks k (List.mem_cons_self _ _)
    have hhas : o.has k = true := (Obj.has_eq_true_iff o k).2 hk
    have hkeys : (o.set k .null).keys = o.keys := Obj.keys_set_of_has o k .null hhas
    simp only [List.foldl_cons]
    rw [ih (o.set k .null) (hkeys ▸ hn)
      (fun j hj => hkeys ▸ hks j (List.mem_cons_of_mem _ hj))]
    rw [Obj.set_eq_map o k .null hn hk, List.map_map]
    apply List.map_congr_left
    intro e _
    by_cases hek : e.1 = k
    · simp [hek]
    · simp [hek]

theorem Obj.keys_map_null (o : Obj) : Obj.keys (o.map fun e => (e.1, Val.null)) = o.keys := by
  simp [Obj.keys, List.map_map, Function.comp_def]

theorem Obj.get_map_null (o : Obj) (k : String) (h : k ∈ o.keys) :
    Obj.get (o.map fun e => (e.1, Val.null)) k = .null := by
  induction o with
  | nil => simp [Obj.keys] at h
  | cons e rest ih =>
    obtain ⟨i, w⟩ := e
    by_cases hik : i = k
    · simp [Obj.get, hik]
    · simp only [Obj.keys, List.map_cons, List.mem_cons] at h ih
      have hr : k ∈ List.map Prod.fst rest := by
        rcases h with h | h
        · exact absurd h.symm hik
        · exact h
      simp only [List.map_cons, Obj.get, hik, if_false]
      exact ih hr

/-- The copy loop of `applyFilters` completes when every filter key has its
canonical entry, and performs the writes in order. -/
theorem copyFilters_of_has (c2u : String → String) (fs : List (String × Val)) (st : State)
    (h : ∀ e ∈ fs, c2u e.1 ∈ st.queryParams.keys) :
    copyFilters c2u fs st =
      { state :=
          { st with
            queryParams := fs.foldl (fun (q : Obj) e => q.set (c2u e.1) e.2) st.queryParams } } := by
  induction fs generalizing st with
  | nil => rfl
  | cons e rest ih =>
    obtain ⟨i, v⟩ := e
    have hi : st.queryParams.has (c2u i) = true :=
      (Obj.has_eq_true_iff _ _).2 (h (i, v) (List.mem_cons_self _ _))
    simp only [copyFilters]
    rw [setQueryParam_of_has _ _ _ hi, Outcome.andThen_of_ok _ _ rfl]
    have hrest : ∀ e ∈ rest,
        c2u e.1 ∈ Obj.keys ({ st with queryParams := st.queryParams.set (c2u i) v }).queryParams := by
      intro e he
      have := h e (List.mem_cons_of_mem _ he)
      show c2u e.1 ∈ (st.queryParams.set (c2u i) v).keys
      rw [Obj.keys_set_of_has _ _ _ hi]
      exact this
    rw [ih _ hrest]
    rfl

/-- In a state of the registry shape, the copy loop run on an all-null
`filters` nulls every `queryParams` entry. -/
theorem copyFilters_nulls (c2u : String → String) (opt : Opt) (st : State) (fl : Obj)
    (hwf : WellFormed c2u opt st) (hfl : fl.keys = st.filters.keys) :
    copyFilters c2u (fl.map fun e => (e.1, Val.null)) st =
      { state := { st with queryParams := st.queryParams.map fun e => (e.1, Val.null) } } := by
  obtain ⟨hn, -, -, -, hto, hfrom, -, -⟩ := hwf
  have hmem : ∀ e ∈ fl.map (fun e => (e.1, Val.null)), c2u e.1 ∈ st.queryParams.keys := by
    intro e he
    obtain ⟨a, ha, rfl⟩ := List.mem_map.1 he
    exact hto a.1 (hfl ▸ List.mem_map_of_mem Prod.fst ha)
  rw [copyFilters_of_has c2u _ st hmem]
  have hfold : (fl.map fun e => (e.1, Val.null)).foldl
        (fun (q : Obj) e => q.set (c2u e.1) e.2) st.queryParams =
      (fl.keys.map c2u).foldl (fun (q : Obj) k => q.set k .null) st.queryParams := by
    simp only [Obj.keys, List.foldl_map]
  rw [hfold, foldl_set_null _ _ hn]
  · have hall : st.queryParams.map (fun e => if e.1 ∈ fl.keys.map c2u then (e.1, Val.null) else e) =
        st.queryParams.map fun e => (e.1, Val.null) := by
      apply List.map_congr_left
      intro e he
      have : e.1 ∈ fl.keys.map c2u := hfl ▸ hfrom e.1 (List.mem_map_of_mem Prod.fst he)
      simp [this]
    rw [hall]
  · intro k hk
    obtain ⟨i, hi, rfl⟩ := List.mem_map.1 hk
    exact hto i (hfl ▸ hi)

theorem Obj.map_null_congr (o p : Obj) (h : o.keys = p.keys) :
    (o.map fun e => (e.1, Val.null)) = p.map fun e => (e.1, Val.null) := by
  have key : ∀ q : Obj, (q.map fun e => (e.1, Val.null)) = q.keys.map fun k => (k, Val.null) := by
    intro q
    simp [Obj.keys, List.map_map, Function.comp_def]
  rw [key o, key p, h]

/-- The keys of `queryParams` after the pagination reset are those before it. -/
theorem Obj.keys_reset (o : Obj) (k j : String) (v w : Val) (hk : k ∈ o.keys) (hj : j ∈ o.keys) :
    (Obj.set (Obj.set o k v) j w).keys = o.keys := by
  have h1 : (Obj.set o k v).keys = o.keys :=
    Obj.keys_set_of_has o k v ((Obj.has_eq_true_iff o k).2 hk)
  rw [Obj.keys_set_of_has _ j w ((Obj.has_eq_true_iff _ j).2 (h1 ▸ hj)), h1]

/-- In a state of the registry shape, `applyFilters` run on all-null filters
completes: every `queryParams` entry is null except the two pagination
defaults, outbound sync is suppressed and the deferred step is scheduled. -/
theorem applyFilters_nulls (c2u : String → String) (opt : Opt) (st : State) (fl : Obj)
    (hwf : WellFormed c2u opt st) (hfl : fl.keys = st.filters.keys) :
    applyFilters c2u opt { st with filters := fl.map fun e => (e.1, Val.null) } =
      { state :=
          { st with
            filters := fl.map fun e => (e.1, Val.null)
            queryWatching := false
            queryParams := Obj.set (Obj.set (st.queryParams.map fun e => (e.1, Val.null))
              (newPageKey opt) (.num DEFAULT_PAGE)) (perPageKey opt) (.num DEFAULT_PER_PAGE) }
        effects := [.setTimeout 100] } := by
  have hwf2 : WellFormed c2u opt
      { st with filters := fl.map fun e => (e.1, Val.null), queryWatching := false } := by
    obtain ⟨hn, hp, hpp, hne, hto, hfrom, hr1, hr2⟩ := hwf
    refine ⟨hn, hp, hpp, hne, ?_, ?_, ?_, ?_⟩
    · intro i hi
      exact hto i (by simpa [Obj.keys_map_null, hfl] using hi)
    · intro k hk
      simpa [Obj.keys_map_null, hfl] using hfrom k hk
    · intro i hi
      exact hr1 i (by simpa [Obj.keys_map_null, hfl] using hi)
    · intro i hi
      simpa [Obj.keys_map_null, hfl] using hr2 i hi
  have hcopy := copyFilters_nulls c2u opt
    { st with filters := fl.map fun e => (e.1, Val.null), queryWatching := false }
    fl hwf2 (by simp [Obj.keys_map_null])
  obtain ⟨-, hp, hpp, -, -, -, -, -⟩ := hwf
  have hp2 : Obj.has (st.queryParams.map fun e => (e.1, Val.null)) (newPageKey opt) = true :=
    (Obj.has_eq_true_iff _ _).2 (by rw [Obj.keys_map_null]; exact hp)
  have hpp2 : Obj.has (st.queryParams.map fun e => (e.1, Val.null)) (perPageKey opt) = true :=
    (Obj.has_eq_true_iff _ _).2 (by rw [Obj.keys_map_null]; exact hpp)
  simp only [applyFilters]
  rw [hcopy, Outcome.andThen_of_ok _ _ rfl]
  rw [clearPagination_of_has opt _ hp2 hpp2, Outcome.andThen_of_ok _ _ rfl]
  rfl

/-- In a state of the registry shape `clearFilters` completes: every filter is
null, every `queryParams` entry is null except the two pagination defaults,
outbound sync is suppressed and the deferred step is scheduled. -/
theorem clearFilters_of_wellFormed (c2u : String → String) (opt : Opt) (st : State)
    (hwf : WellFormed c2u opt st) :
    clearFilters c2u opt st =
      { state :=
          { st with
            filters := st.filters.map fun e => (e.1, Val.null)
            queryWatching := false
            queryParams := Obj.set (Obj.set (st.queryParams.map fun e => (e.1, Val.null))
              (newPageKey opt) (.num DEFAULT_PAGE)) (perPageKey opt) (.num DEFAULT_PER_PAGE) }
        effects := [.setTimeout 100] } :=
  applyFilters_nulls c2u opt st st.filters hwf rfl

/-- The state `clearFilters` leaves is again of the registry shape. -/
theorem clearFilters_wellFormed (c2u : String → String) (opt : Opt) (st : State)
    (hwf : WellFormed c2u opt st) : WellFormed c2u opt (clearFilters c2u opt st).state := by
  rw [clearFilters_of_wellFormed c2u opt st hwf]
  obtain ⟨hn, hp, hpp, hne, hto, hfrom, hr1, hr2⟩ := hwf
  have hp2 : newPageKey opt ∈ Obj.keys (st.queryParams.map fun e => (e.1, Val.null)) := by
    rw [Obj.keys_map_null]; exact hp
  have hpp2 : perPageKey opt ∈ Obj.keys (st.queryParams.map fun e => (e.1, Val.null)) := by
    rw [Obj.keys_map_null]; exact hpp
  have hkeys : (Obj.set (Obj.set (st.queryParams.map fun e => (e.1, Val.null))
      (newPageKey opt) (.num DEFAULT_PAGE)) (perPageKey opt) (.num DEFAULT_PER_PAGE)).keys =
      st.queryParams.keys := by
    rw [Obj.keys_reset _ _ _ _ _ hp2 hpp2, Obj.keys_map_null]
  have hfkeys : Obj.keys (st.filters.map fun e => (e.1, Val.null)) = st.filters.keys :=
    Obj.keys_map_null _
  unfold WellFormed
  simp only [hkeys, hfkeys]
  exact ⟨hn, hp, hpp, hne, hto, hfrom, hr1, hr2⟩

/-! ### The rejected fetch in a state of the registry shape -/

/-- In a state of the registry shape, when the dispatched fetch is rejected
the `catch` handler completes and leaves every `FilterState` entry null
(page and page-size included), every `QueryState` entry other than the two
pagination entries null, `QueryState[page] = 1` and `QueryState[perPage] = 20`;
no key is added or removed, and the state is the one produced by `clearFilters`
followed by `applyFilters`. -/
theorem rejected_fetch_resets_filters (c2u : String → String) (opt : Opt) (sr : SetResult)
    (st : State) (hwf : WellFormed c2u opt st) :
    (onFetchSettled c2u opt sr none st).thrown = none ∧
    (onFetchSettled c2u opt sr none st).state.filters.keys = st.filters.keys ∧
    (∀ i ∈ st.filters.keys, (onFetchSettled c2u opt sr none st).state.filters.get i = .null) ∧
    (onFetchSettled c2u opt sr none st).state.queryParams.keys = st.queryParams.keys ∧
    (∀ k ∈ st.queryParams.keys, k ≠ newPageKey opt → k ≠ perPageKey opt →
      (onFetchSettled c2u opt sr none st).state.queryParams.get k = .null) ∧
    (onFetchSettled c2u opt sr none st).state.queryParams.get (newPageKey opt) = .num 1 ∧
    (onFetchSettled c2u opt sr none st).state.queryParams.get (perPageKey opt) = .num 20 ∧
    (onFetchSettled c2u opt sr none st).state =
      (applyFilters c2u opt (clearFilters c2u opt st).state).state := by
  have hclear := clearFilters_of_wellFormed c2u opt st hwf
  have hwf2 := clearFilters_wellFormed c2u opt st hwf
  have hset : onFetchSettled c2u opt sr none st = clearFilters c2u opt st := rfl
  obtain ⟨hn, hp, hpp, hne, hto, hfrom, hr1, hr2⟩ := hwf
  have hp2 : newPageKey opt ∈ Obj.keys (st.queryParams.map fun e => (e.1, Val.null)) := by
    rw [Obj.keys_map_null]; exact hp
  have hpp2 : perPageKey opt ∈ Obj.keys (st.queryParams.map fun e => (e.1, Val.null)) := by
    rw [Obj.keys_map_null]; exact hpp
  have hkeys : (Obj.set (Obj.set (st.queryParams.map fun e => (e.1, Val.null))
      (newPageKey opt) (.num DEFAULT_PAGE)) (perPageKey opt) (.num DEFAULT_PER_PAGE)).keys =
      st.queryParams.keys := by
    rw [Obj.keys_reset _ _ _ _ _ hp2 hpp2, Obj.keys_map_null]
  have hagain := applyFilters_nulls c2u opt (clearFilters c2u opt st).state st.filters hwf2
    (by rw [hclear]; exact (Obj.keys_map_null _).symm)
  rw [hset]
  refine ⟨?_, ?_, ?_, ?_, ?_, ?_, ?_, ?_⟩
  · rw [hclear]
  · rw [hclear]
    exact Obj.keys_map_null _
  · intro i hi
    rw [hclear]
    exact Obj.get_map_null _ i hi
  · rw [hclear]
    exact hkeys
  · intro k hk h1 h2
    rw [hclear]
    show Obj.get (Obj.set (Obj.set _ _ _) _ _) k = _
    rw [Obj.get_set_of_ne _ _ _ _ (Ne.symm h2), Obj.get_set_of_ne _ _ _ _ (Ne.symm h1)]
    exact Obj.get_map_null _ k hk
  · rw [hclear]
    show Obj.get (Obj.set (Obj.set _ _ _) _ _) _ = _
    rw [Obj.get_set_of_ne _ _ _ _ (Ne.symm hne), Obj.get_set_self]
    rfl
  · rw [hclear]
    show Obj.get (Obj.set (Obj.set _ _ _) _ _) _ = _
    rw [Obj.get_set_self]
    rfl
  · have hsame : (clearFilters c2u opt st).state =
        { (clearFilters c2u opt st).state with
          filters := st.filters.map fun e => (e.1, Val.null) } := by
      rw [hclear]
    rw [hsame, hagain, hclear]
    simp only [State.mk.injEq, true_and, and_true]
    rw [Obj.map_null_congr _ st.queryParams hkeys]

/-- Example: a view with one extra filter, on page 3 with a status filter set,
whose fetch is rejected. -/
theorem rejected_fetch_resets_filters_witness :
    (onFetchSettled camelToUnderscore { filters := some ["status"] } .assign none
        { route := { name := .str "list", query := [("page", .str "3"), ("status", .str "open")] }
          filters := [("page", .str "3"), ("per_page", .undefined), ("status", .str "open")]
          queryParams := [("page", .str "3"), ("per_page", .undefined), ("status", .str "open")]
          items := some ["a"]
          totalRows := 50
          mode := .next
          queryWatching := true }).state.queryParams =
      [("page", .num 1), ("per_page", .num 20), ("status", .null)] ∧
    (onFetchSettled camelToUnderscore { filters := some ["status"] } .assign none
        { route := { name := .str "list", query := [("page", .str "3"), ("status", .str "open")] }
          filters := [("page", .str "3"), ("per_page", .undefined), ("status", .str "open")]
          queryParams := [("page", .str "3"), ("per_page", .undefined), ("status", .str "open")]
          items := some ["a"]
          totalRows := 50
          mode := .next
          queryWatching := true }).thrown = none :=
  ⟨by rfl,
   (rejected_fetch_resets_filters camelToUnderscore { filters := some ["status"] } .assign
      { route := { name := .str "list", query := [("page", .str "3"), ("status", .str "open")] }
        filters := [("page", .str "3"), ("per_page", .undefined), ("status", .str "open")]
        queryParams := [("page", .str "3"), ("per_page", .undefined), ("status", .str "open")]
        items := some ["a"]
        totalRows := 50
        mode := .next
        queryWatching := true } (by decide)).1⟩

/-! ### Dictionaries in tabulated form -/

theorem Obj.keys_tabulate (ks : List String) (g : String → Val) :
    (Obj.tabulate ks g).keys = ks := by
  simp [Obj.tabulate, Obj.keys, List.map_map, Function.comp_def]

theorem Obj.get_tabulate (ks : List String) (g : String → Val) (k : String) :
    (Obj.tabulate ks g).get k = if k ∈ ks then g k else .undefined := by
  induction ks with
  | nil => simp [Obj.tabulate, Obj.get]
  | cons j rest ih =>
    simp only [Obj.tabulate, List.map_cons, Obj.get, List.mem_cons] at ih ⊢
    by_cases hjk : j = k
    · subst hjk
      simp
    · have hkj : ¬ k = j := fun h => hjk h.symm
      simp only [hjk, if_false, hkj, false_or]
      exact ih

theorem Obj.tabulate_congr (ks : List String) (g h : String → Val)
    (hgh : ∀ k ∈ ks, g k = h k) : Obj.tabulate ks g = Obj.tabulate ks h := by
  unfold Obj.tabulate
  apply List.map_congr_left
  intro k hk
  rw [hgh k hk]

theorem Obj.map_null_eq_tabulate (o : Obj) :
    (o.map fun e => (e.1, Val.null)) = Obj.tabulate o.keys fun _ => Val.null := by
  simp [Obj.tabulate, Obj.keys, List.map_map, Function.comp_def]

theorem Obj.set_tabulate (ks : List String) (g : String → Val) (k : String) (v : Val)
    (hn : ks.Nodup) (hk : k ∈ ks) :
    Obj.set (Obj.tabulate ks g) k v = Obj.tabulate ks fun j => if j = k then v else g j := by
  rw [Obj.set_eq_map _ k v (by rw [Obj.keys_tabulate]; exact hn)
    (by rw [Obj.keys_tabulate]; exact hk)]
  unfold Obj.tabulate
  rw [List.map_map]
  apply List.map_congr_left
  intro j _
  by_cases hjk : j = k <;> simp [hjk]

theorem Obj.filter_tabulate (ks : List String) (g : String → Val) :
    (Obj.tabulate ks g).filter (fun e => e.2.truthy) =
      Obj.tabulate (ks.filter fun k => (g k).truthy) g := by
  unfold Obj.tabulate
  rw [List.filter_map]
  rfl

theorem Obj.map_tabulate (ks : List String) (g : String → Val) (f : Val → Val) :
    (Obj.tabulate ks g).map (fun e => (e.1, f e.2)) = Obj.tabulate ks fun k => f (g k) := by
  simp [Obj.tabulate, List.map_map, Function.comp_def]

/-- Writing `v j` under each key `j` of a list of existing keys, one after the
other, leaves `v k` under the keys of the list and the old value elsewhere. -/
theorem Obj.foldl_set_tabulate (js ks : List String) (g v : String → Val) (hn : ks.Nodup)
    (hjs : ∀ j ∈ js, j ∈ ks) :
    js.foldl (fun (q : Obj) j => q.set j (v j)) (Obj.tabulate ks g) =
      Obj.tabulate ks fun k => if k ∈ js then v k else g k := by
  induction js generalizing g with
  | nil => simp
  | cons j rest ih =>
    simp only [List.foldl_cons]
    rw [Obj.set_tabulate ks g j (v j) hn (hjs j (List.mem_cons_self _ _))]
    rw [ih _ (fun i hi => hjs i (List.mem_cons_of_mem _ hi))]
    apply Obj.tabulate_congr
    intro k _
    by_cases hkr : k ∈ rest
    · simp [hkr]
    · by_cases hkj : k = j
      · simp [hkj]
      · simp [hkr, hkj]

/-- Reading back what a run of writes under canonical keys left under one of them. -/
theorem Obj.get_foldl_set (c2u : String → String) (l : List String) (v : String → Val)
    (acc : Obj) (k : String) (hc : ∀ i ∈ l, c2u i = i) (h : k ∈ l ∨ acc.get k = v k) :
    (l.foldl (fun (p : Obj) i => p.set (c2u i) (v i)) acc).get k = v k := by
  induction l generalizing acc with
  | nil =>
    rcases h with h | h
    · cases h
    · exact h
  | cons i rest ih =>
    simp only [List.foldl_cons]
    apply ih _ (fun j hj => hc j (List.mem_cons_of_mem _ hj))
    rw [hc i (List.mem_cons_self _ _)]
    by_cases hik : i = k
    · subst hik
      exact Or.inr (Obj.get_set_self _ _ _)
    · rcases h with h | h
      · simp only [List.mem_cons] at h
        rcases h with h | h
        · exact absurd h.symm hik
        · exact Or.inl h
      · exact Or.inr (by rw [Obj.get_set_of_ne _ _ _ _ hik]; exact h)

/-! ### The recovery after a rejected fetch -/

theorem recoveredValue_truthy (opt : Opt) (k : String) :
    (recoveredValue opt k).truthy = isPaginationKey opt k := by
  unfold recoveredValue isPaginationKey
  by_cases h1 : k = perPageKey opt
  · simp [h1, Val.truthy, DEFAULT_PER_PAGE]
  · by_cases h2 : k = newPageKey opt
    · subst h2
      simp [h1, Val.truthy, DEFAULT_PAGE]
    · simp [h1, h2, Val.truthy]

/-- In a state of the registry shape the `catch` handler leaves `QueryState`
with the pagination defaults and `null` elsewhere. -/
theorem onFetchRejected_of_wellFormed (c2u : String → String) (opt : Opt) (st : State)
    (hwf : WellFormed c2u opt st) :
    onFetchRejected c2u opt st =
      { state :=
          { st with
            filters := st.filters.map fun e => (e.1, Val.null)
            queryWatching := false
            queryParams := Obj.tabulate st.queryParams.keys (recoveredValue opt) }
        effects := [.setTimeout 100] } := by
  unfold onFetchRejected
  rw [clearFilters_of_wellFormed c2u opt st hwf]
  obtain ⟨hn, hp, hpp, hne, -, -, -, -⟩ := hwf
  rw [Obj.map_null_eq_tabulate st.queryParams, Obj.set_tabulate _ _ _ _ hn hp,
    Obj.set_tabulate _ _ _ _ hn hpp]
  rfl

theorem setFilter_of_has (i : String) (v : Val) (st : State) (h : st.filters.has i = true) :
    setFilter i v st = { state := { st with filters := st.filters.set i v } } := by
  simp [setFilter, h]

/-- The inbound copy completes when every registry key has its entries, and
writes the raw route value under every canonical key of the registry. -/
theorem inboundCopy_of_has (c2u : String → String) (rq : Obj) (l : List String) (st : State)
    (h : ∀ i ∈ l, c2u i ∈ st.queryParams.keys ∧ i ∈ st.filters.keys) :
    ∃ fl : Obj, fl.keys = st.filters.keys ∧
      inboundCopy c2u rq l st =
        { state :=
            { st with
              queryParams := (l.map c2u).foldl (fun (q : Obj) k => q.set k (rq.get k))
                st.queryParams
              filters := fl } } := by
  induction l generalizing st with
  | nil => exact ⟨st.filters, rfl, rfl⟩
  | cons i rest ih =>
    obtain ⟨hq, hf⟩ := h i (List.mem_cons_self _ _)
    have hqh : st.queryParams.has (c2u i) = true := (Obj.has_eq_true_iff _ _).2 hq
    have hfh : st.filters.has i = true := (Obj.has_eq_true_iff _ _).2 hf
    have hrest : ∀ j ∈ rest,
        c2u j ∈ Obj.keys ({ st with
            queryParams := st.queryParams.set (c2u i) (rq.get (c2u i))
            filters := st.filters.set i (rq.get (c2u i)) } : State).queryParams ∧
        j ∈ Obj.keys ({ st with
            queryParams := st.queryParams.set (c2u i) (rq.get (c2u i))
            filters := st.filters.set i (rq.get (c2u i)) } : State).filters := by
      intro j hj
      obtain ⟨h1, h2⟩ := h j (List.mem_cons_of_mem _ hj)
      constructor
      · show c2u j ∈ (st.queryParams.set (c2u i) (rq.get (c2u i))).keys
        rw [Obj.keys_set_of_has _ _ _ hqh]
        exact h1
      · show j ∈ (st.filters.set i (rq.get (c2u i))).keys
        rw [Obj.keys_set_of_has _ _ _ hfh]
        exact h2
    obtain ⟨fl, hfl, heq⟩ := ih _ hrest
    refine ⟨fl, ?_, ?_⟩
    · rw [hfl]
      exact Obj.keys_set_of_has _ _ _ hfh
    · simp only [inboundCopy]
      rw [setQueryParam_of_has _ _ _ hqh, Outcome.andThen_of_ok _ _ rfl]
      have hfh2 : Obj.has ({ st with
          queryParams := st.queryParams.set (c2u i) (rq.get (c2u i)) } : State).filters i = true :=
        hfh
      simp only [setFilter_of_has _ _ _ hfh2]
      rw [Outcome.andThen_of_ok _ _ rfl]
      simp only [heq, List.map_cons, List.foldl_cons, List.nil_append]

/-- The payload loop completes when every key has its computed, and writes the
coerced route value of each key under its canonical name. -/
theorem fetchPayload_of_mem (c2u : String → String) (opt : Opt) (route : Route)
    (l : List String) (acc : Obj) (h : ∀ i ∈ l, i ∈ routeParamKeys c2u opt) :
    fetchPayload c2u opt route l acc =
      .ok (l.foldl (fun (p : Obj) i => p.set (c2u i) (routeParamValue opt route i)) acc) := by
  induction l generalizing acc with
  | nil => rfl
  | cons i rest ih =>
    have hi : i ∈ routeParamKeys c2u opt := h i (List.mem_cons_self _ _)
    simp only [fetchPayload, routeParamsRef, hi, if_true, List.foldl_cons]
    exact ih _ (fun j hj => h j (List.mem_cons_of_mem _ hj))

/-- A dictionary whose values are all strings is not changed against itself. -/
theorem queryIsChanged_self (q : Obj) (h : ∀ k ∈ q.keys, ∃ s, q.get k = .str s) :
    queryIsChanged q q = false := by
  rw [queryIsChanged_eq]
  simp only [ne_eq, not_true_eq_false, decide_False, Bool.false_or, List.any_eq_false,
    Bool.not_eq_true]
  intro k hk
  obtain ⟨s, hs⟩ := h k hk
  simp [hs, looseNe, looseEq]

theorem Obj.eq_tabulate (o : Obj) (hn : o.keys.Nodup) : o = Obj.tabulate o.keys o.get := by
  induction o with
  | nil => rfl
  | cons e rest ih =>
    obtain ⟨i, w⟩ := e
    simp only [Obj.keys, List.map_cons, List.nodup_cons] at hn ih
    have hrest : Obj.tabulate (List.map Prod.fst rest) (Obj.get ((i, w) :: rest)) =
        Obj.tabulate (List.map Prod.fst rest) (Obj.get rest) := by
      apply Obj.tabulate_congr
      intro k hk
      have hne : i ≠ k := fun h => hn.1 (h ▸ hk)
      simp [Obj.get, hne]
    have hih := ih hn.2
    simp only [Obj.keys, List.map_cons, Obj.tabulate] at hrest hih ⊢
    rw [hrest, ← hih]
    simp [Obj.get]

/-- The raw route values an inbound sync leaves in `QueryState`, in a state of
the registry shape: every entry holds the route value under its key. -/
theorem inbound_queryParams (c2u : String → String) (opt : Opt) (s : State) (rq : Obj)
    (hwf : WellFormed c2u opt s) :
    ((filterKeys opt).map c2u).foldl (fun (q : Obj) k => q.set k (rq.get k)) s.queryParams =
      Obj.tabulate s.queryParams.keys rq.get := by
  obtain ⟨hn, -, -, -, hto, hfrom, hr1, hr2⟩ := hwf
  conv_lhs => rw [Obj.eq_tabulate s.queryParams hn]
  rw [Obj.foldl_set_tabulate _ _ _ rq.get hn]
  · apply Obj.tabulate_congr
    intro k hk
    obtain ⟨i, hi, hik⟩ := List.mem_map.1 (hfrom k hk)
    have : k ∈ (filterKeys opt).map c2u := hik ▸ List.mem_map_of_mem c2u (hr1 i hi)
    simp [this]
  · intro j hj
    obtain ⟨i, hi, rfl⟩ := List.mem_map.1 hj
    exact hto i (hr2 i hi)

/-- The route the recovery navigates to holds the two pagination defaults as
strings and nothing else. -/
theorem recovered_route_get (opt : Opt) (st : State) (k : String) (hk : k ∈ st.queryParams.keys) :
    Obj.get ((recoveredQuery opt st).map fun e => (e.1, castQueryValue e.2)) k =
      if k = perPageKey opt then .str "20" else if k = newPageKey opt then .str "1"
      else .undefined := by
  unfold recoveredQuery
  rw [Obj.map_tabulate, Obj.get_tabulate]
  simp only [List.mem_filter, hk, true_and, isPaginationKey, decide_eq_true_eq, recoveredValue]
  by_cases h1 : k = perPageKey opt
  · simp only [h1, or_true, if_true]
    rfl
  · by_cases h2 : k = newPageKey opt
    · simp only [h1, h2, true_or, if_true, if_false]
      split
      · rfl
      · rfl
    · simp [h1, h2]

/-- The query built from `QueryState` after the inbound sync to the recovered
route is that route's query again. -/
theorem buildQuery_after_inbound (c2u : String → String) (opt : Opt) (st : State)
    (hn : st.queryParams.keys.Nodup) (hc : ∀ k ∈ st.queryParams.keys, c2u k = k) :
    buildQuery c2u (Obj.tabulate st.queryParams.keys
        (Obj.get ((recoveredQuery opt st).map fun e => (e.1, castQueryValue e.2)))) =
      (recoveredQuery opt st).map fun e => (e.1, castQueryValue e.2) := by
  rw [buildQuery_eq_filter c2u _ (by rw [Obj.keys_tabulate]; exact hc)
    (by rw [Obj.keys_tabulate]; exact hn), Obj.filter_tabulate]
  have hfilter : st.queryParams.keys.filter (fun k =>
      (Obj.get ((recoveredQuery opt st).map fun e => (e.1, castQueryValue e.2)) k).truthy) =
      st.queryParams.keys.filter (isPaginationKey opt) := by
    apply List.filter_congr
    intro k hk
    rw [recovered_route_get opt st k hk]
    unfold isPaginationKey
    by_cases h1 : k = perPageKey opt
    · simp only [h1, if_true, or_true, decide_True]
      rfl
    · by_cases h2 : k = newPageKey opt
      · simp only [h1, h2, if_true, if_false, true_or, decide_True]
        split
        · rfl
        · rfl
      · simp [h1, h2, Val.truthy]
  rw [hfilter]
  conv_rhs => rw [recoveredQuery, Obj.map_tabulate]
  apply Obj.tabulate_congr
  intro k hk
  have hk2 : k ∈ st.queryParams.keys := (List.mem_filter.1 hk).1
  have hget := Obj.get_tabulate (st.queryParams.keys.filter (isPaginationKey opt))
    (fun k => castQueryValue (recoveredValue opt k)) k
  simp only [hk, if_true] at hget
  rw [← hget, recoveredQuery, Obj.map_tabulate]

/-- Every value of the recovered route query is a string. -/
theorem recovered_route_strings (opt : Opt) (st : State) :
    ∀ k ∈ Obj.keys ((recoveredQuery opt st).map fun e => (e.1, castQueryValue e.2)),
      ∃ s, Obj.get ((recoveredQuery opt st).map fun e => (e.1, castQueryValue e.2)) k = .str s := by
  intro k hk
  have hk1 : k ∈ st.queryParams.keys.filter (isPaginationKey opt) := by
    simpa [recoveredQuery, Obj.map_tabulate, Obj.keys_tabulate] using hk
  obtain ⟨hk2, hk3⟩ := List.mem_filter.1 hk1
  rw [recovered_route_get opt st k hk2]
  simp only [isPaginationKey, decide_eq_true_eq] at hk3
  by_cases h1 : k = perPageKey opt
  · exact ⟨"20", by simp [h1]⟩
  · have h2 : k = newPageKey opt := by
      rcases hk3 with h | h
      · exact h
      · exact absurd h h1
    subst h2
    exact ⟨"1", by simp only [h1, if_false, if_true]⟩

/-- The watchers run by the navigation to the recovered route, in a state of the
registry shape: the inbound sync completes, exactly one fetch is dispatched, its
payload carries page 1 and page size 20, and the outbound sync that the inbound
sync triggers finds nothing to change. -/
theorem onRouteChanged_recovered (c2u : String → String) (opt : Opt) (store : Store)
    (s : State) (name : Val) (hwf : WellFormed c2u opt s)
    (hc : ∀ k ∈ s.queryParams.keys, c2u k = k) (hact : opt.action ∈ store.actions) :
    ∃ (p : Obj) (s3 : State),
      onRouteChanged c2u opt store
          { name := name, query := (recoveredQuery opt s).map fun e => (e.1, castQueryValue e.2) }
          s =
        { state := s3
          effects := [.dispatch opt.action p (if s.mode = .more then .push else .assign)]
          thrown := none } ∧
      p.get (newPageKey opt) = .num 1 ∧ p.get (perPageKey opt) = .num 20 := by
  obtain ⟨hn, hp, hpp, hne, hto, hfrom, hr1, hr2⟩ := id hwf
  let rq : Obj := (recoveredQuery opt s).map fun e => (e.1, castQueryValue e.2)
  let R : Route := { name := name, query := rq }
  obtain ⟨fl, -, hcopy⟩ := inboundCopy_of_has c2u rq (filterKeys opt)
    { s with route := R, queryWatching := false }
    (fun i hi => ⟨hto i (hr2 i hi), hr2 i hi⟩)
  have hq := inbound_queryParams c2u opt s rq hwf
  let s3 : State :=
    { s with
      route := R
      queryWatching := true
      queryParams := Obj.tabulate s.queryParams.keys rq.get
      filters := fl }
  let p : Obj :=
    s.queryParams.keys.foldl (fun (p : Obj) i => p.set (c2u i) (routeParamValue opt R i)) []
  have h1 : onRouteWatch c2u opt { s with route := R } = { state := s3 } := by
    simp only [onRouteWatch]
    rw [hcopy, Outcome.andThen_of_ok _ _ rfl]
    simp only [hq]
    rfl
  have hkeys3 : s3.queryParams.keys = s.queryParams.keys := Obj.keys_tabulate _ _
  have hmem : ∀ i ∈ s.queryParams.keys, i ∈ routeParamKeys c2u opt := by
    intro i hi
    obtain ⟨j, hj, hji⟩ := List.mem_map.1 (hfrom i hi)
    exact hji ▸ mem_routeParamKeys c2u opt j (hr1 j hj)
  have h2 : onRouteParamsWatch c2u opt store s3 =
      { state := s3
        effects := [.dispatch opt.action p (if s.mode = .more then .push else .assign)] } := by
    simp only [onRouteParamsWatch]
    rw [fetchItems_setResult]
    simp only [fetch, hact, if_true, hkeys3]
    rw [fetchPayload_of_mem c2u opt R _ [] hmem]
  have h3 : onQueryParamsWatch c2u s3 = { state := s3 } := by
    have hb : buildQuery c2u s3.queryParams = rq := buildQuery_after_inbound c2u opt s hn hc
    have hself : queryIsChanged rq rq = false :=
      queryIsChanged_self rq (recovered_route_strings opt s)
    simp only [onQueryParamsWatch, updateRouteQuery, hb]
    simp [hself]
  have hpage : routeParamValue opt R (newPageKey opt) = .num 1 := by
    have hget : R.query.get (newPageKey opt) = .str "1" := by
      show Obj.get rq (newPageKey opt) = _
      rw [recovered_route_get opt s _ hp]
      simp [hne]
    simp only [routeParamValue, mutations, hne, if_false, if_true, hget]
    rfl
  have hperPage : routeParamValue opt R (perPageKey opt) = .num 20 := by
    have hget : R.query.get (perPageKey opt) = .str "20" := by
      show Obj.get rq (perPageKey opt) = _
      rw [recovered_route_get opt s _ hpp]
      simp
    simp only [routeParamValue, mutations, if_true, hget]
    rfl
  refine ⟨p, s3, ?_, ?_, ?_⟩
  · simp only [onRouteChanged]
    rw [h1, h2]
    generalize Effect.dispatch opt.action p (if s.mode = .more then .push else .assign) = e
    split_ifs with hsame
    · rfl
    · rw [h3]
      rfl
  · rw [Obj.get_foldl_set c2u _ (fun i => routeParamValue opt R i) [] _ hc (Or.inl hp)]
    exact hpage
  · rw [Obj.get_foldl_set c2u _ (fun i => routeParamValue opt R i) [] _ hc (Or.inl hpp)]
    exact hperPage

/-- The deferred step of the recovery, in a state of the registry shape: outbound
sync is resumed and one pass of `updateRouteQuery` runs; it requests the
navigation to the recovered query exactly when that query differs from the query
of the route. -/
theorem applyFiltersDeferred_after_rejection (c2u : String → String) (opt : Opt) (st : State)
    (hwf : WellFormed c2u opt st) (hc : ∀ k ∈ st.queryParams.keys, c2u k = k)
    (hrn : st.route.query.keys.Nodup) :
    applyFiltersDeferred c2u (onFetchRejected c2u opt st).state =
      { state := { (onFetchRejected c2u opt st).state with queryWatching := true }
        effects :=
          if mappingDiffers (recoveredQuery opt st) st.route.query then
            [.replace { name := .undefined, query := recoveredQuery opt st }]
          else [] } := by
  have hn : st.queryParams.keys.Nodup := hwf.1
  rw [onFetchRejected_of_wellFormed c2u opt st hwf]
  have hb : buildQuery c2u (Obj.tabulate st.queryParams.keys (recoveredValue opt)) =
      recoveredQuery opt st := by
    rw [buildQuery_eq_filter c2u _ (by rw [Obj.keys_tabulate]; exact hc)
      (by rw [Obj.keys_tabulate]; exact hn), Obj.filter_tabulate]
    have hfun : (fun k => (recoveredValue opt k).truthy) = isPaginationKey opt :=
      funext (recoveredValue_truthy opt)
    rw [hfun]
    rfl
  have hflag : queryIsChanged (recoveredQuery opt st) st.route.query =
      mappingDiffers (recoveredQuery opt st) st.route.query := by
    apply queryIsChanged_eq_mappingDiffers _ _ _ hrn
    · intro e he
      obtain ⟨k, hk, rfl⟩ := List.mem_map.1 he
      rw [recoveredValue_truthy]
      exact (List.mem_filter.1 hk).2
    · rw [recoveredQuery, Obj.keys_tabulate]
      exact List.Nodup.sublist (List.filter_sublist _) hn
  simp only [applyFiltersDeferred, updateRouteQuery, hb, hflag]
  split <;> rfl

/-! ### C10 -/

/-- C10 (fails as stated): a view of the default registry whose route already
shows page 1 with 20 per page and no filter has its fetch rejected; the recovery
requests no navigation, so no watcher runs and no fetch call follows: the
number of subsequent fetch calls is 0, not 1. -/
theorem rejected_fetch_on_default_route_no_refetch :
    (recoveryTrace camelToUnderscore {} { actions := ["fetchList"] }
        (construct camelToUnderscore {}
          { name := .str "list"
            query := [("page", .str "1"), ("per_page", .str "20")] })).effects =
      [.setTimeout 100] ∧
    (dispatchedPayloads
        (recoveryTrace camelToUnderscore {} { actions := ["fetchList"] }
          (construct camelToUnderscore {}
            { name := .str "list"
              query := [("page", .str "1"), ("per_page", .str "20")] })).effects).length = 0 ∧
    (dispatchedPayloads
        (recoveryTrace camelToUnderscore {} { actions := ["fetchList"] }
          (construct camelToUnderscore {}
            { name := .str "list"
              query := [("page", .str "1"), ("per_page", .str "20")] })).effects).length ≠ 1 := by
  refine ⟨by rfl, by rfl, ?_⟩
  intro h
  cases h

/-- C10 (amended): in a state of the registry shape, with canonical
`QueryState` keys and a registered action, what follows a rejected fetch is
this.  The recovery completes; its single outbound-sync pass requests one
replace-navigation, to the query holding page 1 and page size 20, exactly when
that query differs from the route's current query as a mapping.  If it does
not differ, no fetch call follows.  If it differs, exactly one fetch call
follows, dispatched by the route change, and its payload has page = 1 and
per-page = 20. -/
theorem rejected_fetch_refetches_iff_route_differs (c2u : String → String) (opt : Opt)
    (store : Store) (st : State) (hwf : WellFormed c2u opt st)
    (hc : ∀ k ∈ st.queryParams.keys, c2u k = k) (hact : opt.action ∈ store.actions)
    (hrn : st.route.query.keys.Nodup) :
    (recoveryTrace c2u opt store st).thrown = none ∧
    replaceRequests (recoveryTrace c2u opt store st).effects =
      (if mappingDiffers (recoveredQuery opt st) st.route.query then
        [{ name := .undefined, query := recoveredQuery opt st }]
      else []) ∧
    (mappingDiffers (recoveredQuery opt st) st.route.query = false →
      dispatchedPayloads (recoveryTrace c2u opt store st).effects = []) ∧
    (mappingDiffers (recoveredQuery opt st) st.route.query = true →
      ∃ p, dispatchedPayloads (recoveryTrace c2u opt store st).effects = [p] ∧
        p.get (newPageKey opt) = .num 1 ∧ p.get (perPageKey opt) = .num 20) := by
  have hrej := onFetchRejected_of_wellFormed c2u opt st hwf
  have hdef := applyFiltersDeferred_after_rejection c2u opt st hwf hc hrn
  have hthrown : (onFetchRejected c2u opt st).thrown = none := by rw [hrej]
  have heff1 : (onFetchRejected c2u opt st).effects = [.setTimeout 100] := by rw [hrej]
  cases hm : mappingDiffers (recoveredQuery opt st) st.route.query with
  | false =>
    have htrace : recoveryTrace c2u opt store st =
        { state := { (onFetchRejected c2u opt st).state with queryWatching := true }
          effects := [.setTimeout 100] } := by
      simp only [recoveryTrace, hthrown, hdef, hm, heff1]
      rfl
    rw [htrace]
    refine ⟨rfl, rfl, fun _ => rfl, fun h => ?_⟩
    cases h
  | true =>
    have hwf2 : WellFormed c2u opt
        { (onFetchRejected c2u opt st).state with queryWatching := true } :=
      clearFilters_wellFormed c2u opt st hwf
    have hkeys : ({ (onFetchRejected c2u opt st).state with queryWatching := true } :
        State).queryParams.keys = st.queryParams.keys := by
      rw [hrej]
      exact Obj.keys_tabulate _ _
    have hrq : recoveredQuery opt
        { (onFetchRejected c2u opt st).state with queryWatching := true } =
        recoveredQuery opt st := by
      unfold recoveredQuery
      rw [hkeys]
    obtain ⟨p, s3, hchanged, hpage, hperPage⟩ := onRouteChanged_recovered c2u opt store
      { (onFetchRejected c2u opt st).state with queryWatching := true } st.route.name hwf2
      (by rw [hkeys]; exact hc) hact
    rw [hrq] at hchanged
    have hroute : ({ (onFetchRejected c2u opt st).state with queryWatching := true } :
        State).route = st.route := by
      rw [hrej]
    have htrace : recoveryTrace c2u opt store st =
        { state := s3
          effects := [.setTimeout 100,
            .replace { name := .undefined, query := recoveredQuery opt st },
            .dispatch opt.action p
              (if ({ (onFetchRejected c2u opt st).state with queryWatching := true } :
                State).mode = .more then .push else .assign)] } := by
      simp only [recoveryTrace, hthrown, hdef, hm, heff1, if_true, routerReplace, hroute]
      rw [hchanged]
      rfl
    rw [htrace]
    refine ⟨rfl, rfl, fun h => ?_, fun _ => ⟨p, rfl, hpage, hperPage⟩⟩
    cases h

/-- Witness for C10: a view with a status filter on page 3 whose fetch is
rejected; one navigation to page 1 with 20 per page, one fetch call. -/
theorem rejected_fetch_refetches_iff_route_differs_witness :
    replaceRequests
        (recoveryTrace camelToUnderscore { filters := some ["status"] }
          { actions := ["fetchList"] }
          { route := { name := .str "list", query := [("page", .str "3"), ("status", .str "open")] }
            filters := [("page", .str "3"), ("per_page", .undefined), ("status", .str "open")]
            queryParams := [("page", .str "3"), ("per_page", .undefined), ("status", .str "open")]
            items := some ["a"]
            totalRows := 50
            mode := .next
            queryWatching := true }).effects =
      [{ name := .undefined, query := [("page", .num 1), ("per_page", .num 20)] }] ∧
    dispatchedPayloads
        (recoveryTrace camelToUnderscore { filters := some ["status"] }
          { actions := ["fetchList"] }
          { route := { name := .str "list", query := [("page", .str "3"), ("status", .str "open")] }
            filters := [("page", .str "3"), ("per_page", .undefined), ("status", .str "open")]
            queryParams := [("page", .str "3"), ("per_page", .undefined), ("status", .str "open")]
            items := some ["a"]
            totalRows := 50
            mode := .next
            queryWatching := true }).effects =
      [[("page", .num 1), ("per_page", .num 20), ("status", .undefined)]] :=
  ⟨(rejected_fetch_refetches_iff_route_differs camelToUnderscore { filters := some ["status"] }
      { actions := ["fetchList"] }
      { route := { name := .str "list", query := [("page", .str "3"), ("status", .str "open")] }
        filters := [("page", .str "3"), ("per_page", .undefined), ("status", .str "open")]
        queryParams := [("page", .str "3"), ("per_page", .undefined), ("status", .str "open")]
        items := some ["a"]
        totalRows := 50
        mode := .next
        queryWatching := true } (by decide) (by decide) (by decide) (by decide)).2.1,
   by rfl⟩

/-! ### The constructed state -/

theorem Obj.nodup_keys_set (o : Obj) (k : String) (v : Val) (hn : o.keys.Nodup) :
    (o.set k v).keys.Nodup := by
  by_cases hk : k ∈ o.keys
  · rw [Obj.keys_set_of_has o k v ((Obj.has_eq_true_iff o k).2 hk)]
    exact hn
  · rw [Obj.set_of_not_mem o k v hk]
    simp only [Obj.keys, List.map_append, List.map_cons, List.map_nil] at hk ⊢
    exact List.Nodup.append hn (List.nodup_singleton k) (by simpa using hk)

/-- The loop of `initParams` keeps the keys of `queryParams` distinct and adds
exactly the canonical names of the registry keys to `queryParams` and the
registry keys to `filters`. -/
theorem initParams_fold_keys (c2u : String → String) (v : String → Val) (l : List String)
    (acc : Obj × Obj) (hn : acc.1.keys.Nodup) :
    (l.foldl (fun (a : Obj × Obj) i => (a.1.set (c2u i) (v (c2u i)), a.2.set i (v (c2u i))))
        acc).1.keys.Nodup ∧
    (∀ k, k ∈ (l.foldl (fun (a : Obj × Obj) i =>
        (a.1.set (c2u i) (v (c2u i)), a.2.set i (v (c2u i)))) acc).1.keys ↔
      k ∈ acc.1.keys ∨ k ∈ l.map c2u) ∧
    (∀ i, i ∈ (l.foldl (fun (a : Obj × Obj) i =>
        (a.1.set (c2u i) (v (c2u i)), a.2.set i (v (c2u i)))) acc).2.keys ↔
      i ∈ acc.2.keys ∨ i ∈ l) := by
  induction l generalizing acc with
  | nil => simp [hn]
  | cons j rest ih =>
    simp only [List.foldl_cons]
    obtain ⟨h1, h2, h3⟩ := ih (acc.1.set (c2u j) (v (c2u j)), acc.2.set j (v (c2u j)))
      (Obj.nodup_keys_set _ _ _ hn)
    refine ⟨h1, ?_, ?_⟩
    · intro k
      rw [h2 k, Obj.mem_keys_set]
      simp only [List.map_cons, List.mem_cons]
      tauto
    · intro i
      rw [h3 i, Obj.mem_keys_set]
      simp only [List.mem_cons]
      tauto

/-- The state the constructor builds is of the registry shape whenever the two
pagination keys are distinct canonical names, as the defaults `page` and
`per_page` are. -/
theorem construct_wellFormed (c2u : String → String) (opt : Opt) (route : Route)
    (hp : c2u (newPageKey opt) = newPageKey opt) (hpp : c2u (perPageKey opt) = perPageKey opt)
    (hne : newPageKey opt ≠ perPageKey opt) : WellFormed c2u opt (construct c2u opt route) := by
  obtain ⟨h1, h2, h3⟩ := initParams_fold_keys c2u (routeParamValue opt route) (filterKeys opt)
    ([], []) (by simp [Obj.keys])
  have hq : ∀ k, k ∈ (construct c2u opt route).queryParams.keys ↔ k ∈ (filterKeys opt).map c2u := by
    intro k
    have := h2 k
    simpa [Obj.keys] using this
  have hf : ∀ i, i ∈ (construct c2u opt route).filters.keys ↔ i ∈ filterKeys opt := by
    intro i
    have := h3 i
    simpa [Obj.keys] using this
  refine ⟨h1, ?_, ?_, hne, ?_, ?_, ?_, ?_⟩
  · rw [hq]
    exact hp ▸ List.mem_map_of_mem c2u (by simp [filterKeys])
  · rw [hq]
    exact hpp ▸ List.mem_map_of_mem c2u (by simp [filterKeys])
  · intro i hi
    rw [hq]
    exact List.mem_map_of_mem c2u ((hf i).1 hi)
  · intro k hk
    obtain ⟨i, hi, rfl⟩ := List.mem_map.1 ((hq k).1 hk)
    exact List.mem_map_of_mem c2u ((hf i).2 hi)
  · intro i hi
    exact (hf i).1 hi
  · intro i hi
    exact (hf i).2 hi

/-! ### The modelled canonical-name mapping -/

theorem Char.toLower_not_isUpper (c : Char) (h : c.isUpper = true) :
    c.toLower.isUpper = false := by
  simp only [Char.isUpper, Bool.and_eq_true, decide_eq_true_eq] at h
  obtain ⟨h1, h2⟩ := h
  have h1n : 65 ≤ c.toNat := h1
  have h2n : c.toNat ≤ 90 := h2
  have hc : c = Char.ofNat c.toNat := (Char.ofNat_toNat c).symm
  generalize c.toNat = n at h1n h2n hc
  subst hc
  interval_cases n <;> decide

theorem flatMap_underscore_of_no_upper (cs : List Char) (h : ∀ c ∈ cs, c.isUpper = false) :
    (cs.flatMap fun c => if c.isUpper then ['_', c.toLower] else [c]) = cs := by
  induction cs with
  | nil => rfl
  | cons c rest ih =>
    have hc : c.isUpper = false := h c (List.mem_cons_self _ _)
    simp only [List.flatMap_cons, hc, Bool.false_eq_true, if_false, List.singleton_append]
    rw [ih (fun d hd => h d (List.mem_cons_of_mem _ hd))]

/-- The modelled `camelToUnderscore` leaves its own results alone: a canonical
name is a fixed point. -/
theorem camelToUnderscore_idem (s : String) :
    camelToUnderscore (camelToUnderscore s) = camelToUnderscore s := by
  unfold camelToUnderscore
  congr 1
  apply flatMap_underscore_of_no_upper
  intro d hd
  obtain ⟨c, -, hdc⟩ := List.mem_flatMap.1 hd
  by_cases hc : c.isUpper = true
  · simp only [hc, if_true, List.mem_cons, List.mem_singleton, List.not_mem_nil, or_false] at hdc
    rcases hdc with rfl | rfl
    · decide
    · exact Char.toLower_not_isUpper c hc
  · simp only [hc, Bool.false_eq_true, if_false, List.mem_singleton] at hdc
    subst hdc
    simpa using hc

/-- Under an idempotent canonical-name mapping every `QueryState` key of the
constructed state is a fixed point of the mapping. -/
theorem construct_keys_canonical (c2u : String → String) (opt : Opt) (route : Route)
    (hidem : ∀ s, c2u (c2u s) = c2u s) :
    ∀ k ∈ (construct c2u opt route).queryParams.keys, c2u k = k := by
  obtain ⟨-, h2, -⟩ := initParams_fold_keys c2u (routeParamValue opt route) (filterKeys opt)
    ([], []) (by simp [Obj.keys])
  intro k hk
  have hmem : k ∈ (filterKeys opt).map c2u := by
    have := (h2 k).1 hk
    simpa [Obj.keys] using this
  obtain ⟨i, -, rfl⟩ := List.mem_map.1 hmem
  exact hidem i

/-! ### Load more -/

/-- What `incCurrentPageByMoreMode` does when the page entry exists: the mode
becomes APPEND and the page entry becomes the numeric value of the old one plus
one (`NaN` when the old value has none); nothing else changes. -/
theorem incCurrentPageByMoreMode_of_has (opt : Opt) (st : State)
    (h : st.queryParams.has (newPageKey opt) = true) :
    incCurrentPageByMoreMode opt st =
      { state :=
          { st with
            mode := .more
            queryParams := st.queryParams.set (newPageKey opt)
              (Val.ofNum (st.queryParams.get (newPageKey opt)).toNumber.succ) }
        effects := [.blur] } := by
  simp only [incCurrentPageByMoreMode, h, if_true]
  rfl

/-- Examples of the increment: a numeric string is read as its number first, so
`"1e2"` becomes 101 and `"1.5"` becomes 2.5. -/
theorem incCurrentPageByMoreMode_numeric_strings :
    (incCurrentPageByMoreMode {}
        { construct camelToUnderscore {} { name := .str "list", query := [] } with
          queryParams := [("page", .str "1e2"), ("per_page", .num 20)] }).state.queryParams =
      [("page", .num 101), ("per_page", .num 20)] ∧
    (incCurrentPageByMoreMode {}
        { construct camelToUnderscore {} { name := .str "list", query := [] } with
          queryParams := [("page", .str "1.5"), ("per_page", .num 20)] }).state.queryParams =
      [("page", .frac 5 1), ("per_page", .num 20)] := by
  exact ⟨by rfl, by rfl⟩

/-! ### The registry shape is an invariant -/

theorem setQueryParam_keysOf (k : String) (v : Val) (s : State) :
    keysOf (setQueryParam k v s).state = keysOf s := by
  unfold setQueryParam
  split
  · next h =>
    simp only [keysOf, Obj.keys_set_of_has _ _ _ h]
  · rfl

theorem setFilter_keysOf (i : String) (v : Val) (s : State) :
    keysOf (setFilter i v s).state = keysOf s := by
  unfold setFilter
  split
  · next h =>
    simp only [keysOf, Obj.keys_set_of_has _ _ _ h]
  · rfl

theorem inboundCopy_keysOf (c2u : String → String) (rq : Obj) (l : List String) (s : State) :
    keysOf (inboundCopy c2u rq l s).state = keysOf s := by
  induction l generalizing s with
  | nil => rfl
  | cons i rest ih =>
    unfold inboundCopy
    rw [Outcome.andThen_proj keysOf _ _ (fun s1 => by
      rw [Outcome.andThen_proj keysOf _ _ ih]
      exact setFilter_keysOf _ _ s1)]
    exact setQueryParam_keysOf _ _ s

theorem onRouteWatch_keysOf (c2u : String → String) (opt : Opt) (s : State) :
    keysOf (onRouteWatch c2u opt s).state = keysOf s := by
  unfold onRouteWatch
  rw [Outcome.andThen_proj keysOf _ _ (fun _ => rfl), inboundCopy_keysOf]
  rfl

theorem incCurrentPageByMoreMode_keysOf (opt : Opt) (s : State) :
    keysOf (incCurrentPageByMoreMode opt s).state = keysOf s := by
  simp only [incCurrentPageByMoreMode]
  split
  · next h =>
    have h2 : s.queryParams.has (newPageKey opt) = true := h
    simp only [keysOf, Obj.keys_set_of_has _ _ _ h2]
  · rfl

theorem onFetchResolved_keysOf (opt : Opt) (sr : SetResult) (data : List Record) (total : Int)
    (s : State) : keysOf (onFetchResolved opt sr data total s).state = keysOf s := by
  unfold onFetchResolved
  rw [Outcome.andThen_proj keysOf _ _ (fun s1 => by
    rw [Outcome.andThen_proj keysOf _ _ (fun _ => rfl)]
    exact stalePageRecovery_proj keysOf setQueryParam_keysOf opt total s1)]
  cases sr
  · rfl
  · simp only [applySetResult]
    cases s.items <;> rfl

theorem clearFilters_keysOf (c2u : String → String) (opt : Opt) (s : State) :
    keysOf (clearFilters c2u opt s).state = keysOf s :=
  clearFilters_proj keysOf setQueryParam_keysOf (fun _ _ => rfl)
    (fun s => by simp only [keysOf, Obj.keys_map_null]) c2u opt s

theorem onFetchSettled_keysOf (c2u : String → String) (opt : Opt) (sr : SetResult)
    (response : Option (List Record × Int)) (s : State) :
    keysOf (onFetchSettled c2u opt sr response s).state = keysOf s := by
  match response with
  | none => exact clearFilters_keysOf c2u opt s
  | some (data, total) =>
    rw [onFetchSettled_proj keysOf setQueryParam_keysOf (fun _ _ => rfl)
      (fun s => by simp only [keysOf, Obj.keys_map_null])]
    exact onFetchResolved_keysOf opt sr data total s

theorem applyFiltersDeferred_keysOf (c2u : String → String) (s : State) :
    keysOf (applyFiltersDeferred c2u s).state = keysOf s := by
  simp only [applyFiltersDeferred, updateRouteQuery]
  split <;> rfl

theorem wellFormed_of_keysOf (c2u : String → String) (opt : Opt) (s t : State)
    (h : keysOf s = keysOf t) (hwf : WellFormed c2u opt t) : WellFormed c2u opt s := by
  simp only [keysOf, Prod.mk.injEq] at h
  unfold WellFormed at hwf ⊢
  rw [h.1, h.2]
  exact hwf

/-- Every state a view can be in is of the registry shape, for a registry whose
two pagination keys are distinct canonical names. -/
theorem reachable_wellFormed (c2u : String → String) (opt : Opt)
    (hp : c2u (newPageKey opt) = newPageKey opt) (hpp : c2u (perPageKey opt) = perPageKey opt)
    (hne : newPageKey opt ≠ perPageKey opt) (s : State) (h : Reachable c2u opt s) :
    WellFormed c2u opt s := by
  induction h with
  | construct route => exact construct_wellFormed c2u opt route hp hpp hne
  | routeChange s route _ ih =>
    exact wellFormed_of_keysOf c2u opt _ s (onRouteWatch_keysOf c2u opt _) ih
  | applyFilters s _ ih =>
    exact wellFormed_of_keysOf c2u opt _ s
      (applyFilters_proj keysOf setQueryParam_keysOf (fun _ _ => rfl) c2u opt s) ih
  | applyFiltersDeferred s _ ih =>
    exact wellFormed_of_keysOf c2u opt _ s (applyFiltersDeferred_keysOf c2u s) ih
  | clearFilters s _ ih =>
    exact wellFormed_of_keysOf c2u opt _ s (clearFilters_keysOf c2u opt s) ih
  | incCurrentPage s _ ih =>
    exact wellFormed_of_keysOf c2u opt _ s (incCurrentPageByMoreMode_keysOf opt s) ih
  | fetchSettled s sr response _ ih =>
    exact wellFormed_of_keysOf c2u opt _ s (onFetchSettled_keysOf c2u opt sr response s) ih
  | editFilter s i v _ ih =>
    exact wellFormed_of_keysOf c2u opt _ s (setFilter_keysOf i v s) ih
  | editQueryParam s k v _ ih =>
    exact wellFormed_of_keysOf c2u opt _ s (setQueryParam_keysOf k v s) ih

/-- Under an idempotent canonical-name mapping every `QueryState` key of a state
a view can be in is a fixed point of the mapping. -/
theorem reachable_keys_canonical (c2u : String → String) (opt : Opt)
    (hidem : ∀ s, c2u (c2u s) = c2u s) (s : State) (h : Reachable c2u opt s) :
    ∀ k ∈ s.queryParams.keys, c2u k = k := by
  have key : ∀ (a b : State), keysOf a = keysOf b →
      (∀ k ∈ b.queryParams.keys, c2u k = k) → ∀ k ∈ a.queryParams.keys, c2u k = k := by
    intro a b hab hb k hk
    simp only [keysOf, Prod.mk.injEq] at hab
    exact hb k (hab.1 ▸ hk)
  induction h with
  | construct route => exact construct_keys_canonical c2u opt route hidem
  | routeChange s route _ ih => exact key _ s (onRouteWatch_keysOf c2u opt _) ih
  | applyFilters s _ ih =>
    exact key _ s (applyFilters_proj keysOf setQueryParam_keysOf (fun _ _ => rfl) c2u opt s) ih
  | applyFiltersDeferred s _ ih => exact key _ s (applyFiltersDeferred_keysOf c2u s) ih
  | clearFilters s _ ih => exact key _ s (clearFilters_keysOf c2u opt s) ih
  | incCurrentPage s _ ih => exact key _ s (incCurrentPageByMoreMode_keysOf opt s) ih
  | fetchSettled s sr response _ ih =>
    exact key _ s (onFetchSettled_keysOf c2u opt sr response s) ih
  | editFilter s i v _ ih => exact key _ s (setFilter_keysOf i v s) ih
  | editQueryParam s k v _ ih => exact key _ s (setQueryParam_keysOf k v s) ih

/-! ### C7 -/

/-- C7 (fails on the code): after construction on `?page=2` and an inbound sync
to a route without a page parameter, a state the view can be in,
`QueryState[page]` holds the raw `undefined` while the page shown is 1; the
load-more trigger then sets the mode to APPEND but leaves
`QueryState[page] = NaN`, not 2. -/
theorem load_more_after_inbound_sync_is_nan :
    Reachable camelToUnderscore {}
      (onRouteWatch camelToUnderscore {}
        { construct camelToUnderscore {} { name := .str "list", query := [("page", .str "2")] }
          with route := { name := .str "list", query := [] } }).state ∧
    (onRouteWatch camelToUnderscore {}
        { construct camelToUnderscore {} { name := .str "list", query := [("page", .str "2")] }
          with route := { name := .str "list", query := [] } }).thrown = none ∧
    routeParamsRef camelToUnderscore {} { name := .str "list", query := [] } "page"
      = .ok (.num 1) ∧
    (onRouteWatch camelToUnderscore {}
        { construct camelToUnderscore {} { name := .str "list", query := [("page", .str "2")] }
          with route := { name := .str "list", query := [] } }).state.queryParams.get "page"
      = .undefined ∧
    (incCurrentPageByMoreMode {}
        (onRouteWatch camelToUnderscore {}
          { construct camelToUnderscore {} { name := .str "list", query := [("page", .str "2")] }
            with route := { name := .str "list", query := [] } }).state).state.mode = .more ∧
    (incCurrentPageByMoreMode {}
        (onRouteWatch camelToUnderscore {}
          { construct camelToUnderscore {} { name := .str "list", query := [("page", .str "2")] }
            with route := { name := .str "list", query := [] } }).state).state.queryParams.get
        "page" = .nan := by
  refine ⟨?_, by rfl, by rfl, by rfl, by rfl, by rfl⟩
  exact Reachable.routeChange _ _ (Reachable.construct _)

/-! ### C12 -/

theorem Obj.get_of_mem_nodup (o : Obj) (k : String) (v : Val) (hn : o.keys.Nodup)
    (h : (k, v) ∈ o) : o.get k = v := by
  induction o with
  | nil => cases h
  | cons e rest ih =>
    obtain ⟨i, w⟩ := e
    simp only [Obj.keys, List.map_cons, List.nodup_cons] at hn ih
    simp only [List.mem_cons, Prod.mk.injEq] at h
    rcases h with ⟨rfl, rfl⟩ | h
    · simp [Obj.get]
    · have hne : i ≠ k := by
        rintro rfl
        exact hn.1 (List.mem_map_of_mem Prod.fst h)
      simp only [Obj.get, hne, if_false]
      exact ih hn.2 h

/-- A write under one of the two pagination keys does not change
`enabledSearchButton`. -/
theorem enabledSearchButton_set_pagination (opt : Opt) (st : State) (k : String) (v : Val)
    (hk : k = newPageKey opt ∨ k = perPageKey opt) :
    enabledSearchButton opt { st with filters := st.filters.set k v } =
      enabledSearchButton opt st := by
  simp only [enabledSearchButton]
  generalize st.filters = fl
  induction fl with
  | nil => rcases hk with rfl | rfl <;> simp [Obj.set]
  | cons e rest ih =>
    obtain ⟨i, w⟩ := e
    by_cases hik : i = k
    · subst hik
      rcases hk with rfl | rfl <;> simp [Obj.set]
    · simp only [Obj.set, hik, if_false, List.any_cons, ih]

/-- C12: on a `FilterState` with distinct keys, `enabledSearchButton` is true if
and only if some key other than the page key and the page-size key holds a
truthy value; whatever is written under the page key and the page-size key
does not change it. -/
theorem enabledSearchButton_iff (opt : Opt) (st : State) (hn : st.filters.keys.Nodup) :
    (enabledSearchButton opt st = true ↔
      ∃ k ∈ st.filters.keys, k ≠ newPageKey opt ∧ k ≠ perPageKey opt ∧
        (st.filters.get k).truthy = true) ∧
    (∀ v w : Val,
      enabledSearchButton opt
          { st with filters := Obj.set (Obj.set st.filters (newPageKey opt) v) (perPageKey opt) w } =
        enabledSearchButton opt st) := by
  constructor
  · simp only [enabledSearchButton, List.any_eq_true, Bool.and_eq_true, Bool.not_eq_true',
      List.contains_eq_any_beq, List.any_cons, List.any_nil, Bool.or_false, Bool.or_eq_false_iff,
      beq_eq_false_iff_ne, ne_eq]
    constructor
    · rintro ⟨e, he, ⟨h1, h2⟩, h3⟩
      refine ⟨e.1, List.mem_map_of_mem Prod.fst he, h2, h1, ?_⟩
      rw [Obj.get_of_mem_nodup st.filters e.1 e.2 hn he]
      exact h3
    · rintro ⟨k, hk, h1, h2, h3⟩
      exact ⟨(k, st.filters.get k), Obj.get_mem st.filters k hk, ⟨h2, h1⟩, h3⟩
  · intro v w
    rw [enabledSearchButton_set_pagination opt { st with filters := st.filters.set (newPageKey opt) v }
      (perPageKey opt) w (Or.inr rfl)]
    exact enabledSearchButton_set_pagination opt st (newPageKey opt) v (Or.inl rfl)

/-- Witness for C12: a truthy status filter enables the button, whatever the
page and the page size hold. -/
theorem enabledSearchButton_iff_witness :
    enabledSearchButton { filters := some ["status"] }
        { route := { name := .str "list", query := [] }
          filters := [("page", .num 3), ("per_page", .num 20), ("status", .str "open")]
          queryParams := [("page", .num 3), ("per_page", .num 20), ("status", .undefined)]
          items := none
          totalRows := 0
          mode := .next
          queryWatching := true } = true :=
  ((enabledSearchButton_iff { filters := some ["status"] }
    { route := { name := .str "list", query := [] }
      filters := [("page", .num 3), ("per_page", .num 20), ("status", .str "open")]
      queryParams := [("page", .num 3), ("per_page", .num 20), ("status", .undefined)]
      items := none
      totalRows := 0
      mode := .next
      queryWatching := true } (by decide)).1).2
    ⟨"status", by decide, by decide, by decide, by rfl⟩

/-! ### C13 -/

theorem Obj.has_of_get_ne_undefined (o : Obj) (k : String) (h : o.get k ≠ .undefined) :
    o.has k = true := by
  cases hh : o.has k with
  | true => rfl
  | false =>
    exfalso
    apply h
    apply Obj.get_of_not_mem
    intro hmem
    rw [(Obj.has_eq_true_iff o k).2 hmem] at hh
    cases hh

/-- C13 (fails as stated): a view constructed on
`?page=94906267&per_page=94906269` whose fetch returns a total of
`9007199705687824` rows holds the three integers, and the exact product
`9007199705687823` is below `totalRows`, yet `canShowLoadMore` is false: the
product of the two doubles is the double `9007199705687824`. -/
theorem canShowLoadMore_rounds_large_product :
    Reachable camelToUnderscore {}
      (onFetchSettled camelToUnderscore {} .assign (some (["r1"], 9007199705687824))
        (construct camelToUnderscore {}
          { name := .str "list"
            query := [("page", .str "94906267"), ("per_page", .str "94906269")] })).state ∧
    (onFetchSettled camelToUnderscore {} .assign (some (["r1"], 9007199705687824))
        (construct camelToUnderscore {}
          { name := .str "list"
            query := [("page", .str "94906267"), ("per_page", .str "94906269")] })).state.queryParams =
      [("page", .num 94906267), ("per_page", .num 94906269)] ∧
    (onFetchSettled camelToUnderscore {} .assign (some (["r1"], 9007199705687824))
        (construct camelToUnderscore {}
          { name := .str "list"
            query := [("page", .str "94906267"), ("per_page", .str "94906269")] })).state.totalRows =
      9007199705687824 ∧
    (94906267 : Int) * 94906269 < 9007199705687824 ∧
    canShowLoadMore {}
        (onFetchSettled camelToUnderscore {} .assign (some (["r1"], 9007199705687824))
          (construct camelToUnderscore {}
            { name := .str "list"
              query := [("page", .str "94906267"), ("per_page", .str "94906269")] })).state =
      .ok false := by
  refine ⟨?_, by rfl, by rfl, by decide, by rfl⟩
  exact Reachable.fetchSettled _ _ _ (Reachable.construct _)

/-- C13 (amended): when `QueryState` holds the integers `page` and `pageSize`
under the two pagination keys, `canShowLoadMore` is true exactly when the
Number value of `page * pageSize`, the double nearest to the product, is below
`totalRows`; when the product is at most `2 ^ 53` in magnitude that is
`page * pageSize < totalRows`.  `canShowPagination` is true exactly when
`pageSize < totalRows`. -/
theorem canShow_of_integers (opt : Opt) (st : State) (page pageSize : Int)
    (hp : st.queryParams.get (newPageKey opt) = .num page)
    (hs : st.queryParams.get (perPageKey opt) = .num pageSize) :
    canShowLoadMore opt st =
      .ok (Num.lt
        (roundRatio (decide (page < 0) != decide (pageSize < 0)) (page.natAbs * pageSize.natAbs) 1)
        (Num.ofInt st.totalRows)) ∧
    ((page * pageSize).natAbs ≤ 2 ^ 53 →
      canShowLoadMore opt st = .ok (decide (page * pageSize < st.totalRows))) ∧
    canShowPagination opt st = .ok (decide (pageSize < st.totalRows)) := by
  have hhp : st.queryParams.has (newPageKey opt) = true :=
    Obj.has_of_get_ne_undefined _ _ (by rw [hp]; exact fun h => by cases h)
  have hhs : st.queryParams.has (perPageKey opt) = true :=
    Obj.has_of_get_ne_undefined _ _ (by rw [hs]; exact fun h => by cases h)
  have hload : canShowLoadMore opt st =
      .ok (jsLtNum (jsMul (.num page) (.num pageSize)) st.totalRows) := by
    simp only [canShowLoadMore, Obj.refValue, hhp, hhs, if_true, hp, hs]
  refine ⟨?_, fun hle => ?_, ?_⟩
  · have hmul : jsMul (.num page) (.num pageSize) =
        Val.ofNum (roundRatio (decide (page < 0) != decide (pageSize < 0))
          (page.natAbs * pageSize.natAbs) 1) := by
      simp only [jsMul, Val.toNumber, Num.ofInt, Num.mul, Nat.add_zero, pow_zero]
    rw [hload, hmul, jsLtNum, toNumber_ofNum_roundRatio]
  · rw [hload, jsLtNum_jsMul_num page pageSize _ hle]
  · simp only [canShowPagination, Obj.refValue, hhs, if_true, hs]
    rw [jsLtNum_num]

/-- Witness for C13: page 1 with 20 per page; both are false at 15 rows and both
are true at 50 rows. -/
theorem canShow_of_integers_witness :
    (canShowLoadMore {}
        { construct camelToUnderscore {} { name := .str "list", query := [] } with
          totalRows := 15 } = .ok false ∧
      canShowPagination {}
        { construct camelToUnderscore {} { name := .str "list", query := [] } with
          totalRows := 15 } = .ok false) ∧
    (canShowLoadMore {}
        { construct camelToUnderscore {} { name := .str "list", query := [] } with
          totalRows := 50 } = .ok true ∧
      canShowPagination {}
        { construct camelToUnderscore {} { name := .str "list", query := [] } with
          totalRows := 50 } = .ok true) :=
  ⟨⟨(canShow_of_integers {}
        { construct camelToUnderscore {} { name := .str "list", query := [] } with
          totalRows := 15 } 1 20 (by rfl) (by rfl)).2.1 (by decide),
    (canShow_of_integers {}
        { construct camelToUnderscore {} { name := .str "list", query := [] } with
          totalRows := 15 } 1 20 (by rfl) (by rfl)).2.2⟩,
   ⟨(canShow_of_integers {}
        { construct camelToUnderscore {} { name := .str "list", query := [] } with
          totalRows := 50 } 1 20 (by rfl) (by rfl)).2.1 (by decide),
    (canShow_of_integers {}
        { construct camelToUnderscore {} { name := .str "list", query := [] } with
          totalRows := 50 } 1 20 (by rfl) (by rfl)).2.2⟩⟩

/-! ### C15 -/

/-- C15: when the configured action is not registered in the store, a fetch in
either mode throws the configuration error before anything else happens: no
call reaches the store, so no handler is ever attached or run, and the state
(`Items`, `TotalRows`, the mode, `FilterState`, `QueryState`) is the one before. -/
theorem fetch_unregistered_action (c2u : String → String) (opt : Opt) (store : Store)
    (st : State) (h : opt.action ∉ store.actions) :
    (∀ sr : SetResult,
      fetch c2u opt store sr st =
        { state := st
          effects := []
          thrown := some (.configError ("action \"" ++ opt.action ++ "\" not found in store")) }) ∧
    fetchItems c2u opt store st =
      { state := st
        effects := []
        thrown := some (.configError ("action \"" ++ opt.action ++ "\" not found in store")) } ∧
    dispatchedPayloads (fetchItems c2u opt store st).effects = [] ∧
    (fetchItems c2u opt store st).state = st := by
  have hf : ∀ sr : SetResult,
      fetch c2u opt store sr st =
        { state := st
          effects := []
          thrown := some (.configError ("action \"" ++ opt.action ++ "\" not found in store")) } := by
    intro sr
    simp only [fetch, h, if_false]
  have hi : fetchItems c2u opt store st =
      { state := st
        effects := []
        thrown := some (.configError ("action \"" ++ opt.action ++ "\" not found in store")) } := by
    rw [fetchItems_setResult, hf]
  refine ⟨hf, hi, ?_, ?_⟩
  · rw [hi]
    rfl
  · rw [hi]

/-- Witness for C15: the default action `fetchList` on a store that only has
`loadUsers`, in APPEND mode. -/
theorem fetch_unregistered_action_witness :
    fetchItems camelToUnderscore {} { actions := ["loadUsers"] }
        { construct camelToUnderscore {} { name := .str "list", query := [] } with
          mode := .more, items := some ["a"] } =
      { state :=
          { construct camelToUnderscore {} { name := .str "list", query := [] } with
            mode := .more, items := some ["a"] }
        effects := []
        thrown := some (.configError "action \"fetchList\" not found in store") } :=
  (fetch_unregistered_action camelToUnderscore {} { actions := ["loadUsers"] }
    { construct camelToUnderscore {} { name := .str "list", query := [] } with
      mode := .more, items := some ["a"] } (by decide)).2.1

/-! ### C19 -/

/-- C19 (fails on the code): the request of `updateRouteQuery` carries the built
query, but its name is read from the `route` ref itself (`route.name`), not from
`route.value`, so it is `undefined` whatever the current route is called; on the
route named `list` showing page 1, a `QueryState` at page 2 requests
`{ name: undefined, query: { page: 2 } }`. -/
theorem updateRouteQuery_name_is_undefined :
    (∀ (c2u : String → String) (st : State),
      (updateRouteQuery c2u st).effects = [] ∨
      (updateRouteQuery c2u st).effects =
        [.replace { name := .undefined, query := buildQuery c2u st.queryParams }]) ∧
    (updateRouteQuery camelToUnderscore
        { route := { name := .str "list", query := [("page", .str "1")] }
          filters := [("page", .num 2), ("per_page", .null)]
          queryParams := [("page", .num 2), ("per_page", .null)]
          items := none
          totalRows := 0
          mode := .next
          queryWatching := true }).effects =
      [.replace { name := .undefined, query := [("page", .num 2)] }] ∧
    (Val.undefined ≠ Val.str "list") := by
  refine ⟨fun c2u st => ?_, by rfl, fun h => by cases h⟩
  simp only [updateRouteQuery]
  split
  · exact Or.inr rfl
  · exact Or.inl rfl

/-! ### C20 -/

/-- A `then` handler that throws has not reached the mode reset. -/
theorem onFetchResolved_mode_of_thrown (opt : Opt) (sr : SetResult) (data : List Record)
    (total : Int) (st : State) (h : (onFetchResolved opt sr data total st).thrown ≠ none) :
    (onFetchResolved opt sr data total st).state.mode = st.mode := by
  unfold onFetchResolved at h ⊢
  have hmerge : (applySetResult sr data { st with totalRows := total }).state.mode = st.mode := by
    cases sr
    · rfl
    · simp only [applySetResult]
      cases st.items <;> rfl
  cases h1 : (applySetResult sr data { st with totalRows := total }).thrown with
  | some e =>
    rw [Outcome.andThen_of_thrown _ _ e h1]
    exact hmerge
  | none =>
    rw [Outcome.andThen_of_ok _ _ h1] at h ⊢
    have hrec : (stalePageRecovery opt total
        (applySetResult sr data { st with totalRows := total }).state).state.mode = st.mode := by
      rw [stalePageRecovery_proj State.mode (setQueryParam_proj State.mode fun _ _ => rfl)]
      exact hmerge
    cases h2 : (stalePageRecovery opt total
        (applySetResult sr data { st with totalRows := total }).state).thrown with
    | some e =>
      simp only [Outcome.andThen_of_thrown _ _ e h2]
      exact hrec
    | none =>
      exfalso
      apply h
      simp only [Outcome.andThen_of_ok _ _ h2]

/-- C20: a fetch that ends in the `catch` handler, because the dispatch is
rejected or because the `then` handler throws, leaves the mode as it was, so
after a fetch issued in APPEND mode the next `fetchItems` pushes again; a
rejection leaves `Items` as it was, and so does a push onto a `null` `Items`. -/
theorem failed_fetch_keeps_mode (c2u : String → String) (opt : Opt) (store : Store)
    (sr : SetResult) (response : Option (List Record × Int)) (st : State)
    (h : response = none ∨
      ∃ data total, response = some (data, total) ∧
        (onFetchResolved opt sr data total st).thrown ≠ none) :
    (onFetchSettled c2u opt sr response st).state.mode = st.mode ∧
    (st.mode = .more →
      fetchItems c2u opt store (onFetchSettled c2u opt sr response st).state =
        fetch c2u opt store .push (onFetchSettled c2u opt sr response st).state) ∧
    (response = none → (onFetchSettled c2u opt sr response st).state.items = st.items) ∧
    (sr = .push → st.items = none →
      (onFetchSettled c2u opt sr response st).state.items = none) := by
  have hmode : (onFetchSettled c2u opt sr response st).state.mode = st.mode := by
    rcases h with rfl | ⟨data, total, rfl, hthrown⟩
    · exact clearFilters_proj State.mode (setQueryParam_proj State.mode fun _ _ => rfl)
        (fun _ _ => rfl) (fun _ => rfl) c2u opt st
    · rw [onFetchSettled_proj State.mode (setQueryParam_proj State.mode fun _ _ => rfl)
        (fun _ _ => rfl) (fun _ => rfl)]
      exact onFetchResolved_mode_of_thrown opt sr data total st hthrown
  refine ⟨hmode, ?_, ?_, ?_⟩
  · intro hm
    rw [fetchItems_setResult, hmode, hm]
    rfl
  · rintro rfl
    exact clearFilters_proj State.items (setQueryParam_proj State.items fun _ _ => rfl)
      (fun _ _ => rfl) (fun _ => rfl) c2u opt st
  · rintro rfl hnull
    rcases h with rfl | ⟨data, total, rfl, -⟩
    · rw [← hnull]
      exact clearFilters_proj State.items (setQueryParam_proj State.items fun _ _ => rfl)
        (fun _ _ => rfl) (fun _ => rfl) c2u opt st
    · rw [onFetchSettled_proj State.items (setQueryParam_proj State.items fun _ _ => rfl)
        (fun _ _ => rfl) (fun _ => rfl), (onFetchResolved_items_total opt .push data total st).1]
      simp [applySetResult, hnull]

/-- Witness for C20: load more on a view whose `Items` is still `null`; the
response arrives, the push throws, the `catch` handler runs, and the mode is
still APPEND with `Items` still `null`. -/
theorem failed_fetch_keeps_mode_witness :
    (onFetchSettled camelToUnderscore {} .push (some (["a"], 5))
        (incCurrentPageByMoreMode {}
          (construct camelToUnderscore {} { name := .str "list", query := [] })).state).state.mode
      = .more ∧
    (onFetchSettled camelToUnderscore {} .push (some (["a"], 5))
        (incCurrentPageByMoreMode {}
          (construct camelToUnderscore {} { name := .str "list", query := [] })).state).state.items
      = none :=
  ⟨(failed_fetch_keeps_mode camelToUnderscore {} { actions := ["fetchList"] } .push
      (some (["a"], 5))
      (incCurrentPageByMoreMode {}
        (construct camelToUnderscore {} { name := .str "list", query := [] })).state
      (Or.inr ⟨["a"], 5, rfl, by decide⟩)).1,
   (failed_fetch_keeps_mode camelToUnderscore {} { actions := ["fetchList"] } .push
      (some (["a"], 5))
      (incCurrentPageByMoreMode {}
        (construct camelToUnderscore {} { name := .str "list", query := [] })).state
      (Or.inr ⟨["a"], 5, rfl, by decide⟩)).2.2.2 rfl (by rfl)⟩

/-! ### The keys of a reachable state -/

theorem Obj.keys_set (o : Obj) (k : String) (v : Val) :
    (o.set k v).keys = if k ∈ o.keys then o.keys else o.keys ++ [k] := by
  by_cases hk : k ∈ o.keys
  · rw [if_pos hk, Obj.keys_set_of_has o k v ((Obj.has_eq_true_iff o k).2 hk)]
  · rw [if_neg hk, Obj.set_of_not_mem o k v hk]
    simp [Obj.keys]

/-- The keys a run of writes leaves depend on the keys written, not on the values. -/
theorem Obj.keys_foldl_set {α : Type} (l : List α) (key : α → String) (val val2 : α → Val)
    (acc acc2 : Obj) (h : acc.keys = acc2.keys) :
    (l.foldl (fun (o : Obj) a => o.set (key a) (val a)) acc).keys =
      (l.foldl (fun (o : Obj) a => o.set (key a) (val2 a)) acc2).keys := by
  induction l generalizing acc acc2 with
  | nil => exact h
  | cons a rest ih =>
    simp only [List.foldl_cons]
    apply ih
    rw [Obj.keys_set, Obj.keys_set, h]

theorem initParams_fst (c2u : String → String) (v : String → Val) (l : List String)
    (acc : Obj × Obj) :
    (l.foldl (fun (a : Obj × Obj) i => (a.1.set (c2u i) (v (c2u i)), a.2.set i (v (c2u i))))
        acc).1 =
      l.foldl (fun (q : Obj) i => q.set (c2u i) (v (c2u i))) acc.1 := by
  induction l generalizing acc with
  | nil => rfl
  | cons i rest ih =>
    simp only [List.foldl_cons]
    rw [ih]

theorem initParams_snd (c2u : String → String) (v : String → Val) (l : List String)
    (acc : Obj × Obj) :
    (l.foldl (fun (a : Obj × Obj) i => (a.1.set (c2u i) (v (c2u i)), a.2.set i (v (c2u i))))
        acc).2 =
      l.foldl (fun (f : Obj) i => f.set i (v (c2u i))) acc.2 := by
  induction l generalizing acc with
  | nil => rfl
  | cons i rest ih =>
    simp only [List.foldl_cons]
    rw [ih]

/-- The constructor gives `queryParams` the keys of `routeParams`. -/
theorem construct_queryParams_keys (c2u : String → String) (opt : Opt) (route : Route) :
    (construct c2u opt route).queryParams.keys = routeParamKeys c2u opt := by
  show (initParams c2u opt route).1.keys = routeParamKeys c2u opt
  unfold initParams routeParamKeys
  rw [initParams_fst c2u (routeParamValue opt route)]
  exact Obj.keys_foldl_set _ c2u _ _ [] [] rfl

/-- Every state a view can be in has the keys the constructor gave it. -/
theorem reachable_keysOf (c2u : String → String) (opt : Opt) (s : State)
    (h : Reachable c2u opt s) : ∃ route, keysOf s = keysOf (construct c2u opt route) := by
  induction h with
  | construct route => exact ⟨route, rfl⟩
  | routeChange s route _ ih =>
    obtain ⟨r, hr⟩ := ih
    exact ⟨r, (onRouteWatch_keysOf c2u opt _).trans hr⟩
  | applyFilters s _ ih =>
    obtain ⟨r, hr⟩ := ih
    exact ⟨r, (applyFilters_proj keysOf setQueryParam_keysOf (fun _ _ => rfl) c2u opt s).trans hr⟩
  | applyFiltersDeferred s _ ih =>
    obtain ⟨r, hr⟩ := ih
    exact ⟨r, (applyFiltersDeferred_keysOf c2u s).trans hr⟩
  | clearFilters s _ ih =>
    obtain ⟨r, hr⟩ := ih
    exact ⟨r, (clearFilters_keysOf c2u opt s).trans hr⟩
  | incCurrentPage s _ ih =>
    obtain ⟨r, hr⟩ := ih
    exact ⟨r, (incCurrentPageByMoreMode_keysOf opt s).trans hr⟩
  | fetchSettled s sr response _ ih =>
    obtain ⟨r, hr⟩ := ih
    exact ⟨r, (onFetchSettled_keysOf c2u opt sr response s).trans hr⟩
  | editFilter s i v _ ih =>
    obtain ⟨r, hr⟩ := ih
    exact ⟨r, (setFilter_keysOf i v s).trans hr⟩
  | editQueryParam s k v _ ih =>
    obtain ⟨r, hr⟩ := ih
    exact ⟨r, (setQueryParam_keysOf k v s).trans hr⟩

/-- In every state a view can be in, `queryParams` has the keys of `routeParams`,
without repetition, and every registry key has its two entries. -/
theorem reachable_registry (c2u : String → String) (opt : Opt) (s : State)
    (h : Reachable c2u opt s) :
    s.queryParams.keys = routeParamKeys c2u opt ∧ s.queryParams.keys.Nodup ∧
    (∀ k, k ∈ s.queryParams.keys ↔ k ∈ (filterKeys opt).map c2u) ∧
    (∀ i, i ∈ s.filters.keys ↔ i ∈ filterKeys opt) := by
  obtain ⟨route, hr⟩ := reachable_keysOf c2u opt s h
  simp only [keysOf, Prod.mk.injEq] at hr
  obtain ⟨h1, h2, h3⟩ := initParams_fold_keys c2u (routeParamValue opt route) (filterKeys opt)
    ([], []) (by simp [Obj.keys])
  refine ⟨hr.1.trans (construct_queryParams_keys c2u opt route), ?_, ?_, ?_⟩
  · rw [hr.1]
    exact h1
  · intro k
    rw [hr.1]
    have := h2 k
    simpa [Obj.keys] using this
  · intro i
    rw [hr.2]
    have := h3 i
    simpa [Obj.keys] using this

/-! ### The payload of a fetch -/

/-- A run of writes under distinct new keys, starting from the empty
dictionary, tabulates the values. -/
theorem Obj.foldl_set_fresh (ks : List String) (v : String → Val) (acc : Obj)
    (hn : ks.Nodup) (hd : ∀ k ∈ ks, k ∉ acc.keys) :
    ks.foldl (fun (p : Obj) k => p.set k (v k)) acc = acc ++ Obj.tabulate ks v := by
  induction ks generalizing acc with
  | nil => simp [Obj.tabulate]
  | cons k rest ih =>
    simp only [List.nodup_cons] at hn
    simp only [List.foldl_cons]
    rw [Obj.set_of_not_mem _ _ _ (hd k (List.mem_cons_self _ _)), ih _ hn.2]
    · simp [Obj.tabulate]
    · intro j hj hmem
      simp only [Obj.keys, List.map_append, List.map_cons, List.map_nil, List.mem_append,
        List.mem_singleton] at hmem
      rcases hmem with hmem | hmem
      · exact hd j (List.mem_cons_of_mem _ hj) hmem
      · exact hn.1 (hmem ▸ hj)

/-- In a state a view can be in, under an idempotent canonical-name mapping and
with the action registered, `fetch` calls the store once, with one payload entry
per `routeParams` key holding the coerced route value of that key. -/
theorem fetch_of_reachable (c2u : String → String) (opt : Opt) (store : Store)
    (sr : SetResult) (s : State) (hidem : ∀ x, c2u (c2u x) = c2u x)
    (hact : opt.action ∈ store.actions) (h : Reachable c2u opt s) :
    fetch c2u opt store sr s =
      { state := s
        effects := [.dispatch opt.action
          (Obj.tabulate (routeParamKeys c2u opt) (routeParamValue opt s.route)) sr] } := by
  obtain ⟨hkeys, hn, -, -⟩ := reachable_registry c2u opt s h
  have hc := reachable_keys_canonical c2u opt hidem s h
  have hmem : ∀ i ∈ s.queryParams.keys, i ∈ routeParamKeys c2u opt := by
    intro i hi
    exact hkeys ▸ hi
  have hfold : s.queryParams.keys.foldl
        (fun (p : Obj) i => p.set (c2u i) (routeParamValue opt s.route i)) [] =
      Obj.tabulate (routeParamKeys c2u opt) (routeParamValue opt s.route) := by
    have hsame : ∀ (l : List String) (acc : Obj), (∀ i ∈ l, c2u i = i) →
        l.foldl (fun (p : Obj) i => p.set (c2u i) (routeParamValue opt s.route i)) acc =
        l.foldl (fun (p : Obj) i => p.set i (routeParamValue opt s.route i)) acc := by
      intro l
      induction l with
      | nil => intro _ _; rfl
      | cons i rest ih =>
        intro acc hl
        simp only [List.foldl_cons]
        rw [hl i (List.mem_cons_self _ _)]
        exact ih _ (fun j hj => hl j (List.mem_cons_of_mem _ hj))
    rw [hsame _ _ hc, Obj.foldl_set_fresh _ _ [] hn (by simp [Obj.keys]), hkeys]
    rfl
  simp only [fetch, hact, if_true]
  rw [fetchPayload_of_mem c2u opt s.route _ [] hmem, hfold]

/-! ### C14 -/

/-- C14: in a state a view can be in, under an idempotent canonical-name mapping
and with the action registered, the payload of a fetch has the keys of
`routeParams`, which are the canonical names of the registry keys without
repetition, each holding the coerced route value of its key; it is the same for
any two states that share the route, whatever `QueryState` and `FilterState`
hold. -/
theorem fetch_payload_is_routeParams (c2u : String → String) (opt : Opt) (store : Store)
    (s : State) (hidem : ∀ x, c2u (c2u x) = c2u x) (hact : opt.action ∈ store.actions)
    (h : Reachable c2u opt s) :
    dispatchedPayloads (fetchItems c2u opt store s).effects =
      [Obj.tabulate (routeParamKeys c2u opt) (routeParamValue opt s.route)] ∧
    (routeParamKeys c2u opt).Nodup ∧
    (∀ k, k ∈ routeParamKeys c2u opt ↔ k ∈ (filterKeys opt).map c2u) ∧
    (∀ k ∈ routeParamKeys c2u opt,
      (Obj.tabulate (routeParamKeys c2u opt) (routeParamValue opt s.route)).get k =
        routeParamValue opt s.route k) ∧
    (∀ s2 : State, Reachable c2u opt s2 → s2.route = s.route →
      dispatchedPayloads (fetchItems c2u opt store s2).effects =
        dispatchedPayloads (fetchItems c2u opt store s).effects) := by
  obtain ⟨hkeys, hn, hmem, -⟩ := reachable_registry c2u opt s h
  have hpay : ∀ s2 : State, Reachable c2u opt s2 →
      dispatchedPayloads (fetchItems c2u opt store s2).effects =
        [Obj.tabulate (routeParamKeys c2u opt) (routeParamValue opt s2.route)] := by
    intro s2 h2
    rw [fetchItems_setResult, fetch_of_reachable c2u opt store _ s2 hidem hact h2]
    rfl
  refine ⟨hpay s h, hkeys ▸ hn, fun k => hkeys ▸ hmem k, ?_, ?_⟩
  · intro k hk
    rw [Obj.get_tabulate, if_pos hk]
  · intro s2 h2 hroute
    rw [hpay s2 h2, hpay s h, hroute]

/-- Witness for C14: the default configuration without filters on the route
query `{}` sends `{page: 1, per_page: 20}`. -/
theorem fetch_payload_is_routeParams_witness :
    dispatchedPayloads
        (fetchItems camelToUnderscore {} { actions := ["fetchList"] }
          (construct camelToUnderscore {} { name := .str "list", query := [] })).effects =
      [[("page", .num 1), ("per_page", .num 20)]] :=
  (fetch_payload_is_routeParams camelToUnderscore {} { actions := ["fetchList"] }
    (construct camelToUnderscore {} { name := .str "list", query := [] })
    camelToUnderscore_idem (by decide) (Reachable.construct _)).1

/-! ### C17 -/

/-- The inbound copy completes when every registry key has its entries, and
performs the writes in order on both dictionaries. -/
theorem inboundCopy_exact (c2u : String → String) (rq : Obj) (l : List String) (st : State)
    (h : ∀ i ∈ l, c2u i ∈ st.queryParams.keys ∧ i ∈ st.filters.keys) :
    inboundCopy c2u rq l st =
      { state :=
          { st with
            queryParams := l.foldl (fun (q : Obj) i => q.set (c2u i) (rq.get (c2u i)))
              st.queryParams
            filters := l.foldl (fun (f : Obj) i => f.set i (rq.get (c2u i))) st.filters } } := by
  induction l generalizing st with
  | nil => rfl
  | cons i rest ih =>
    obtain ⟨hq, hf⟩ := h i (List.mem_cons_self _ _)
    have hqh : st.queryParams.has (c2u i) = true := (Obj.has_eq_true_iff _ _).2 hq
    have hfh : st.filters.has i = true := (Obj.has_eq_true_iff _ _).2 hf
    have hrest : ∀ j ∈ rest,
        c2u j ∈ Obj.keys ({ st with
            queryParams := st.queryParams.set (c2u i) (rq.get (c2u i))
            filters := st.filters.set i (rq.get (c2u i)) } : State).queryParams ∧
        j ∈ Obj.keys ({ st with
            queryParams := st.queryParams.set (c2u i) (rq.get (c2u i))
            filters := st.filters.set i (rq.get (c2u i)) } : State).filters := by
      intro j hj
      obtain ⟨h1, h2⟩ := h j (List.mem_cons_of_mem _ hj)
      constructor
      · show c2u j ∈ (st.queryParams.set (c2u i) (rq.get (c2u i))).keys
        rw [Obj.keys_set_of_has _ _ _ hqh]
        exact h1
      · show j ∈ (st.filters.set i (rq.get (c2u i))).keys
        rw [Obj.keys_set_of_has _ _ _ hfh]
        exact h2
    simp only [inboundCopy]
    rw [setQueryParam_of_has _ _ _ hqh, Outcome.andThen_of_ok _ _ rfl]
    have hfh2 : Obj.has ({ st with
        queryParams := st.queryParams.set (c2u i) (rq.get (c2u i)) } : State).filters i = true :=
      hfh
    simp only [setFilter_of_has _ _ _ hfh2]
    rw [Outcome.andThen_of_ok _ _ rfl]
    simp only [ih _ hrest, List.foldl_cons, List.nil_append]

/-- Reading back what a run of writes left under one of the keys written, when
equal keys are written with equal values. -/
theorem Obj.get_foldl_set_key (l : List String) (key : String → String) (v : String → Val)
    (acc : Obj) (i : String) (hi : i ∈ l) :
    (l.foldl (fun (p : Obj) j => p.set (key j) (v (key j))) acc).get (key i) = v (key i) := by
  have hmap : l.foldl (fun (p : Obj) j => p.set (key j) (v (key j))) acc =
      (l.map key).foldl (fun (p : Obj) k => p.set (id k) (v k)) acc := by
    rw [List.foldl_map]
    rfl
  rw [hmap]
  exact Obj.get_foldl_set id (l.map key) v acc (key i) (fun _ _ => rfl)
    (Or.inl (List.mem_map_of_mem key hi))

/-- C17: in a state a view can be in, an inbound sync to any route completes and
leaves, for every registry key `k`, both `QueryState[canonical(k)]` and
`FilterState[k]` equal to the raw route value under `canonical(k)`
(`undefined` when the route lacks the key), whatever they held before; the
constructor seeds both with the `RouteParams` value, the coerced one. -/
theorem inbound_sync_copies_raw (c2u : String → String) (opt : Opt) (st : State)
    (route : Route) (h : Reachable c2u opt st) :
    (onRouteWatch c2u opt { st with route := route }).thrown = none ∧
    (∀ k ∈ filterKeys opt,
      (onRouteWatch c2u opt { st with route := route }).state.queryParams.get (c2u k) =
        route.query.get (c2u k) ∧
      (onRouteWatch c2u opt { st with route := route }).state.filters.get k =
        route.query.get (c2u k)) ∧
    (∀ k ∈ filterKeys opt,
      routeParamsRef c2u opt route (c2u k) = .ok (routeParamValue opt route (c2u k)) ∧
      (construct c2u opt route).queryParams.get (c2u k) = routeParamValue opt route (c2u k) ∧
      (construct c2u opt route).filters.get k = routeParamValue opt route (c2u k)) := by
  obtain ⟨-, -, hq, hf⟩ := reachable_registry c2u opt st h
  have hcopy := inboundCopy_exact c2u route.query (filterKeys opt)
    { st with route := route, queryWatching := false }
    (fun i hi => ⟨(hq (c2u i)).2 (List.mem_map_of_mem c2u hi), (hf i).2 hi⟩)
  have hwatch : onRouteWatch c2u opt { st with route := route } =
      { state :=
          { st with
            route := route
            queryWatching := true
            queryParams := (filterKeys opt).foldl
              (fun (q : Obj) i => q.set (c2u i) (route.query.get (c2u i))) st.queryParams
            filters := (filterKeys opt).foldl
              (fun (f : Obj) i => f.set i (route.query.get (c2u i))) st.filters } } := by
    simp only [onRouteWatch]
    rw [hcopy, Outcome.andThen_of_ok _ _ rfl]
    rfl
  refine ⟨by rw [hwatch], ?_, ?_⟩
  · intro k hk
    rw [hwatch]
    constructor
    · exact Obj.get_foldl_set_key (filterKeys opt) c2u route.query.get st.queryParams k hk
    · exact Obj.get_foldl_set id (filterKeys opt) (fun i => route.query.get (c2u i))
        st.filters k (fun _ _ => rfl) (Or.inl hk)
  · intro k hk
    refine ⟨?_, ?_, ?_⟩
    · simp only [routeParamsRef, mem_routeParamKeys c2u opt k hk, if_true]
    · show Obj.get (initParams c2u opt route).1 (c2u k) = _
      unfold initParams
      rw [initParams_fst c2u (routeParamValue opt route)]
      exact Obj.get_foldl_set_key (filterKeys opt) c2u (routeParamValue opt route) [] k hk
    · show Obj.get (initParams c2u opt route).2 k = _
      unfold initParams
      rw [initParams_snd c2u (routeParamValue opt route)]
      exact Obj.get_foldl_set id (filterKeys opt) (fun i => routeParamValue opt route (c2u i))
        [] k (fun _ _ => rfl) (Or.inl hk)

/-- Witness for C17: a view constructed on `?page=2` holds the number 2; after
the route changes to `?page=3` it holds the string `"3"` and, for the page size
the route lacks, `undefined`. -/
theorem inbound_sync_copies_raw_witness :
    (construct camelToUnderscore {}
        { name := .str "list", query := [("page", .str "2")] }).queryParams =
      [("page", .num 2), ("per_page", .num 20)] ∧
    (onRouteWatch camelToUnderscore {}
        { construct camelToUnderscore {} { name := .str "list", query := [("page", .str "2")] }
          with route := { name := .str "list", query := [("page", .str "3")] } }).state.queryParams =
      [("page", .str "3"), ("per_page", .undefined)] ∧
    (onRouteWatch camelToUnderscore {}
        { construct camelToUnderscore {} { name := .str "list", query := [("page", .str "2")] }
          with route := { name := .str "list", query := [("page", .str "3")] } }).thrown = none :=
  ⟨by rfl, by rfl,
   (inbound_sync_copies_raw camelToUnderscore {}
      (construct camelToUnderscore {} { name := .str "list", query := [("page", .str "2")] })
      { name := .str "list", query := [("page", .str "3")] } (Reachable.construct _)).1⟩

/-! ### One run of the watchers -/

theorem Outcome.andThen_effects_nil (o : Outcome) (f : State → Outcome) (ho : o.effects = [])
    (hf : ∀ s, (f s).effects = []) : (o.andThen f).effects = [] := by
  unfold Outcome.andThen
  cases o.thrown with
  | some e => exact ho
  | none => simp [ho, hf]

theorem setQueryParam_effects (k : String) (v : Val) (s : State) :
    (setQueryParam k v s).effects = [] := by
  unfold setQueryParam
  split <;> rfl

theorem setFilter_effects (i : String) (v : Val) (s : State) :
    (setFilter i v s).effects = [] := by
  unfold setFilter
  split <;> rfl

theorem setFilter_proj {α : Type} (proj : State → α)
    (hf : ∀ (s : State) (fl : Obj), proj { s with filters := fl } = proj s)
    (i : String) (v : Val) (st : State) : proj (setFilter i v st).state = proj st := by
  unfold setFilter
  split
  · exact hf st _
  · rfl

theorem inboundCopy_effects (c2u : String → String) (rq : Obj) (l : List String) (s : State) :
    (inboundCopy c2u rq l s).effects = [] := by
  induction l generalizing s with
  | nil => rfl
  | cons i rest ih =>
    unfold inboundCopy
    exact Outcome.andThen_effects_nil _ _ (setQueryParam_effects _ _ _)
      (fun s1 => Outcome.andThen_effects_nil _ _ (setFilter_effects _ _ _) ih)

theorem inboundCopy_route (c2u : String → String) (rq : Obj) (l : List String) (s : State) :
    (inboundCopy c2u rq l s).state.route = s.route := by
  induction l generalizing s with
  | nil => rfl
  | cons i rest ih =>
    unfold inboundCopy
    rw [Outcome.andThen_proj State.route _ _ (fun s1 => by
      rw [Outcome.andThen_proj State.route _ _ ih]
      exact setFilter_proj State.route (fun _ _ => rfl) _ _ s1)]
    exact setQueryParam_proj State.route (fun _ _ => rfl) _ _ s

/-- The inbound sync calls no collaborator and leaves the route alone. -/
theorem onRouteWatch_effects_route (c2u : String → String) (opt : Opt) (s : State) :
    (onRouteWatch c2u opt s).effects = [] ∧ (onRouteWatch c2u opt s).state.route = s.route := by
  unfold onRouteWatch
  constructor
  · exact Outcome.andThen_effects_nil _ _ (inboundCopy_effects _ _ _ _) (fun _ => rfl)
  · rw [Outcome.andThen_proj State.route _ _ (fun _ => rfl), inboundCopy_route]

/-- The outbound sync never calls the store. -/
theorem onQueryParamsWatch_no_dispatch (c2u : String → String) (s : State) :
    dispatchedPayloads (onQueryParamsWatch c2u s).effects = [] := by
  simp only [onQueryParamsWatch, updateRouteQuery]
  split
  · split <;> rfl
  · rfl

/-- In a state a view can be in, under an idempotent canonical-name mapping
and with the action registered, the watchers run by one change of the route
call the store exactly once, with the coerced `RouteParams` of the new route as
payload; the watcher run by a `QueryState` mutation calls the store not at
all, and neither does a write to `QueryState` or `FilterState` itself. -/
theorem route_change_fetches_once (c2u : String → String) (opt : Opt) (store : Store)
    (st : State) (newRoute : Route) (hidem : ∀ x, c2u (c2u x) = c2u x)
    (hact : opt.action ∈ store.actions) (h : Reachable c2u opt st) :
    dispatchedPayloads (onRouteChanged c2u opt store newRoute st).effects =
      [Obj.tabulate (routeParamKeys c2u opt) (routeParamValue opt newRoute)] ∧
    dispatchedPayloads (onQueryParamsWatch c2u st).effects = [] ∧
    (∀ (k : String) (v : Val),
      dispatchedPayloads (setQueryParam k v st).effects = [] ∧
      dispatchedPayloads (setFilter k v st).effects = []) := by
  refine ⟨?_, onQueryParamsWatch_no_dispatch c2u st, fun k v => ?_⟩
  · obtain ⟨heff, hroute⟩ := onRouteWatch_effects_route c2u opt { st with route := newRoute }
    have hreach : Reachable c2u opt (onRouteWatch c2u opt { st with route := newRoute }).state :=
      Reachable.routeChange st newRoute h
    have hfetch : onRouteParamsWatch c2u opt store
          (onRouteWatch c2u opt { st with route := newRoute }).state =
        { state := (onRouteWatch c2u opt { st with route := newRoute }).state
          effects := [.dispatch opt.action
            (Obj.tabulate (routeParamKeys c2u opt) (routeParamValue opt newRoute))
            (if (onRouteWatch c2u opt { st with route := newRoute }).state.mode = .more
              then .push else .assign)] } := by
      simp only [onRouteParamsWatch]
      rw [fetchItems_setResult, fetch_of_reachable c2u opt store _ _ hidem hact hreach, hroute]
    simp only [onRouteChanged, hfetch, heff, List.nil_append]
    simp only [dispatchedPayloads, List.filterMap_append, List.filterMap_cons,
      List.filterMap_nil]
    split_ifs
    · rfl
    · have := onQueryParamsWatch_no_dispatch c2u
        (onRouteWatch c2u opt { st with route := newRoute }).state
      simp only [dispatchedPayloads] at this
      rw [this]
      rfl
  · rw [setQueryParam_effects, setFilter_effects]
    exact ⟨rfl, rfl⟩

/-- Example: a view of the default registry on `?page=1` whose route changes to
`?page=2`. -/
theorem route_change_fetches_once_witness :
    dispatchedPayloads
        (onRouteChanged camelToUnderscore {} { actions := ["fetchList"] }
          { name := .str "list", query := [("page", .str "2")] }
          (construct camelToUnderscore {}
            { name := .str "list", query := [("page", .str "1")] })).effects =
      [[("page", .num 2), ("per_page", .num 20)]] :=
  (route_change_fetches_once camelToUnderscore {} { actions := ["fetchList"] }
    (construct camelToUnderscore {} { name := .str "list", query := [("page", .str "1")] })
    { name := .str "list", query := [("page", .str "2")] }
    camelToUnderscore_idem (by decide) (Reachable.construct _)).1

/-! ### C16 -/

/-- In a state a view can be in, the inbound sync completes, calls no
collaborator, ends with outbound sync enabled, and leaves under every
`QueryState` key the raw route value. -/
theorem onRouteWatch_of_reachable (c2u : String → String) (opt : Opt) (st : State)
    (route : Route) (h : Reachable c2u opt st) :
    (onRouteWatch c2u opt { st with route := route }).thrown = none ∧
    (onRouteWatch c2u opt { st with route := route }).effects = [] ∧
    (onRouteWatch c2u opt { st with route := route }).state.queryWatching = true ∧
    (onRouteWatch c2u opt { st with route := route }).state.queryParams =
      Obj.tabulate st.queryParams.keys route.query.get := by
  obtain ⟨-, hn, hq, hf⟩ := reachable_registry c2u opt st h
  have hcopy := inboundCopy_exact c2u route.query (filterKeys opt)
    { st with route := route, queryWatching := false }
    (fun i hi => ⟨(hq (c2u i)).2 (List.mem_map_of_mem c2u hi), (hf i).2 hi⟩)
  have hwatch : onRouteWatch c2u opt { st with route := route } =
      { state :=
          { st with
            route := route
            queryWatching := true
            queryParams := (filterKeys opt).foldl
              (fun (q : Obj) i => q.set (c2u i) (route.query.get (c2u i))) st.queryParams
            filters := (filterKeys opt).foldl
              (fun (f : Obj) i => f.set i (route.query.get (c2u i))) st.filters } } := by
    simp only [onRouteWatch]
    rw [hcopy, Outcome.andThen_of_ok _ _ rfl]
    rfl
  have hfold : (filterKeys opt).foldl
        (fun (q : Obj) i => q.set (c2u i) (route.query.get (c2u i))) st.queryParams =
      Obj.tabulate st.queryParams.keys route.query.get := by
    have hmap : (filterKeys opt).foldl
          (fun (q : Obj) i => q.set (c2u i) (route.query.get (c2u i))) st.queryParams =
        ((filterKeys opt).map c2u).foldl (fun (q : Obj) k => q.set k (route.query.get k))
          st.queryParams := by
      rw [List.foldl_map]
    rw [hmap]
    conv_lhs => rw [Obj.eq_tabulate st.queryParams hn]
    rw [Obj.foldl_set_tabulate _ _ _ route.query.get hn (fun j hj => (hq j).2 hj)]
    apply Obj.tabulate_congr
    intro k hk
    simp [(hq k).1 hk]
  rw [hwatch]
  exact ⟨rfl, rfl, rfl, hfold⟩

/-- An inbound sync to a route whose query holds, under every `QueryState` key,
the value `QueryState` already holds changes nothing in `QueryState`, so the
outbound sync does not run and no navigation is requested. -/
theorem inbound_sync_identical_query (c2u : String → String) (opt : Opt) (store : Store)
    (st : State) (route : Route) (h : Reachable c2u opt st)
    (hsame : ∀ k ∈ st.queryParams.keys, route.query.get k = st.queryParams.get k) :
    replaceRequests (onRouteChanged c2u opt store route st).effects = [] := by
  obtain ⟨-, heff, -, hqp⟩ := onRouteWatch_of_reachable c2u opt st route h
  obtain ⟨-, hn, -, -⟩ := reachable_registry c2u opt st h
  have hkeep : (onRouteWatch c2u opt { st with route := route }).state.queryParams =
      st.queryParams := by
    rw [hqp]
    conv_rhs => rw [Obj.eq_tabulate st.queryParams hn]
    exact Obj.tabulate_congr _ _ _ hsame
  have hfetch : ∀ s : State, replaceRequests (onRouteParamsWatch c2u opt store s).effects = [] ∧
      (onRouteParamsWatch c2u opt store s).state = s := by
    intro s
    simp only [onRouteParamsWatch, fetchItems, fetch]
    split <;> split <;> first | (split <;> exact ⟨rfl, rfl⟩) | exact ⟨rfl, rfl⟩
  simp only [onRouteChanged, heff, List.nil_append, (hfetch _).2, hkeep, if_true,
    List.append_nil]
  exact (hfetch _).1

/-- C16 (fails on the code): the `watch(route, ...)` callback itself requests no
navigation and ends with the flag on, but the flag is on again before the
`QueryState` watcher that its writes trigger gets to run, so that watcher does
call `updateRouteQuery`.  A view of the default registry on the bare route
whose route changes to `?tab=x` requests a navigation to the empty query. -/
theorem inbound_sync_echoes_navigation :
    (onRouteWatch camelToUnderscore {}
        { construct camelToUnderscore {} { name := .str "list", query := [] } with
          route := { name := .str "list", query := [("tab", .str "x")] } }).effects = [] ∧
    (onRouteWatch camelToUnderscore {}
        { construct camelToUnderscore {} { name := .str "list", query := [] } with
          route := { name := .str "list", query := [("tab", .str "x")] } }).state.queryWatching
      = true ∧
    onQueryParamsWatch camelToUnderscore
        (onRouteWatch camelToUnderscore {}
          { construct camelToUnderscore {} { name := .str "list", query := [] } with
            route := { name := .str "list", query := [("tab", .str "x")] } }).state =
      updateRouteQuery camelToUnderscore
        (onRouteWatch camelToUnderscore {}
          { construct camelToUnderscore {} { name := .str "list", query := [] } with
            route := { name := .str "list", query := [("tab", .str "x")] } }).state ∧
    replaceRequests
        (onRouteChanged camelToUnderscore {} { actions := ["fetchList"] }
          { name := .str "list", query := [("tab", .str "x")] }
          (construct camelToUnderscore {} { name := .str "list", query := [] })).effects =
      [{ name := .undefined, query := [] }] ∧
    replaceRequests
        (onRouteChanged camelToUnderscore {} { actions := ["fetchList"] }
          { name := .str "list", query := [("tab", .str "x")] }
          (construct camelToUnderscore {} { name := .str "list", query := [] })).effects ≠ [] := by
  refine ⟨by rfl, by rfl, by rfl, by rfl, ?_⟩
  intro h
  have h2 : replaceRequests
        (onRouteChanged camelToUnderscore {} { actions := ["fetchList"] }
          { name := .str "list", query := [("tab", .str "x")] }
          (construct camelToUnderscore {} { name := .str "list", query := [] })).effects =
      [{ name := .undefined, query := [] }] := by rfl
  rw [h2] at h
  cases h

/-! ### C11 -/

theorem Obj.get_foldl_pairs_of_not_mem (c2u : String → String) (fs : List (String × Val))
    (acc : Obj) (k : String) (h : k ∉ fs.map fun e => c2u e.1) :
    (fs.foldl (fun (q : Obj) e => q.set (c2u e.1) e.2) acc).get k = acc.get k := by
  induction fs generalizing acc with
  | nil => rfl
  | cons a rest ih =>
    simp only [List.map_cons, List.mem_cons, not_or] at h
    simp only [List.foldl_cons]
    rw [ih _ h.2, Obj.get_set_of_ne _ _ _ _ (fun heq => h.1 heq.symm)]

/-- Reading back what the copy loop of `applyFilters` left under the canonical
name of a filter, when the canonical names of the filters are pairwise
distinct. -/
theorem Obj.get_foldl_pairs (c2u : String → String) (fs : List (String × Val)) (acc : Obj)
    (hn : (fs.map fun e => c2u e.1).Nodup) (e : String × Val) (he : e ∈ fs) :
    (fs.foldl (fun (q : Obj) e => q.set (c2u e.1) e.2) acc).get (c2u e.1) = e.2 := by
  induction fs generalizing acc with
  | nil => cases he
  | cons a rest ih =>
    simp only [List.map_cons, List.nodup_cons] at hn
    simp only [List.foldl_cons]
    rcases List.mem_cons.1 he with rfl | hrest
    · rw [Obj.get_foldl_pairs_of_not_mem c2u rest _ _ hn.1, Obj.get_set_self]
    · exact ih _ hn.2 hrest

/-- What `applyFilters` and its deferred step do in a state of the registry shape
whose pagination keys are canonical names and whose filters have pairwise
distinct canonical names: the synchronous part completes with outbound sync
suppressed, `FilterState` as it was, every filter other than page and page-size
copied under its canonical name, page 1 and page size 20, and the deferred step
scheduled; the deferred step re-enables outbound sync and is one pass of
`updateRouteQuery`. -/
theorem applyFilters_of_wellFormed (c2u : String → String) (opt : Opt) (st : State)
    (hwf : WellFormed c2u opt st) (hp : c2u (newPageKey opt) = newPageKey opt)
    (hpp : c2u (perPageKey opt) = perPageKey opt)
    (hinj : (st.filters.map fun e => c2u e.1).Nodup) :
    (applyFilters c2u opt st).thrown = none ∧
    (applyFilters c2u opt st).effects = [.setTimeout 100] ∧
    (applyFilters c2u opt st).state.filters = st.filters ∧
    (applyFilters c2u opt st).state.queryWatching = false ∧
    (∀ k ∈ st.filters.keys, k ≠ newPageKey opt → k ≠ perPageKey opt →
      (applyFilters c2u opt st).state.queryParams.get (c2u k) = st.filters.get k) ∧
    (applyFilters c2u opt st).state.queryParams.get (newPageKey opt) = .num 1 ∧
    (applyFilters c2u opt st).state.queryParams.get (perPageKey opt) = .num 20 ∧
    applyFiltersDeferred c2u (applyFilters c2u opt st).state =
      updateRouteQuery c2u { (applyFilters c2u opt st).state with queryWatching := true } ∧
    (applyFiltersDeferred c2u (applyFilters c2u opt st).state).state.queryWatching = true := by
  obtain ⟨hn, hpk, hppk, hne, hto, hfrom, hr1, hr2⟩ := id hwf
  have hcopy := copyFilters_of_has c2u st.filters { st with queryWatching := false }
    (fun e he => hto e.1 (List.mem_map_of_mem Prod.fst he))
  have hkeys : (st.filters.foldl (fun (q : Obj) e => q.set (c2u e.1) e.2) st.queryParams).keys =
      st.queryParams.keys := by
    have := copyFilters_proj keysOf setQueryParam_keysOf c2u st.filters
      { st with queryWatching := false }
    rw [hcopy] at this
    simp only [keysOf, Prod.mk.injEq] at this
    exact this.1
  have hhp : Obj.has (st.filters.foldl (fun (q : Obj) e => q.set (c2u e.1) e.2) st.queryParams)
      (newPageKey opt) = true := (Obj.has_eq_true_iff _ _).2 (hkeys ▸ hpk)
  have hhpp : Obj.has (st.filters.foldl (fun (q : Obj) e => q.set (c2u e.1) e.2) st.queryParams)
      (perPageKey opt) = true := (Obj.has_eq_true_iff _ _).2 (hkeys ▸ hppk)
  have happly : applyFilters c2u opt st =
      { state :=
          { st with
            queryWatching := false
            queryParams := Obj.set (Obj.set
              (st.filters.foldl (fun (q : Obj) e => q.set (c2u e.1) e.2) st.queryParams)
              (newPageKey opt) (.num DEFAULT_PAGE)) (perPageKey opt) (.num DEFAULT_PER_PAGE) }
        effects := [.setTimeout 100] } := by
    simp only [applyFilters]
    rw [hcopy, Outcome.andThen_of_ok _ _ rfl]
    rw [clearPagination_of_has opt _ hhp hhpp, Outcome.andThen_of_ok _ _ rfl]
    rfl
  have hfn : st.filters.keys.Nodup := by
    have hcomp : (st.filters.map fun e => c2u e.1) = st.filters.keys.map c2u := by
      simp [Obj.keys, List.map_map, Function.comp_def]
    rw [hcomp] at hinj
    exact List.Nodup.of_map c2u hinj
  rw [happly]
  refine ⟨rfl, rfl, rfl, rfl, ?_, ?_, ?_, rfl, ?_⟩
  · intro k hk h1 h2
    have hmem : (k, st.filters.get k) ∈ st.filters := Obj.get_mem st.filters k hk
    have hpmem : (newPageKey opt, st.filters.get (newPageKey opt)) ∈ st.filters :=
      Obj.get_mem st.filters _ (hr2 _ (by simp [filterKeys]))
    have hppmem : (perPageKey opt, st.filters.get (perPageKey opt)) ∈ st.filters :=
      Obj.get_mem st.filters _ (hr2 _ (by simp [filterKeys]))
    have hinjon := List.inj_on_of_nodup_map hinj
    have hck1 : c2u k ≠ newPageKey opt := by
      intro heq
      have := hinjon hmem hpmem (by simp only [heq, hp])
      exact h1 (congrArg Prod.fst this)
    have hck2 : c2u k ≠ perPageKey opt := by
      intro heq
      have := hinjon hmem hppmem (by simp only [heq, hpp])
      exact h2 (congrArg Prod.fst this)
    show Obj.get (Obj.set (Obj.set _ _ _) _ _) (c2u k) = _
    rw [Obj.get_set_of_ne _ _ _ _ (Ne.symm hck2), Obj.get_set_of_ne _ _ _ _ (Ne.symm hck1)]
    exact Obj.get_foldl_pairs c2u st.filters st.queryParams hinj (k, st.filters.get k) hmem
  · show Obj.get (Obj.set (Obj.set _ _ _) _ _) _ = _
    rw [Obj.get_set_of_ne _ _ _ _ (Ne.symm hne), Obj.get_set_self]
    rfl
  · show Obj.get (Obj.set (Obj.set _ _ _) _ _) _ = _
    rw [Obj.get_set_self]
    rfl
  · simp only [applyFiltersDeferred, updateRouteQuery]
    split <;> rfl

/-- C11 (fails on the code): with the page key `pageNum`, whose canonical name is
`page_num`, `applyFilters` copies the filters and then throws a `TypeError` in
`clearPagination`, which looks the page entry up under `pageNum`: the page stays
3 and the page size 50 instead of 1 and 20, outbound sync stays suppressed, and
no deferred step is scheduled, so no `updateRouteQuery` pass follows. -/
theorem applyFilters_camel_page_key_throws :
    camelToUnderscore "pageNum" = "page_num" ∧
    (applyFilters camelToUnderscore { pageKey := some "pageNum", filters := some ["status"] }
        { construct camelToUnderscore { pageKey := some "pageNum", filters := some ["status"] }
            { name := .str "list"
              query := [("page_num", .str "3"), ("per_page", .str "50"),
                ("status", .str "open")] } with
          filters := [("pageNum", .str "3"), ("per_page", .num 50), ("status", .str "closed")] }) =
      { state :=
          { route :=
              { name := .str "list"
                query := [("page_num", .str "3"), ("per_page", .str "50"),
                  ("status", .str "open")] }
            filters := [("pageNum", .str "3"), ("per_page", .num 50), ("status", .str "closed")]
            queryParams :=
              [("page_num", .str "3"), ("per_page", .num 50), ("status", .str "closed")]
            items := none
            totalRows := 0
            mode := .next
            queryWatching := false }
        effects := []
        thrown := some .typeError } := by
  exact ⟨by decide, by rfl⟩

/-! ### C9 -/

/-- C9 (fails on the code): with the page key `pageNum`, whose canonical name is
`page_num`, the `catch` handler nulls every filter, copies the nulls into
`QueryState` and then throws a `TypeError` in `clearPagination`, which looks the
page entry up under `pageNum`: the view constructed on
`?page_num=3&per_page=50&status=open` ends with `QueryState[page_num]` and
`QueryState[per_page]` null instead of 1 and 20, with outbound sync suppressed
and no deferred step scheduled. -/
theorem rejected_fetch_camel_page_key_throws :
    camelToUnderscore "pageNum" = "page_num" ∧
    Reachable camelToUnderscore { pageKey := some "pageNum", filters := some ["status"] }
      (construct camelToUnderscore { pageKey := some "pageNum", filters := some ["status"] }
        { name := .str "list"
          query := [("page_num", .str "3"), ("per_page", .str "50"), ("status", .str "open")] }) ∧
    onFetchSettled camelToUnderscore { pageKey := some "pageNum", filters := some ["status"] }
        .assign none
        (construct camelToUnderscore { pageKey := some "pageNum", filters := some ["status"] }
          { name := .str "list"
            query := [("page_num", .str "3"), ("per_page", .str "50"),
              ("status", .str "open")] }) =
      { state :=
          { route :=
              { name := .str "list"
                query := [("page_num", .str "3"), ("per_page", .str "50"),
                  ("status", .str "open")] }
            filters := [("pageNum", .null), ("per_page", .null), ("status", .null)]
            queryParams := [("page_num", .null), ("per_page", .null), ("status", .null)]
            items := none
            totalRows := 0
            mode := .next
            queryWatching := false }
        effects := []
        thrown := some .typeError } := by
  exact ⟨by decide, Reachable.construct _, by rfl⟩

/-! ### C18 -/

/-- C18 (fails on the code): a view of the default registry on `?page=1` whose
route changes once, to `?page=2&tab=x`.  The watchers run by the change call the
store once and, the suppression flag being on again when the `QueryState`
watcher runs, request a navigation to `?page=2`; that navigation is a route
change too and its watchers call the store again with the same payload.  One
external change of the route produces two fetch calls, not one. -/
theorem route_change_with_untracked_key_fetches_twice :
    Reachable camelToUnderscore {}
      (construct camelToUnderscore {} { name := .str "list", query := [("page", .str "1")] }) ∧
    (onRouteChanged camelToUnderscore {} { actions := ["fetchList"] }
        { name := .str "list", query := [("page", .str "2"), ("tab", .str "x")] }
        (construct camelToUnderscore {}
          { name := .str "list", query := [("page", .str "1")] })).effects =
      [.dispatch "fetchList" [("page", .num 2), ("per_page", .num 20)] .assign,
       .replace { name := .undefined, query := [("page", .str "2")] }] ∧
    (∀ fuel : Nat,
      (routeChangeTrace camelToUnderscore {} { actions := ["fetchList"] } (fuel + 1)
          { name := .str "list", query := [("page", .str "2"), ("tab", .str "x")] }
          (construct camelToUnderscore {}
            { name := .str "list", query := [("page", .str "1")] })).effects =
        [.dispatch "fetchList" [("page", .num 2), ("per_page", .num 20)] .assign,
         .replace { name := .undefined, query := [("page", .str "2")] },
         .dispatch "fetchList" [("page", .num 2), ("per_page", .num 20)] .assign]) ∧
    (∀ fuel : Nat,
      (dispatchedPayloads
          (routeChangeTrace camelToUnderscore {} { actions := ["fetchList"] } (fuel + 1)
            { name := .str "list", query := [("page", .str "2"), ("tab", .str "x")] }
            (construct camelToUnderscore {}
              { name := .str "list", query := [("page", .str "1")] })).effects).length = 2) := by
  refine ⟨Reachable.construct _, by rfl, fun fuel => ?_, fun fuel => ?_⟩
  · cases fuel <;> rfl
  · cases fuel <;> rfl

end RoutePagination
